import Mathlib

/-!
# compactc: schema resolution and semantic validation

A shallow embedding of the Go packages `common` and `schema` of compactc
(`src/common/schema.go`, `src/schema/parser.go`, `src/schema/validate.go`),
followed by theorems about import resolution, class registration and field
type checking.

Modelling conventions.

* Go strings are modelled by `String` (sequences of Unicode code points), that
  is, by well-formed UTF-8 text.  On such text `strings.HasSuffix(typ, "[]")`
  and `typ[:len(typ)-2]` act on the last two code points, because `[` and `]`
  are one byte each.
* `strings.ToLower` maps `unicode.ToLower` over the runes.  On ASCII the Go
  function is the explicit `A..Z` shift; above ASCII it consults the Unicode
  tables of the Go runtime, which are a parameter of the model
  (`Env.unicodeLower`).
* `map[string]common.Class` is an association list with at most one entry per
  key; insertion overwrites.  Iteration order of a Go map is unspecified, and
  the only iteration in the code (`isCompactName`) is an existence test.
* Go `error` values are the inductive type `SchemaError`; `SchemaError.message`
  renders the text built by `fmt.Errorf`.  A `nil` error is `none`.
* The operating system and the YAML / JSON-schema / JSON libraries are fields of
  `Env`.
* `processImport`, `ParseSchemaText` and `ProcessSchema` are mutually recursive
  and need not terminate; `processImport` carries a fuel argument bounding the
  nesting depth of imports, and `Res.outOfFuel` marks exhaustion.
* The constant `validationSchema` is transcribed as a value of `JSchema`, and
  `validate` is what `gojsonschema.Validate` computes for the six keywords the
  constant uses; messages follow the default locale of that library, in the
  order required keys, additional keys, properties (Go ranges over a map there,
  so the order within one kind is not fixed by the code; no theorem depends on
  it).
-/

namespace Compactc

set_option maxRecDepth 16000

/-! ## Data model (`src/common/schema.go`) -/

/-- Go `common.Field`; `Type_` is the Go field `Type`. -/
structure Field where
  Name : String
  Type_ : String
  External : Bool
  deriving DecidableEq, Repr

/-- Go `common.Class`. -/
structure Class where
  Name : String
  Fields : List Field
  Namespace : String
  deriving DecidableEq, Repr

/-- Go `common.Schema`.  A `nil` import slice and an empty one are both `[]`:
the code only ranges over it. -/
structure Schema where
  Import : List String
  Namespace : String
  Classes : List Class
  deriving DecidableEq, Repr

/-- The errors built in `parser.go` and `validate.go`, by origin. -/
inductive SchemaError where
  /-- Message `'%s' field is defined more than once in class '%s'`. -/
  | duplicateField (field cls : String)
  /-- Message `field type '%s' is not one of the builtin types or not defined`. -/
  | unresolvedType (typ : String)
  /-- Message `Compact class with name %s and namespace %s already exist`. -/
  | duplicateClass (name ns : String)
  /-- Message `Schema is not valid, validation errors: ...`. -/
  | notValid (violations : List String)
  /-- An error handed up from the OS or from a library (`os`, `yaml`, `json`,
  `gojsonschema`). -/
  | foreign (msg : String)
  deriving DecidableEq, Repr

/-- The text of the Go error (`err.Error()`). -/
def SchemaError.message : SchemaError → String
  | .duplicateField field cls =>
      "validation error: '" ++ field ++ "' field is defined more than once in class '" ++ cls ++ "'"
  | .unresolvedType typ =>
      "validation error: field type '" ++ typ ++ "' is not one of the builtin types or not defined"
  | .duplicateClass name ns =>
      "Class defined more than once. Compact class with name " ++ name ++ " and namespace " ++ ns
        ++ " already exist"
  | .notValid violations =>
      "Schema is not valid, validation errors:\n" ++ "\n".intercalate violations ++ "\n"
  | .foreign msg => msg

/-- Outcome of a possibly non-terminating computation run with bounded fuel. -/
inductive Res (α : Type) where
  | ok (a : α)
  | err (e : SchemaError)
  | outOfFuel
  deriving DecidableEq, Repr

/-- The registry `classNames : map[string]common.Class`. -/
abbrev Registry := List (String × Class)

/-- The keys of the map. -/
def Registry.keys (reg : Registry) : List String := reg.map Prod.fst

/-- The test `_, ok := classNames[key]`. -/
def Registry.hasKey (reg : Registry) (key : String) : Bool := reg.keys.elem key

/-- The assignment `classNames[key] = cls`. -/
def Registry.insert (reg : Registry) (key : String) (cls : Class) : Registry :=
  (key, cls) :: reg.filter (fun p => p.1 != key)

/-- The read `classNames[key]`. -/
def Registry.find (reg : Registry) (key : String) : Option Class :=
  (reg.find? (fun p => p.1 == key)).map Prod.snd

/-- What the code takes from outside the repository. -/
structure Env where
  /-- The Go function `unicode.ToLower` on runes above `unicode.MaxASCII`. -/
  unicodeLower : Char → Char
  /-- The steps `os.Getwd`, `filepath.Join` and `os.ReadFile` of
  `processImport`, by relative path. -/
  readFile : String → Except SchemaError String
  /-- The generic tree `map[string]interface{}`. -/
  Tree : Type
  /-- Go `YAMLToMap` (`yaml.Unmarshal` and `ConvertMapI2MapS`). -/
  YAMLToMap : String → Except SchemaError Tree
  /-- Go `ValidateWithJSONSchema` (`json.Marshal` and `gojsonschema.Validate`). -/
  ValidateWithJSONSchema : Tree → Except SchemaError (Bool × List String)
  /-- Go `ConvertMapToSchema` (`transcode` through `encoding/json`). -/
  ConvertMapToSchema : Tree → Except SchemaError Schema

/-! ## Strings -/

/-- Go `unicode.ToLower`. -/
def toLowerRune (env : Env) (r : Char) : Char :=
  if r.toNat ≤ 127 then
    if 'A'.toNat ≤ r.toNat ∧ r.toNat ≤ 'Z'.toNat then
      Char.ofNat (r.toNat + ('a'.toNat - 'A'.toNat))
    else r
  else env.unicodeLower r

/-- Go `strings.ToLower`. -/
def ToLower (env : Env) (s : String) : String := ⟨s.data.map (toLowerRune env)⟩

/-- Go `strings.HasSuffix`. -/
def HasSuffix (s suffix : String) : Bool := suffix.data.isSuffixOf s.data

/-- The slice `typ[:len(typ)-2]`. -/
def dropLast2 (typ : String) : String := ⟨typ.data.take (typ.data.length - 2)⟩

/-! ## `src/schema/validate.go` -/

/-- Go `DefaultNamespace` (`parser.go`). -/
def DefaultNamespace : String := "com.example"

/-- Go `builtinTypes`. -/
def builtinTypes : List String :=
  [ "boolean", "int8", "int16", "int32", "int64", "float32", "float64", "string",
    "decimal", "time", "date", "timestamp", "timestampWithTimezone",
    "nullableBoolean", "nullableInt8", "nullableInt16", "nullableInt32", "nullableInt64",
    "nullableFloat32", "nullableFloat64" ]

/-- Go `isBuiltInType`. -/
def isBuiltInType (env : Env) (t : String) : Bool :=
  builtinTypes.any (fun bt => ToLower env t == ToLower env bt)

/-- Go `isCompactName`. -/
def isCompactName (typ : String) (compactNames : Registry) : Bool :=
  compactNames.any (fun p => typ == p.1)

/-- Go `getClassFullNameAndNamespace`. -/
def getClassFullNameAndNamespace (className ns : String) : String × String :=
  if ns = "" then (DefaultNamespace ++ "." ++ className, DefaultNamespace)
  else (ns ++ "." ++ className, ns)

/-- The type text that `checkAllFieldTypesAreValid` validates: one trailing
`[]` is removed when present. -/
def baseType (typ : String) : String :=
  if HasSuffix typ "[]" then dropLast2 typ else typ

/-- The inner loop of `checkAllFieldTypesAreValid` over the fields of the class
called `cName`; `fieldNames` is the set of names seen so far. -/
def checkFields (env : Env) (classNames : Registry) (cName : String) :
    List String → List Field → Option SchemaError
  | _, [] => none
  | fieldNames, f :: fs =>
    if fieldNames.elem f.Name then
      some (.duplicateField f.Name cName)
    else
      let typ := baseType f.Type_
      if isBuiltInType env typ then checkFields env classNames cName (f.Name :: fieldNames) fs
      else if f.External then checkFields env classNames cName (f.Name :: fieldNames) fs
      else if isCompactName typ classNames then
        checkFields env classNames cName (f.Name :: fieldNames) fs
      else some (.unresolvedType typ)

/-- The outer loop of `checkAllFieldTypesAreValid` over the classes. -/
def checkClasses (env : Env) (classNames : Registry) : List Class → Option SchemaError
  | [] => none
  | c :: cs =>
    match checkFields env classNames c.Name [] c.Fields with
    | some e => some e
    | none => checkClasses env classNames cs

/-- Go `checkAllFieldTypesAreValid`; `none` is the `nil` error. -/
def checkAllFieldTypesAreValid (env : Env) (schema : Schema) (classNames : Registry) :
    Option SchemaError :=
  checkClasses env classNames schema.Classes

/-- The loop of `registerClassesAndCheckForDuplicate`: the map as the loop
leaves it, and the error returned.  The assignment `cls.Namespace = nameSpace`
changes the loop variable, a copy of the slice element. -/
def registerClasses (ns : String) : List Class → Registry → Registry × Option SchemaError
  | [], classNames => (classNames, none)
  | cls :: rest, classNames =>
    let (fullName, nameSpace) := getClassFullNameAndNamespace cls.Name ns
    if classNames.hasKey fullName then
      (classNames, some (.duplicateClass cls.Name nameSpace))
    else
      registerClasses ns rest (classNames.insert fullName { cls with Namespace := nameSpace })

/-- Go `registerClassesAndCheckForDuplicate`: the state of the map on return
and the error. -/
def registerClassesAndCheckForDuplicate (schema : Schema) (classNames : Registry) :
    Registry × Option SchemaError :=
  registerClasses schema.Namespace schema.Classes classNames

/-! ## Import resolution (`src/schema/parser.go`, `ProcessSchema`) -/

/-- The loop `for _, p := range imports { if err = processImport(p, classNames) ... }`,
over a given `processImport`. -/
def processImports (pImport : String → Registry → Res Registry) :
    List String → Registry → Res Registry
  | [], classNames => .ok classNames
  | p :: ps, classNames =>
    match pImport p classNames with
    | .ok classNames' => processImports pImport ps classNames'
    | .err e => .err e
    | .outOfFuel => .outOfFuel

/-- What follows the import loop in both `ProcessSchema` and `processImport`:
register the classes, then check the fields.  Returns the registry. -/
def registerAndCheck (env : Env) (schema : Schema) (classNames : Registry) : Res Registry :=
  match registerClassesAndCheckForDuplicate schema classNames with
  | (_, some e) => .err e
  | (classNames', none) =>
    match checkAllFieldTypesAreValid env schema classNames' with
    | some e => .err e
    | none => .ok classNames'

/-- The body of Go `ProcessSchema` over a given `processImport`, returning the
local `classNames` as it is when the function returns `nil`. -/
def ProcessSchemaWith (env : Env) (pImport : String → Registry → Res Registry)
    (schema : Schema) : Res Registry :=
  match processImports pImport schema.Import [] with
  | .ok classNames => registerAndCheck env schema classNames
  | .err e => .err e
  | .outOfFuel => .outOfFuel

/-- The zero value `common.Schema{}`. -/
def Schema.zero : Schema := { Import := [], Namespace := "", Classes := [] }

/-- The steps of Go `ParseSchemaText` that precede the call of `ProcessSchema`:
`YAMLToMap`, `ValidateWithJSONSchema` and `ConvertMapToSchema`.  The error of
`ConvertMapToSchema` is overwritten by the result of `ProcessSchema`, so after a
failed conversion the function goes on with the zero schema. -/
def decodeSchema (env : Env) (schema : String) : Except SchemaError Schema :=
  match env.YAMLToMap schema with
  | .error e => .error e
  | .ok schemaMap =>
    match env.ValidateWithJSONSchema schemaMap with
    | .error e => .error e
    | .ok (isValid, schemaErrors) =>
      if !isValid then .error (.notValid schemaErrors)
      else
        match env.ConvertMapToSchema schemaMap with
        | .ok sch => .ok sch
        | .error _ => .ok Schema.zero

/-- The body of Go `ParseSchemaText` over a given `processImport`. -/
def ParseSchemaTextWith (env : Env) (pImport : String → Registry → Res Registry)
    (schema : String) : Res Schema :=
  match decodeSchema env schema with
  | .error e => .err e
  | .ok sch =>
    match ProcessSchemaWith env pImport sch with
    | .ok _ => .ok sch
    | .err e => .err e
    | .outOfFuel => .outOfFuel

/-- Go `processImport`; `fuel` bounds the depth of nested calls.  Returns the
registry after the call. -/
def processImport (env : Env) : Nat → String → Registry → Res Registry
  | 0, _, _ => .outOfFuel
  | fuel + 1, relativeYamlPath, classNames =>
    match env.readFile relativeYamlPath with
    | .error e => .err e
    | .ok yamlSchema =>
      match ParseSchemaTextWith env (processImport env fuel) yamlSchema with
      | .err e => .err e
      | .outOfFuel => .outOfFuel
      | .ok sch =>
        match processImports (processImport env fuel) sch.Import classNames with
        | .err e => .err e
        | .outOfFuel => .outOfFuel
        | .ok classNames' => registerAndCheck env sch classNames'

/-- Go `ProcessSchema`, with the registry it built; imports may nest `fuel`
deep. -/
def ProcessSchemaRegistry (env : Env) (fuel : Nat) (schema : Schema) : Res Registry :=
  ProcessSchemaWith env (processImport env fuel) schema

/-- Go `ProcessSchema`: `Res.ok ()` is the `nil` error. -/
def ProcessSchema (env : Env) (fuel : Nat) (schema : Schema) : Res Unit :=
  match ProcessSchemaRegistry env fuel schema with
  | .ok _ => .ok ()
  | .err e => .err e
  | .outOfFuel => .outOfFuel

/-- Go `ParseSchemaText`. -/
def ParseSchemaText (env : Env) (fuel : Nat) (schema : String) : Res Schema :=
  ParseSchemaTextWith env (processImport env fuel) schema

/-! ## Vocabulary of the specification -/

/-- A field is acceptable against a registry when its base type is a builtin
token, or it is marked external, or its base type is a key of the registry. -/
def Accepted (env : Env) (classNames : Registry) (f : Field) : Prop :=
  isBuiltInType env (baseType f.Type_) = true ∨ f.External = true ∨
    baseType f.Type_ ∈ classNames.keys

instance (env : Env) (classNames : Registry) (f : Field) :
    Decidable (Accepted env classNames f) := by
  unfold Accepted; infer_instance

/-- The fields are valid after the names `seen`: each is acceptable, their names
are pairwise distinct, and none of the names is among `seen`. -/
def FieldsValid (env : Env) (reg : Registry) (seen : List String) (fs : List Field) : Prop :=
  (∀ f ∈ fs, Accepted env reg f) ∧ (fs.map Field.Name).Nodup ∧ ∀ f ∈ fs, f.Name ∉ seen

/-- The class is valid: each field is acceptable and the field names are pairwise
distinct. -/
def ClassValid (env : Env) (reg : Registry) (c : Class) : Prop :=
  (∀ f ∈ c.Fields, Accepted env reg f) ∧ (c.Fields.map Field.Name).Nodup

instance (env : Env) (reg : Registry) (seen : List String) (fs : List Field) :
    Decidable (FieldsValid env reg seen fs) := by
  unfold FieldsValid; infer_instance

instance (env : Env) (reg : Registry) (c : Class) : Decidable (ClassValid env reg c) := by
  unfold ClassValid; infer_instance

/-- The strings are equal up to the case of the letters `A`..`Z`. -/
def EqUpToCase (s t : String) : Prop := s.data.map Char.toLower = t.data.map Char.toLower

instance (s t : String) : Decidable (EqUpToCase s t) := by
  unfold EqUpToCase; infer_instance

/-- The namespace of a schema: its namespace text, or the default when that is
empty. -/
def effectiveNamespace (ns : String) : String := if ns = "" then "com.example" else ns

/-- The fully-qualified name `<namespace>.<className>`. -/
def fullyQualifiedName (ns className : String) : String :=
  effectiveNamespace ns ++ "." ++ className

/-- The fully-qualified names of the classes a schema declares, in order. -/
def Schema.fullNames (s : Schema) : List String :=
  s.Classes.map (fun c => fullyQualifiedName s.Namespace c.Name)

/-- The schema that `processImport` obtains for a path, when the file can be
read and its text decodes. -/
def sourceAt (env : Env) (path : String) : Option Schema :=
  match env.readFile path with
  | .error _ => none
  | .ok text =>
    match decodeSchema env text with
    | .error _ => none
    | .ok sch => some sch

/-- The schemas reachable from an import list: directly listed, or reachable from
the import list of a listed schema. -/
inductive InClosure (env : Env) : List String → Schema → Prop where
  | direct {imports : List String} {p : String} {s : Schema} :
      p ∈ imports → sourceAt env p = some s → InClosure env imports s
  | nested {imports : List String} {p : String} {s t : Schema} :
      p ∈ imports → sourceAt env p = some s → InClosure env s.Import t →
        InClosure env imports t

/-- The keys of `reg'` are those of `reg` and the fully-qualified names of the
classes declared in the closure of `imports`. -/
def KeysExtend (env : Env) (imports : List String) (reg reg' : Registry) : Prop :=
  ∀ k, k ∈ reg'.keys ↔ k ∈ reg.keys ∨ ∃ s, InClosure env imports s ∧ k ∈ s.fullNames

/-- The schema is valid against a list of class names: in every class the field
names are pairwise distinct and every field is external or has a base type that
is a builtin token or one of the names. -/
def SchemaValidIn (env : Env) (names : List String) (s : Schema) : Prop :=
  ∀ c ∈ s.Classes, (c.Fields.map Field.Name).Nodup ∧
    ∀ f ∈ c.Fields, isBuiltInType env (baseType f.Type_) = true ∨ f.External = true ∨
      baseType f.Type_ ∈ names

instance (env : Env) (names : List String) (s : Schema) :
    Decidable (SchemaValidIn env names s) := by
  unfold SchemaValidIn; infer_instance

/-- The calls of `registerClassesAndCheckForDuplicate` for a sequence of schemas
on one registry, in order, stopping at the first error as every caller does:
the registry at the end and the error. -/
def registerAll : List Schema → Registry → Registry × Option SchemaError
  | [], reg => (reg, none)
  | s :: rest, reg =>
    match registerClassesAndCheckForDuplicate s reg with
    | (reg', none) => registerAll rest reg'
    | (reg', some e) => (reg', some e)

/-- The identities of the classes a schema declares: the pairs of effective
namespace and name. -/
def Schema.identities (s : Schema) : List (String × String) :=
  s.Classes.map (fun c => (effectiveNamespace s.Namespace, c.Name))

/-- The registries that calls of `registerClassesAndCheckForDuplicate` build from
the empty one; a call that fails still leaves the map as the loop left it. -/
inductive Reachable : Registry → Prop where
  | empty : Reachable []
  | call (schema : Schema) (reg : Registry) :
      Reachable reg → Reachable (registerClassesAndCheckForDuplicate schema reg).1

/-- Every entry has a non-empty namespace and is keyed by namespace, dot, name. -/
def EntriesWellKeyed (reg : Registry) : Prop :=
  ∀ p ∈ reg, p.2.Namespace ≠ "" ∧ p.1 = p.2.Namespace ++ "." ++ p.2.Name

/-! ## The structural validator (`validationSchema`, `validateJSONSchemaString`) -/

/-- A JSON document as `gojsonschema` loads it. The members of an object are
listed in the order of the marshalled text, no key twice. -/
inductive Json where
  | null
  | bool (b : Bool)
  | num (q : ℚ)
  | str (s : String)
  | arr (items : List Json)
  | obj (members : List (String × Json))

mutual
/-- Equality of documents, as `uniqueItems` compares them. -/
def Json.beq : Json → Json → Bool
  | .null, .null => true
  | .bool a, .bool b => a == b
  | .num a, .num b => a == b
  | .str a, .str b => a == b
  | .arr a, .arr b => Json.beqList a b
  | .obj a, .obj b => Json.beqMembers a b
  | _, _ => false
/-- Equality of arrays. -/
def Json.beqList : List Json → List Json → Bool
  | [], [] => true
  | x :: xs, y :: ys => Json.beq x y && Json.beqList xs ys
  | _, _ => false
/-- Equality of objects. -/
def Json.beqMembers : List (String × Json) → List (String × Json) → Bool
  | [], [] => true
  | (k, x) :: xs, (l, y) :: ys => k == l && Json.beq x y && Json.beqMembers xs ys
  | _, _ => false
end

/-- The JSON type of a document, as `gojsonschema` names it. -/
def Json.typeName : Json → String
  | .null => "null"
  | .bool _ => "boolean"
  | .num q => if q.den = 1 then "integer" else "number"
  | .str _ => "string"
  | .arr _ => "array"
  | .obj _ => "object"

/-- A JSON schema over the keywords that `validationSchema` uses: `type`,
`additionalProperties`, `properties`, `items`, `uniqueItems`, `required`. An
empty `types` is an untyped schema. -/
inductive JSchema where
  | mk (types : List String) (additionalProperties : Bool)
      (properties : List (String × JSchema)) (items : Option JSchema) (uniqueItems : Bool)
      (required : List String)

/-- The schema `{"type": "string"}`. -/
def stringSchema : JSchema := .mk ["string"] true [] none false []

/-- The schema of a field entry in `validationSchema`. -/
def fieldEntrySchema : JSchema :=
  .mk ["object"] false [("name", stringSchema), ("type", stringSchema)] none false
    ["name", "type"]

/-- The schema of a class entry in `validationSchema`. -/
def classEntrySchema : JSchema :=
  .mk ["object"] false
    [("name", stringSchema),
     ("fields", .mk ["array"] true [] (some fieldEntrySchema) false [])]
    none false ["name", "fields"]

/-- Go `validationSchema`. The keywords `$schema`, `id`, `title` and the empty
`definitions` do not bear on validation. -/
def validationSchema : JSchema :=
  .mk ["object"] false
    [("namespace", stringSchema),
     ("import", .mk ["array"] true [] (some stringSchema) true []),
     ("classes", .mk ["array"] true [] (some classEntrySchema) false [])]
    none false ["classes"]

/-- The field of an error: `(root)` for the document, else the path of property
names and item indices joined by dots. -/
def contextString (path : List String) : String :=
  if path.isEmpty then "(root)" else ".".intercalate path

/-- Whether a document has one of the types of a typed schema; an integer is
also a `number`. -/
def typeMatches (types : List String) (v : Json) : Bool :=
  types.isEmpty || types.contains v.typeName ||
    (v.typeName == "integer" && types.contains "number")

/-- The message of an invalid-type error. -/
def invalidTypeMessage (path : List String) (types : List String) (v : Json) : String :=
  contextString path ++ ": Invalid type. Expected: " ++ ",".intercalate types ++ ", given: " ++
    v.typeName

/-- The message of a missing required property. -/
def requiredMessage (path : List String) (property : String) : String :=
  contextString path ++ ": " ++ property ++ " is required"

/-- The message of a property that `additionalProperties: false` excludes. -/
def additionalMessage (path : List String) (property : String) : String :=
  contextString path ++ ": Additional property " ++ property ++ " is not allowed"

/-- The message of an item equal to an earlier one. -/
def uniqueMessage (path : List String) (i j : Nat) : String :=
  contextString path ++ ": array items[" ++ toString i ++ "," ++ toString j ++ "] must be unique"

/-- The errors of `required`: one for each required property that is absent. -/
def requiredErrors (path : List String) (required : List String)
    (members : List (String × Json)) : List String :=
  (required.filter (fun k => (members.lookup k).isNone)).map (requiredMessage path)

/-- The errors of `additionalProperties: false`: one for each member whose key
is not among `properties`. -/
def additionalErrors (path : List String) (allowed : List String)
    (members : List (String × Json)) : List String :=
  ((members.map Prod.fst).filter (fun k => !allowed.contains k)).map (additionalMessage path)

/-- The errors of `uniqueItems`: one for each item equal to an earlier one,
naming the last such; `seen` holds the earlier items with their indices, latest
first, and `j` is the index of the next item. -/
def uniqueErrorsFrom (path : List String) :
    List (Json × Nat) → Nat → List Json → List String
  | _, _, [] => []
  | seen, j, v :: rest =>
    (match seen.find? (fun p => p.1.beq v) with
      | some p => [uniqueMessage path p.2 j]
      | none => []) ++ uniqueErrorsFrom path ((v, j) :: seen) (j + 1) rest

/-- The loop `for i, v := range value`, collecting what `f` returns. -/
def collectIndexed {α β : Type} (f : Nat → α → List β) : Nat → List α → List β
  | _, [] => []
  | i, x :: xs => f i x ++ collectIndexed f (i + 1) xs

mutual
/-- The errors that `gojsonschema` reports for a document against a schema, at
the given path: an invalid type ends the validation of the node; an array is
checked item by item and then for uniqueness; an object is checked for required
and additional properties and then property by property. -/
def validate : JSchema → List String → Json → List String
  | .mk types additionalProperties properties items uniqueItems required, path, node =>
    if !typeMatches types node then [invalidTypeMessage path types node]
    else
      match node with
      | .arr xs =>
        validateItems items path xs ++ (if uniqueItems then uniqueErrorsFrom path [] 0 xs else [])
      | .obj ms =>
        requiredErrors path required ms ++
          (if additionalProperties then []
            else additionalErrors path (properties.map Prod.fst) ms) ++
          validateProperties properties path ms
      | _ => []
/-- The errors of the items of an array against the `items` schema. -/
def validateItems : Option JSchema → List String → List Json → List String
  | none, _, _ => []
  | some s, path, xs => collectIndexed (fun i x => validate s (path ++ [toString i]) x) 0 xs
/-- The errors of the members of an object against `properties`. -/
def validateProperties : List (String × JSchema) → List String → List (String × Json) →
    List String
  | [], _, _ => []
  | (k, s) :: rest, path, ms =>
    (match ms.lookup k with
      | some v => validate s (path ++ [k]) v
      | none => []) ++ validateProperties rest path ms
end

/-- The part of Go `validateJSONSchemaString` that follows the loading of the
document: `result.Valid()` holds when `result.Errors()` is empty, and the errors
are rendered only for an invalid document. -/
def validateDocument (doc : Json) : Bool × List String :=
  let errors := validate validationSchema [] doc
  let isValid := errors.isEmpty
  (isValid, if !isValid then errors else [])

/-- Go `validateJSONSchemaString`, over the JSON loader of `gojsonschema`. -/
def validateJSONSchemaString (loadJSON : String → Except SchemaError Json) (schema : String) :
    Except SchemaError (Bool × List String) :=
  match loadJSON schema with
  | .error e => .error e
  | .ok doc => .ok (validateDocument doc)

/-- A grammar violation of a document against a schema, at a path, with the
message that reports it: a value of the wrong shape, a missing required key, a
key that is not allowed, a violation inside the value of a property or inside
an item, and an item of a `uniqueItems` array equal to an earlier one (`i` being
the last such). -/
inductive Violates : JSchema → List String → Json → String → Prop where
  | invalidType {types : List String} {a : Bool} {p : List (String × JSchema)}
      {it : Option JSchema} {u : Bool} {r path : List String} {v : Json} :
      typeMatches types v = false →
      Violates (.mk types a p it u r) path v (invalidTypeMessage path types v)
  | required {types : List String} {a : Bool} {p : List (String × JSchema)}
      {it : Option JSchema} {u : Bool} {r path : List String} {ms : List (String × Json)}
      {k : String} :
      typeMatches types (.obj ms) = true → k ∈ r → ms.lookup k = none →
      Violates (.mk types a p it u r) path (.obj ms) (requiredMessage path k)
  | additional {types : List String} {p : List (String × JSchema)} {it : Option JSchema}
      {u : Bool} {r path : List String} {ms : List (String × Json)} {k : String} :
      typeMatches types (.obj ms) = true → k ∈ ms.map Prod.fst → k ∉ p.map Prod.fst →
      Violates (.mk types false p it u r) path (.obj ms) (additionalMessage path k)
  | property {types : List String} {a : Bool} {p : List (String × JSchema)}
      {it : Option JSchema} {u : Bool} {r path : List String} {ms : List (String × Json)}
      {k : String} {s : JSchema} {w : Json} {m : String} :
      typeMatches types (.obj ms) = true → (k, s) ∈ p → ms.lookup k = some w →
      Violates s (path ++ [k]) w m →
      Violates (.mk types a p it u r) path (.obj ms) m
  | item {types : List String} {a : Bool} {p : List (String × JSchema)} {s : JSchema}
      {u : Bool} {r path : List String} {xs : List Json} {j : Nat} {w : Json} {m : String} :
      typeMatches types (.arr xs) = true → xs[j]? = some w →
      Violates s (path ++ [toString j]) w m →
      Violates (.mk types a p (some s) u r) path (.arr xs) m
  | repeated {types : List String} {a : Bool} {p : List (String × JSchema)}
      {it : Option JSchema} {r path : List String} {xs : List Json} {i j : Nat} {x y : Json} :
      typeMatches types (.arr xs) = true → i < j → xs[i]? = some x → xs[j]? = some y →
      x.beq y = true →
      (∀ (m : Nat) (x' : Json), i < m → m < j → xs[m]? = some x' → x'.beq y = false) →
      Violates (.mk types a p it true r) path (.arr xs) (uniqueMessage path i j)

/-- The value is text. -/
def IsText (v : Json) : Prop := ∃ s, v = .str s

/-- The object has no key outside `allowed`. -/
def OnlyKeys (allowed : List String) (ms : List (String × Json)) : Prop :=
  ∀ k ∈ ms.map Prod.fst, k ∈ allowed

/-- The object has the key, with text as value. -/
def HasText (k : String) (ms : List (String × Json)) : Prop :=
  ∃ s, ms.lookup k = some (.str s)

/-- The grammar of a field entry: an object with required text `name`, required
text `type` and no other keys. -/
def FieldEntryConforms (v : Json) : Prop :=
  ∃ ms, v = .obj ms ∧ OnlyKeys ["name", "type"] ms ∧ HasText "name" ms ∧ HasText "type" ms

/-- The grammar of a class entry: an object with required text `name`, required
array `fields` of field entries and no other keys. -/
def ClassEntryConforms (v : Json) : Prop :=
  ∃ ms, v = .obj ms ∧ OnlyKeys ["name", "fields"] ms ∧ HasText "name" ms ∧
    ∃ fs, ms.lookup "fields" = some (.arr fs) ∧ ∀ f ∈ fs, FieldEntryConforms f

/-- The grammar of the root: an object with required array `classes` of class
entries, optional text `namespace`, optional array `import` of unique text
items, and no other keys. -/
def RootConforms (v : Json) : Prop :=
  ∃ ms, v = .obj ms ∧ OnlyKeys ["namespace", "import", "classes"] ms ∧
    (∀ w, ms.lookup "namespace" = some w → IsText w) ∧
    (∀ w, ms.lookup "import" = some w →
      ∃ items : List String, w = .arr (items.map Json.str) ∧ items.Nodup) ∧
    ∃ cs, ms.lookup "classes" = some (.arr cs) ∧ ∀ c ∈ cs, ClassEntryConforms c

/-- The field entry is an object without the key `type`. -/
def fieldEntryLacksType : Json → Bool
  | .obj fm => (fm.lookup "type").isNone
  | _ => false

/-- The number of field entries of a class entry that are objects without `type`. -/
def classEntryFieldsWithoutType : Json → Nat
  | .obj cm =>
    match cm.lookup "fields" with
    | some (.arr fs) => fs.countP fieldEntryLacksType
    | _ => 0
  | _ => 0

/-- The number of field entries of a document, over all its class entries, that
are objects without `type`. -/
def fieldEntriesWithoutType : Json → Nat
  | .obj ms =>
    match ms.lookup "classes" with
    | some (.arr cs) => (cs.map classEntryFieldsWithoutType).sum
    | _ => 0
  | _ => 0

/-! ## Language dispatch (`src/generate.go`) -/

/-- Go `common.ClassAndFileName`. -/
structure ClassAndFileName where
  FileName : String
  ClassName : String
  deriving DecidableEq, Repr

/-- Go `SupportedLangs`: the constants `JAVA`, `PYTHON`, `TYPESCRIPT`, `CPP`, `GO`
and `CSHARP`. -/
def SupportedLangs : List String := ["java", "py", "ts", "cpp", "go", "cs"]

/-- Go `IsLangSupported`. -/
def IsLangSupported (env : Env) (lang : String) : Bool :=
  SupportedLangs.any (fun sl => ToLower env lang == sl)

/-- How a call of `GenerateCompactClasses` ends: with the map of generated
classes and a `nil` error, in a panic, or with the error
`unsupported langugage`. -/
inductive GenerateOutcome where
  | generated (classes : List (ClassAndFileName × String))
  | panics (value : String)
  | unsupported
  deriving DecidableEq, Repr

/-- Go `GenerateCompactClasses`, over the function `java.Generate` of the package
`compactc/java`, which returns the generated source by class name. The `switch`
compares `lang` as it was passed. -/
def GenerateCompactClasses (javaGenerate : Schema → List (String × String)) (lang : String)
    (schema : Schema) : GenerateOutcome :=
  if lang = "java" then
    .generated ((javaGenerate schema).map
      (fun jc => ({ FileName := jc.1 ++ ".java", ClassName := jc.1 }, jc.2)))
  else if lang = "py" then .panics "implement me"
  else if lang = "ts" then .panics "implement me"
  else if lang = "cpp" then .panics "implement me"
  else if lang = "go" then .panics "implement me"
  else if lang = "cs" then .panics "implement me"
  else .unsupported

/-- The source at `p` loads and lists `q` among its imports. -/
def ImportsPath (env : Env) (p q : String) : Prop :=
  ∃ s, sourceAt env p = some s ∧ q ∈ s.Import

/-- The path `q` is reached from `p` through one import or more. -/
inductive Reaches (env : Env) : String → String → Prop where
  | step {p q : String} : ImportsPath env p q → Reaches env p q
  | next {p q r : String} : ImportsPath env p q → Reaches env q r → Reaches env p r

/-- The import loop over `pre`, started on the empty registry as `ProcessSchema`
starts it, does not fail, whatever the fuel: it succeeds or is still running
when the fuel ends. -/
def NeverFails (env : Env) (pre : List String) : Prop :=
  ∀ fuel e, processImports (processImport env fuel) pre [] ≠ .err e

/-- The import loop over `imports`, started on the empty registry, gets to a path
of `C`: the list holds a path of `C` after imports that never fail. -/
def GetsTo (env : Env) (C : String → Prop) (imports : List String) : Prop :=
  ∃ pre q rest, imports = pre ++ q :: rest ∧ C q ∧ NeverFails env pre

/-- The path `p` is in the closure of the list `imports`: it is listed, or
reached from a listed path through one import or more. -/
def ReachedFrom (env : Env) (imports : List String) (p : String) : Prop :=
  p ∈ imports ∨ ∃ q ∈ imports, Reaches env q p

/-! ## Concrete inputs -/

/-- A source file: its path, its text, and the schema the text decodes to. -/
structure Source where
  path : String
  text : String
  schema : Schema

/-- The environment of a working directory holding the given sources, with the
identity for `unicode.ToLower` above ASCII. -/
def Env.ofSources (srcs : List Source) : Env where
  unicodeLower := id
  readFile := fun p =>
    match srcs.find? (fun s => s.path == p) with
    | some s => .ok s.text
    | none => .error (.foreign ("open " ++ p ++ ": no such file or directory"))
  Tree := Schema
  YAMLToMap := fun t =>
    match srcs.find? (fun s => s.text == t) with
    | some s => .ok s.schema
    | none => .error (.foreign "yaml: unmarshal errors")
  ValidateWithJSONSchema := fun _ => .ok (true, [])
  ConvertMapToSchema := fun s => .ok s

/-- An empty working directory. -/
def envPlain : Env := Env.ofSources []

/-- The class of `InvalidFieldType` in `validate_test.go`. -/
def employeeWork : Class :=
  { Name := "Employee", Fields := [{ Name := "age", Type_ := "Work", External := false }],
    Namespace := "" }

/-- The schema `InvalidFieldType` of `validate_test.go`. -/
def invalidFieldType : Schema :=
  { Import := [], Namespace := "", Classes := [employeeWork] }

/-- The schema `Valid` of `validate_test.go` with its tokens in mixed case and
without the array suffix. -/
def validMixedCase : Schema :=
  { Import := [], Namespace := "",
    Classes := [{ Name := "Employee",
                  Fields := [{ Name := "age", Type_ := "INT32", External := false },
                             { Name := "name", Type_ := "String", External := false },
                             { Name := "id", Type_ := "int64", External := false }],
                  Namespace := "" }] }

/-- The schema of the test case `valid array field type`. -/
def validArrayFieldType : Schema :=
  { Import := [], Namespace := "",
    Classes := [{ Name := "Employee",
                  Fields := [{ Name := "age", Type_ := "nullableInt16[]", External := false }],
                  Namespace := "" }] }

/-- The class of the test case `invalid array field type`. -/
def employeeArrayOnly : Class :=
  { Name := "Employee", Fields := [{ Name := "age", Type_ := "[]", External := false }],
    Namespace := "" }

/-- The schema of the test case `invalid array field type`. -/
def invalidArrayFieldType : Schema :=
  { Import := [], Namespace := "", Classes := [employeeArrayOnly] }

/-- The schema `ExternalFieldType` of `validate_test.go`. -/
def externalFieldType : Schema :=
  { Import := [], Namespace := "",
    Classes := [{ Name := "Employee",
                  Fields := [{ Name := "age", Type_ := "Work", External := true }],
                  Namespace := "" }] }

/-- The class of the test case `duplicate field name different field type`. -/
def employeeAgeTwice : Class :=
  { Name := "Employee",
    Fields := [{ Name := "age", Type_ := "int8", External := false },
               { Name := "age", Type_ := "string", External := false }],
    Namespace := "" }

/-- The schema of the test case `duplicate field name different field type`. -/
def duplicateFieldName : Schema :=
  { Import := [], Namespace := "", Classes := [employeeAgeTwice] }

/-- A class that repeats the field name `age` after a field of undefined type. -/
def employeeBossAgeTwice : Class :=
  { Name := "Employee",
    Fields := [{ Name := "boss", Type_ := "Work", External := false },
               { Name := "age", Type_ := "int8", External := false },
               { Name := "age", Type_ := "string", External := false }],
    Namespace := "" }

/-- A schema whose only class is `employeeBossAgeTwice`. -/
def duplicateAfterUnresolved : Schema :=
  { Import := [], Namespace := "", Classes := [employeeBossAgeTwice] }

/-- The schema of the test case `duplicate compact class`: the first `Employee`
has a field of undefined type. -/
def duplicateCompactClass : Schema :=
  { Import := [], Namespace := "",
    Classes := [employeeWork, { Name := "Employee", Fields := [], Namespace := "" }] }

/-- A class `Employee` with one field `name` of type `string`. -/
def employeeName : Class :=
  { Name := "Employee", Fields := [{ Name := "name", Type_ := "string", External := false }],
    Namespace := "" }

/-- A source `example.yml` declaring `Employee` in the default namespace. -/
def exampleYml : Source :=
  { path := "example.yml"
    text := "classes:\n  - name: Employee\n    fields:\n      - name: name\n        type: string\n"
    schema := { Import := [], Namespace := "", Classes := [employeeName] } }

/-- A working directory holding `example.yml`. -/
def envExample : Env := Env.ofSources [exampleYml]

/-- A class `Employee` with one field `work` of type `string`. -/
def employeeWorkString : Class :=
  { Name := "Employee", Fields := [{ Name := "work", Type_ := "string", External := false }],
    Namespace := "" }

/-- The schema `SameNamespaceAndNamedClassImportedError` of `validate_test.go`. -/
def sameNamespaceAndNamedClassImported : Schema :=
  { Import := ["example.yml"], Namespace := "", Classes := [employeeWorkString] }

/-- A source `xyz.yaml` declaring `Work` in the namespace `com.xyz`. -/
def xyzYaml : Source :=
  { path := "xyz.yaml"
    text := "namespace: com.xyz\nclasses:\n  - name: Work\n    fields: []\n"
    schema := { Import := [], Namespace := "com.xyz",
                Classes := [{ Name := "Work", Fields := [], Namespace := "" }] } }

/-- A working directory holding `xyz.yaml`. -/
def envXyz : Env := Env.ofSources [xyzYaml]

/-- The schema `ImportedFieldType` of `validate_test.go`. -/
def importedFieldType : Schema :=
  { Import := ["xyz.yaml"], Namespace := "",
    Classes := [{ Name := "Employee",
                  Fields := [{ Name := "age", Type_ := "com.xyz.Work", External := false }],
                  Namespace := "" }] }

/-- A source `arr.yaml` declaring a class whose name ends in `[]`. -/
def arrYaml : Source :=
  { path := "arr.yaml"
    text := "namespace: com.xyz\nclasses:\n  - name: \"Work[]\"\n    fields: []\n"
    schema := { Import := [], Namespace := "com.xyz",
                Classes := [{ Name := "Work[]", Fields := [], Namespace := "" }] } }

/-- A working directory holding `arr.yaml`. -/
def envArr : Env := Env.ofSources [arrYaml]

/-- A root importing `arr.yaml` whose field is typed with the fully-qualified
name of the class declared there. -/
def rootUsingArr : Schema :=
  { Import := ["arr.yaml"], Namespace := "",
    Classes := [{ Name := "Employee",
                  Fields := [{ Name := "age", Type_ := "com.xyz.Work[]", External := false }],
                  Namespace := "" }] }

/-- A field typed with the class `Employee` of the default namespace. -/
def bossField : Field := { Name := "boss", Type_ := "com.example.Employee", External := false }

/-- A class whose only field is `bossField`. -/
def managerClass : Class := { Name := "Manager", Fields := [bossField], Namespace := "" }

/-- A source `a.yaml` whose class `Manager` refers to `com.example.Employee`,
which it neither declares nor imports. -/
def managerYaml : Source :=
  { path := "a.yaml"
    text := "classes:\n  - name: Manager\n    fields:\n      - name: boss\n        type: com.example.Employee\n"
    schema := { Import := [], Namespace := "", Classes := [managerClass] } }

/-- A working directory holding `a.yaml` as `managerYaml`. -/
def envManager : Env := Env.ofSources [managerYaml]

/-- A root that imports `a.yaml` and declares `Employee`. -/
def rootWithEmployee : Schema :=
  { Import := ["a.yaml"], Namespace := "", Classes := [employeeName] }

/-- A class that repeats the field name `id` before `bossField`. -/
def managerIdTwice : Class :=
  { Name := "Manager",
    Fields := [{ Name := "id", Type_ := "int8", External := false },
               { Name := "id", Type_ := "string", External := false }, bossField],
    Namespace := "" }

/-- A source `a.yaml` whose class `Manager` repeats a field name before it
refers to `com.example.Employee`. -/
def managerIdTwiceYaml : Source :=
  { path := "a.yaml"
    text := "classes:\n  - name: Manager\n    fields:\n      - name: id\n        type: int8\n      - name: id\n        type: string\n      - name: boss\n        type: com.example.Employee\n"
    schema := { Import := [], Namespace := "", Classes := [managerIdTwice] } }

/-- A working directory holding `a.yaml` as `managerIdTwiceYaml`. -/
def envManagerIdTwice : Env := Env.ofSources [managerIdTwiceYaml]

/-- A class `Job` whose field is typed with the class `Work` of `xyz.yaml`. -/
def jobClass : Class :=
  { Name := "Job", Fields := [{ Name := "work", Type_ := "com.xyz.Work", External := false }],
    Namespace := "" }

/-- A source `zyx.yaml` without imports, in the namespace `com.zyx`, whose class
`Job` refers to `com.xyz.Work`. -/
def zyxJobYaml : Source :=
  { path := "zyx.yaml"
    text := "namespace: com.zyx\nclasses:\n  - name: Job\n    fields:\n      - name: work\n        type: com.xyz.Work\n"
    schema := { Import := [], Namespace := "com.zyx", Classes := [jobClass] } }

/-- A working directory holding `xyz.yaml` and `zyx.yaml`. -/
def envSiblings : Env := Env.ofSources [xyzYaml, zyxJobYaml]

/-- A root that imports `xyz.yaml` and then `zyx.yaml`. -/
def rootSiblings : Schema :=
  { Import := ["xyz.yaml", "zyx.yaml"], Namespace := "",
    Classes := [{ Name := "Employee",
                  Fields := [{ Name := "job", Type_ := "com.zyx.Job", External := false }],
                  Namespace := "" }] }

/-- A source `base.yaml` declaring `Id` in the namespace `com.base`. -/
def baseYaml : Source :=
  { path := "base.yaml"
    text := "namespace: com.base\nclasses:\n  - name: Id\n    fields: []\n"
    schema := { Import := [], Namespace := "com.base",
                Classes := [{ Name := "Id", Fields := [], Namespace := "" }] } }

/-- A source `left.yaml` that imports `base.yaml` and declares `com.left.Work`. -/
def leftYaml : Source :=
  { path := "left.yaml"
    text := "import: [base.yaml]\nnamespace: com.left\nclasses:\n  - name: Work\n    fields:\n      - name: id\n        type: com.base.Id\n"
    schema := { Import := ["base.yaml"], Namespace := "com.left",
                Classes := [{ Name := "Work",
                              Fields := [{ Name := "id", Type_ := "com.base.Id", External := false }],
                              Namespace := "" }] } }

/-- A source `right.yaml` that imports `base.yaml` and declares `com.right.Work`. -/
def rightYaml : Source :=
  { path := "right.yaml"
    text := "import: [base.yaml]\nnamespace: com.right\nclasses:\n  - name: Work\n    fields:\n      - name: id\n        type: com.base.Id\n"
    schema := { Import := ["base.yaml"], Namespace := "com.right",
                Classes := [{ Name := "Work",
                              Fields := [{ Name := "id", Type_ := "com.base.Id", External := false }],
                              Namespace := "" }] } }

/-- A working directory holding `base.yaml`, `left.yaml` and `right.yaml`. -/
def envDiamond : Env := Env.ofSources [baseYaml, leftYaml, rightYaml]

/-- A root that imports `left.yaml` and `right.yaml` and uses the class of each. -/
def rootDiamond : Schema :=
  { Import := ["left.yaml", "right.yaml"], Namespace := "",
    Classes := [{ Name := "Employee",
                  Fields := [{ Name := "work", Type_ := "com.left.Work", External := false },
                             { Name := "work2", Type_ := "com.right.Work", External := false }],
                  Namespace := "" }] }

/-- A source `none.yaml` that declares no class. -/
def noneYaml : Source :=
  { path := "none.yaml"
    text := "namespace: com.none\nclasses: []\n"
    schema := { Import := [], Namespace := "com.none", Classes := [] } }

/-- A source `left.yaml` that imports `none.yaml` and declares `com.left.Work`. -/
def leftNoneYaml : Source :=
  { path := "left.yaml"
    text := "import: [none.yaml]\nnamespace: com.left\nclasses:\n  - name: Work\n    fields: []\n"
    schema := { Import := ["none.yaml"], Namespace := "com.left",
                Classes := [{ Name := "Work", Fields := [], Namespace := "" }] } }

/-- A source `right.yaml` that imports `none.yaml` and declares `com.right.Work`. -/
def rightNoneYaml : Source :=
  { path := "right.yaml"
    text := "import: [none.yaml]\nnamespace: com.right\nclasses:\n  - name: Work\n    fields: []\n"
    schema := { Import := ["none.yaml"], Namespace := "com.right",
                Classes := [{ Name := "Work", Fields := [], Namespace := "" }] } }

/-- A working directory holding `none.yaml` and the two sources importing it. -/
def envDiamondNone : Env := Env.ofSources [noneYaml, leftNoneYaml, rightNoneYaml]

/-- The schema `ValidNewFieldTypeDefined` of `validate_test.go`: `Employee`
refers to `Work`, which is declared after it. -/
def validNewFieldTypeDefined : Schema :=
  { Import := [], Namespace := "",
    Classes := [{ Name := "Employee",
                  Fields := [{ Name := "age", Type_ := "com.example.Work", External := false }],
                  Namespace := "" },
                { Name := "Work", Fields := [], Namespace := "" }] }

/-- A schema whose class `Employee` is typed with the fully-qualified name of
the class `Work[]` declared after it. -/
def arrayNamedClassSchema : Schema :=
  { Import := [], Namespace := "",
    Classes := [{ Name := "Employee",
                  Fields := [{ Name := "age", Type_ := "com.example.Work[]", External := false }],
                  Namespace := "" },
                { Name := "Work[]", Fields := [], Namespace := "" }] }

/-- A schema in the namespace `com` declaring the class `xyz.Work`. -/
def comXyzWork : Schema :=
  { Import := [], Namespace := "com",
    Classes := [{ Name := "xyz.Work", Fields := [], Namespace := "" }] }

/-- A source `zyx.yaml` declaring `Work` in the namespace `com.zyx`. -/
def zyxYaml : Source :=
  { path := "zyx.yaml"
    text := "namespace: com.zyx\nclasses:\n  - name: Work\n    fields: []\n"
    schema := { Import := [], Namespace := "com.zyx",
                Classes := [{ Name := "Work", Fields := [], Namespace := "" }] } }

/-- The document of the test case `valid` of `TestValidateJSONSchemaString`. -/
def validDocument : Json :=
  .obj [("classes", .arr [.obj [("fields", .arr [
      .obj [("name", .str "age"), ("type", .str "int32[]")],
      .obj [("name", .str "name"), ("type", .str "string")],
      .obj [("name", .str "id"), ("type", .str "int64")]]),
    ("name", .str "Employee")]])]

/-- The document of `ExternalFieldType`, whose field entry carries `external`. -/
def externalDocument : Json :=
  .obj [("classes", .arr [.obj [("fields", .arr [
      .obj [("external", .bool true), ("name", .str "age"), ("type", .str "Work")]]),
    ("name", .str "Employee")]])]

/-- A document whose class has two field entries, each without `type`. -/
def twoFieldsWithoutType : Json :=
  .obj [("classes", .arr [.obj [("fields", .arr [
      .obj [("name", .str "age")], .obj [("name", .str "id")]]),
    ("name", .str "Employee")]])]

/-- A JSON loader that reads every text as the given document. -/
def loadAs (doc : Json) : String → Except SchemaError Json := fun _ => .ok doc

/-- A source `self.yaml` that imports its own path. -/
def selfYaml : Source :=
  { path := "self.yaml"
    text := "import: [self.yaml]\nclasses: []\n"
    schema := { Import := ["self.yaml"], Namespace := "", Classes := [] } }

/-- A working directory holding `self.yaml`. -/
def envSelf : Env := Env.ofSources [selfYaml]

/-- A root that imports `self.yaml`. -/
def rootImportsSelf : Schema :=
  { Import := ["self.yaml"], Namespace := "", Classes := [] }

/-- A source `loop.yaml` that imports a missing file and then its own path. -/
def loopYaml : Source :=
  { path := "loop.yaml"
    text := "import: [missing.yaml, loop.yaml]\nclasses: []\n"
    schema := { Import := ["missing.yaml", "loop.yaml"], Namespace := "", Classes := [] } }

/-- A working directory holding `loop.yaml` only. -/
def envLoop : Env := Env.ofSources [loopYaml]

/-- The depth of the sources of `envDiamond` in the import graph. -/
def rankDiamond (p : String) : Nat := if p = "base.yaml" then 0 else 1

/-- A source `broken.yaml` whose class has a field of an unknown type. -/
def brokenYaml : Source :=
  { path := "broken.yaml"
    text := "classes:\n  - name: Employee\n    fields:\n      - name: age\n        type: Work\n"
    schema := invalidFieldType }

/-- A source `cycle.yaml` that imports `broken.yaml` and then its own path. -/
def cycleYaml : Source :=
  { path := "cycle.yaml"
    text := "import: [broken.yaml, cycle.yaml]\nclasses: []\n"
    schema := { Import := ["broken.yaml", "cycle.yaml"], Namespace := "", Classes := [] } }

/-- A working directory holding `broken.yaml` and `cycle.yaml`. -/
def envCycle : Env := Env.ofSources [brokenYaml, cycleYaml]

/-- A working directory holding `xyz.yaml` and the self-importing `self.yaml`. -/
def envXyzSelf : Env := Env.ofSources [xyzYaml, selfYaml]

/-- A root that imports `xyz.yaml` and then `self.yaml`. -/
def rootXyzSelf : Schema :=
  { Import := ["xyz.yaml", "self.yaml"], Namespace := "", Classes := [] }

/-! ## The field checker -/

theorem isCompactName_iff (typ : String) (reg : Registry) :
    isCompactName typ reg = true ↔ typ ∈ reg.keys := by
  unfold isCompactName Registry.keys
  simp only [List.any_eq_true, beq_iff_eq, List.mem_map]
  constructor
  · rintro ⟨p, hp, rfl⟩; exact ⟨p, hp, rfl⟩
  · rintro ⟨p, hp, rfl⟩; exact ⟨p, hp, rfl⟩

theorem checkFields_cons_of_accepted (env : Env) (reg : Registry) (cn : String)
    (seen : List String) (f : Field) (fs : List Field)
    (hnew : f.Name ∉ seen) (hacc : Accepted env reg f) :
    checkFields env reg cn seen (f :: fs) = checkFields env reg cn (f.Name :: seen) fs := by
  have h1 : List.elem f.Name seen = false := by
    simpa [List.elem_eq_mem] using hnew
  rw [checkFields, h1]
  rcases hacc with h | h | h
  · simp [h]
  · simp [h]
  · simp [(isCompactName_iff _ _).2 h]

theorem checkFields_cons_of_seen (env : Env) (reg : Registry) (cn : String)
    (seen : List String) (f : Field) (fs : List Field) (hseen : f.Name ∈ seen) :
    checkFields env reg cn seen (f :: fs) = some (.duplicateField f.Name cn) := by
  have h1 : List.elem f.Name seen = true := by
    simpa [List.elem_eq_mem] using hseen
  rw [checkFields, if_pos h1]

theorem checkFields_cons_of_unresolved (env : Env) (reg : Registry) (cn : String)
    (seen : List String) (f : Field) (fs : List Field)
    (hnew : f.Name ∉ seen) (hacc : ¬ Accepted env reg f) :
    checkFields env reg cn seen (f :: fs) = some (.unresolvedType (baseType f.Type_)) := by
  have h1 : List.elem f.Name seen = false := by
    simpa [List.elem_eq_mem] using hnew
  unfold Accepted at hacc
  push_neg at hacc
  obtain ⟨hb, he, hr⟩ := hacc
  have hr' : isCompactName (baseType f.Type_) reg = false := by
    rw [← Bool.not_eq_true, isCompactName_iff]; exact hr
  rw [checkFields, h1]
  simp [hb, he, hr']

theorem checkFields_append_valid (env : Env) (reg : Registry) (cn : String)
    (pre rest : List Field) :
    ∀ seen : List String, FieldsValid env reg seen pre →
      checkFields env reg cn seen (pre ++ rest)
        = checkFields env reg cn ((pre.map Field.Name).reverse ++ seen) rest := by
  induction pre with
  | nil => intro seen _; simp
  | cons f fs ih =>
    intro seen h
    obtain ⟨hacc, hnd, hfresh⟩ := h
    have hnd' : f.Name ∉ fs.map Field.Name ∧ (fs.map Field.Name).Nodup :=
      List.nodup_cons.1 hnd
    rw [List.cons_append, checkFields_cons_of_accepted env reg cn seen f _
      (hfresh f (List.mem_cons_self _ _)) (hacc f (List.mem_cons_self _ _))]
    rw [ih (f.Name :: seen) ⟨fun g hg => hacc g (List.mem_cons_of_mem _ hg), hnd'.2, ?_⟩]
    · simp
    · intro g hg hmem
      rcases List.mem_cons.1 hmem with h | h
      · exact hnd'.1 (h ▸ List.mem_map_of_mem _ hg)
      · exact hfresh g (List.mem_cons_of_mem _ hg) h

theorem checkFields_eq_none_iff (env : Env) (reg : Registry) (cn : String) (fs : List Field) :
    ∀ seen : List String,
      checkFields env reg cn seen fs = none ↔ FieldsValid env reg seen fs := by
  induction fs with
  | nil => intro seen; simp [checkFields, FieldsValid]
  | cons f fs ih =>
    intro seen
    by_cases hseen : f.Name ∈ seen
    · rw [checkFields_cons_of_seen env reg cn seen f fs hseen]
      constructor
      · intro h; cases h
      · intro h; exact absurd hseen (h.2.2 f (List.mem_cons_self _ _))
    · by_cases hacc : Accepted env reg f
      · rw [checkFields_cons_of_accepted env reg cn seen f fs hseen hacc, ih]
        constructor
        · rintro ⟨h1, h2, h3⟩
          refine ⟨?_, ?_, ?_⟩
          · intro g hg
            rcases List.mem_cons.1 hg with h | h
            · exact h ▸ hacc
            · exact h1 g h
          · rw [List.map_cons, List.nodup_cons]
            refine ⟨?_, h2⟩
            intro hmem
            obtain ⟨g, hg, hgn⟩ := List.mem_map.1 hmem
            exact h3 g hg (hgn ▸ List.mem_cons_self _ _)
          · intro g hg
            rcases List.mem_cons.1 hg with h | h
            · exact h ▸ hseen
            · exact fun hm => h3 g h (List.mem_cons_of_mem _ hm)
        · rintro ⟨h1, h2, h3⟩
          have hnd : f.Name ∉ fs.map Field.Name ∧ (fs.map Field.Name).Nodup :=
            List.nodup_cons.1 h2
          refine ⟨fun g hg => h1 g (List.mem_cons_of_mem _ hg), hnd.2, ?_⟩
          intro g hg hmem
          rcases List.mem_cons.1 hmem with h | h
          · exact hnd.1 (h ▸ List.mem_map_of_mem _ hg)
          · exact h3 g (List.mem_cons_of_mem _ hg) h
      · rw [checkFields_cons_of_unresolved env reg cn seen f fs hseen hacc]
        constructor
        · intro h; cases h
        · intro h; exact absurd (h.1 f (List.mem_cons_self _ _)) hacc

theorem checkFields_nil_seen_iff (env : Env) (reg : Registry) (c : Class) :
    checkFields env reg c.Name [] c.Fields = none ↔ ClassValid env reg c := by
  rw [checkFields_eq_none_iff]
  simp [FieldsValid, ClassValid]

theorem checkClasses_eq_none_iff (env : Env) (reg : Registry) (cs : List Class) :
    checkClasses env reg cs = none ↔ ∀ c ∈ cs, ClassValid env reg c := by
  induction cs with
  | nil => simp [checkClasses]
  | cons c cs ih =>
    rw [checkClasses]
    cases hc : checkFields env reg c.Name [] c.Fields with
    | some e =>
      simp only [List.mem_cons, forall_eq_or_imp]
      constructor
      · intro h; cases h
      · intro h
        rw [(checkFields_nil_seen_iff env reg c).2 h.1] at hc
        cases hc
    | none =>
      simp only [List.mem_cons, forall_eq_or_imp]
      rw [ih]
      exact ⟨fun h => ⟨(checkFields_nil_seen_iff env reg c).1 hc, h⟩, fun h => h.2⟩

theorem checkClasses_append_valid (env : Env) (reg : Registry) (pre rest : List Class)
    (h : ∀ c ∈ pre, ClassValid env reg c) :
    checkClasses env reg (pre ++ rest) = checkClasses env reg rest := by
  induction pre with
  | nil => rfl
  | cons c cs ih =>
    rw [List.cons_append, checkClasses,
      (checkFields_nil_seen_iff env reg c).2 (h c (List.mem_cons_self _ _))]
    exact ih (fun d hd => h d (List.mem_cons_of_mem _ hd))

theorem checkClasses_cons_of_error (env : Env) (reg : Registry) (c : Class) (cs : List Class)
    (e : SchemaError) (h : checkFields env reg c.Name [] c.Fields = some e) :
    checkClasses env reg (c :: cs) = some e := by
  rw [checkClasses, h]

/-! ## Claims -/

/-- C1. If a class has a non-external field whose name has not occurred earlier in
the class, whose base type (the type text with one trailing `[]` removed) is
neither a builtin token under the case-insensitive comparison nor a key of the
registry, and all classes before it and all fields before it in its class are
valid, then `checkAllFieldTypesAreValid` returns the unresolved-type error, and
the message of that error names the base type text. -/
theorem C1_unresolved_type_error (env : Env) (schema : Schema) (reg : Registry)
    (pre post : List Class) (c : Class) (fpre fpost : List Field) (f : Field)
    (hclasses : schema.Classes = pre ++ c :: post)
    (hfields : c.Fields = fpre ++ f :: fpost)
    (hext : f.External = false)
    (hnew : f.Name ∉ fpre.map Field.Name)
    (hbuiltin : ∀ bt ∈ builtinTypes, ToLower env (baseType f.Type_) ≠ ToLower env bt)
    (hreg : baseType f.Type_ ∉ reg.keys)
    (hpre : ∀ d ∈ pre, ClassValid env reg d)
    (hfpre : FieldsValid env reg [] fpre) :
    checkAllFieldTypesAreValid env schema reg = some (.unresolvedType (baseType f.Type_)) ∧
      (SchemaError.unresolvedType (baseType f.Type_)).message =
        "validation error: field type '" ++ baseType f.Type_ ++
          "' is not one of the builtin types or not defined" := by
  refine ⟨?_, rfl⟩
  have hnb : isBuiltInType env (baseType f.Type_) ≠ true := by
    intro h
    unfold isBuiltInType at h
    obtain ⟨bt, hbt, heq⟩ := List.any_eq_true.1 h
    exact hbuiltin bt hbt (by simpa using heq)
  have hnacc : ¬ Accepted env reg f := by
    rintro (h | h | h)
    · exact hnb h
    · rw [hext] at h; cases h
    · exact hreg h
  unfold checkAllFieldTypesAreValid
  rw [hclasses, checkClasses_append_valid env reg pre _ hpre]
  apply checkClasses_cons_of_error
  rw [hfields, checkFields_append_valid env reg c.Name fpre _ [] hfpre]
  apply checkFields_cons_of_unresolved _ _ _ _ _ _ _ hnacc
  simpa using hnew

/-- C1 at the schema `InvalidFieldType` of the test suite and the empty registry. -/
theorem C1_unresolved_type_error_witness :
    checkAllFieldTypesAreValid envPlain invalidFieldType [] = some (.unresolvedType "Work") ∧
      (SchemaError.unresolvedType "Work").message =
        "validation error: field type 'Work' is not one of the builtin types or not defined" :=
  C1_unresolved_type_error envPlain invalidFieldType [] [] [] employeeWork [] []
    { Name := "age", Type_ := "Work", External := false } rfl rfl rfl (by decide) (by decide)
    (by decide) (by simp) (by simp [FieldsValid])

/-! ## Letter case and the builtin tokens -/

theorem toLowerRune_of_ascii (env : Env) (r : Char) (h : r.toNat ≤ 127) :
    toLowerRune env r = r.toLower := by
  unfold toLowerRune Char.toLower
  rw [if_pos h]
  rfl

theorem ascii_of_toLower_ascii (c : Char) (h : c.toLower.toNat ≤ 127) : c.toNat ≤ 127 := by
  unfold Char.toLower at h
  by_cases hc : c.toNat ≥ 65 ∧ c.toNat ≤ 90
  · omega
  · simpa [hc] using h

theorem builtin_lower_ascii :
    ∀ bt ∈ builtinTypes, ∀ c ∈ bt.data.map Char.toLower, c.toNat ≤ 127 := by
  decide

theorem builtin_ascii : ∀ bt ∈ builtinTypes, ∀ c ∈ bt.data, c.toNat ≤ 127 := by
  decide

theorem ToLower_of_ascii (env : Env) (s : String) (h : ∀ c ∈ s.data, c.toNat ≤ 127) :
    ToLower env s = ⟨s.data.map Char.toLower⟩ := by
  unfold ToLower
  congr 1
  exact List.map_congr_left (fun c hc => toLowerRune_of_ascii env c (h c hc))

theorem ToLower_builtin (env : Env) (bt : String) (h : bt ∈ builtinTypes) :
    ToLower env bt = ⟨bt.data.map Char.toLower⟩ :=
  ToLower_of_ascii env bt (builtin_ascii bt h)

theorem ToLower_eq_of_eqUpToCase (env : Env) (s bt : String) (hbt : bt ∈ builtinTypes)
    (h : EqUpToCase s bt) : ToLower env s = ToLower env bt := by
  rw [ToLower_builtin env bt hbt, ToLower_of_ascii env s, h]
  intro c hc
  apply ascii_of_toLower_ascii
  apply builtin_lower_ascii bt hbt
  rw [← h]
  exact List.mem_map_of_mem _ hc

theorem isBuiltInType_of_eqUpToCase (env : Env) (s bt : String) (hbt : bt ∈ builtinTypes)
    (h : EqUpToCase s bt) : isBuiltInType env s = true := by
  unfold isBuiltInType
  exact List.any_eq_true.2 ⟨bt, hbt, by simp [ToLower_eq_of_eqUpToCase env s bt hbt h]⟩

/-- A string holding an ASCII character that is no letter or digit of any
builtin token is not a builtin type. -/
theorem not_builtin_of_mem (env : Env) (t : String) (c : Char) (hc : c ∈ t.data)
    (hascii : c.toNat ≤ 127) (hlow : c.toLower = c)
    (hout : ∀ bt ∈ builtinTypes, c ∉ bt.data.map Char.toLower) :
    isBuiltInType env t = false := by
  rw [← Bool.not_eq_true]
  intro h
  unfold isBuiltInType at h
  obtain ⟨bt, hbt, heq⟩ := List.any_eq_true.1 h
  have heq' : ToLower env t = ToLower env bt := by simpa using heq
  rw [ToLower_builtin env bt hbt] at heq'
  have hmem : toLowerRune env c ∈ (ToLower env t).data := List.mem_map_of_mem _ hc
  rw [toLowerRune_of_ascii env c hascii, hlow, heq'] at hmem
  exact hout bt hbt hmem

theorem not_builtin_of_bracket (env : Env) (t : String) (hc : ']' ∈ t.data) :
    isBuiltInType env t = false :=
  not_builtin_of_mem env t ']' hc (by decide) (by decide) (by decide)

theorem not_builtin_of_dot (env : Env) (t : String) (hc : '.' ∈ t.data) :
    isBuiltInType env t = false :=
  not_builtin_of_mem env t '.' hc (by decide) (by decide) (by decide)

theorem not_builtin_empty (env : Env) : isBuiltInType env "" = false := by
  rw [← Bool.not_eq_true]
  intro h
  unfold isBuiltInType at h
  obtain ⟨bt, hbt, heq⟩ := List.any_eq_true.1 h
  have heq' : ToLower env "" = ToLower env bt := by simpa using heq
  have hlen : (ToLower env bt).data.length = 0 := by rw [← heq']; rfl
  have hne : ∀ b ∈ builtinTypes, b.data.length ≠ 0 := by decide
  apply hne bt hbt
  simpa [ToLower] using hlen

/-! ## The array suffix -/

theorem hasSuffix_iff (s : String) :
    HasSuffix s "[]" = true ↔ ∃ t : String, s = t ++ "[]" := by
  unfold HasSuffix
  rw [List.isSuffixOf_iff_suffix]
  constructor
  · rintro ⟨l, hl⟩
    refine ⟨⟨l⟩, ?_⟩
    apply String.ext
    rw [String.data_append]
    exact hl.symm
  · rintro ⟨t, rfl⟩
    exact ⟨t.data, by rw [String.data_append]⟩

theorem baseType_append_brackets (t : String) : baseType (t ++ "[]") = t := by
  unfold baseType
  rw [if_pos ((hasSuffix_iff _).2 ⟨t, rfl⟩)]
  unfold dropLast2
  apply String.ext
  simp [String.data_append]

theorem baseType_of_no_bracket (t : String) (h : ']' ∉ t.data) : baseType t = t := by
  unfold baseType
  rw [if_neg]
  intro hs
  obtain ⟨u, rfl⟩ := (hasSuffix_iff _).1 hs
  apply h
  simp [String.data_append]

theorem baseType_of_builtin (env : Env) (t : String) (h : isBuiltInType env t = true) :
    baseType t = t := by
  apply baseType_of_no_bracket
  intro hc
  rw [not_builtin_of_bracket env t hc] at h
  cases h

/-- C2. There are 20 builtin tokens; every string equal to one of them up to
letter case is accepted by `isBuiltInType`; and a schema whose classes have
pairwise distinct field names and whose fields are all typed with such strings
passes `checkAllFieldTypesAreValid` against every registry. -/
theorem C2_builtin_any_case (env : Env) (s bt : String) (schema : Schema) (reg : Registry)
    (hbt : bt ∈ builtinTypes) (hs : EqUpToCase s bt)
    (hnames : ∀ c ∈ schema.Classes, (c.Fields.map Field.Name).Nodup)
    (htypes : ∀ c ∈ schema.Classes, ∀ f ∈ c.Fields, ∃ b ∈ builtinTypes, EqUpToCase f.Type_ b) :
    builtinTypes.length = 20 ∧ isBuiltInType env s = true ∧
      checkAllFieldTypesAreValid env schema reg = none ∧
      checkAllFieldTypesAreValid env schema [] = none := by
  have key : ∀ r : Registry, checkAllFieldTypesAreValid env schema r = none := by
    intro r
    unfold checkAllFieldTypesAreValid
    rw [checkClasses_eq_none_iff]
    intro c hc
    refine ⟨?_, hnames c hc⟩
    intro f hf
    obtain ⟨b, hb, hfb⟩ := htypes c hc f hf
    have hbi := isBuiltInType_of_eqUpToCase env f.Type_ b hb hfb
    left
    rw [baseType_of_builtin env _ hbi]
    exact hbi
  exact ⟨rfl, isBuiltInType_of_eqUpToCase env s bt hbt hs, key reg, key []⟩

/-- C2 at the token `int32` written `Int32` and a schema typed `INT32`, `String`
and `int64`. -/
theorem C2_builtin_any_case_witness :
    EqUpToCase "Int32" "int32" ∧ isBuiltInType envPlain "Int32" = true ∧
      checkAllFieldTypesAreValid envPlain validMixedCase [] = none :=
  have h := C2_builtin_any_case envPlain "Int32" "int32" validMixedCase []
    (by decide) (by decide) (by decide) (by decide)
  ⟨by decide, h.2.1, h.2.2.1⟩

/-! ## Registration -/

theorem getClassFullNameAndNamespace_eq (n ns : String) :
    getClassFullNameAndNamespace n ns = (fullyQualifiedName ns n, effectiveNamespace ns) := by
  unfold getClassFullNameAndNamespace fullyQualifiedName effectiveNamespace DefaultNamespace
  split <;> rfl

theorem fullyQualifiedName_injective (ns a b : String)
    (h : fullyQualifiedName ns a = fullyQualifiedName ns b) : a = b := by
  unfold fullyQualifiedName at h
  have h' := congrArg String.data h
  simp only [String.data_append, List.append_assoc] at h'
  have := List.append_cancel_left (List.append_cancel_left h')
  exact String.ext this

theorem dot_mem_fullyQualifiedName (ns n : String) : '.' ∈ (fullyQualifiedName ns n).data := by
  unfold fullyQualifiedName
  simp [String.data_append]

theorem fullyQualifiedName_ne_empty (ns n : String) : fullyQualifiedName ns n ≠ "" := by
  intro h
  have := dot_mem_fullyQualifiedName ns n
  rw [h] at this
  cases this

theorem hasKey_iff (reg : Registry) (k : String) : reg.hasKey k = true ↔ k ∈ reg.keys := by
  unfold Registry.hasKey
  simp [List.elem_eq_mem]

theorem mem_keys_insert (reg : Registry) (key : String) (cls : Class) (k : String) :
    k ∈ (reg.insert key cls).keys ↔ k = key ∨ k ∈ reg.keys := by
  unfold Registry.insert Registry.keys
  simp only [List.map_cons, List.mem_cons, List.mem_map, List.mem_filter, bne_iff_ne, ne_eq]
  constructor
  · rintro (h | ⟨p, ⟨hp, _⟩, rfl⟩)
    · exact Or.inl h
    · exact Or.inr ⟨p, hp, rfl⟩
  · rintro (h | ⟨p, hp, rfl⟩)
    · exact Or.inl h
    · by_cases hk : p.1 = key
      · exact Or.inl hk
      · exact Or.inr ⟨p, ⟨hp, hk⟩, rfl⟩

theorem registerClasses_cons_fresh (ns : String) (c : Class) (cs : List Class) (reg : Registry)
    (h : fullyQualifiedName ns c.Name ∉ reg.keys) :
    registerClasses ns (c :: cs) reg =
      registerClasses ns cs
        (reg.insert (fullyQualifiedName ns c.Name) { c with Namespace := effectiveNamespace ns }) := by
  have hk : reg.hasKey (fullyQualifiedName ns c.Name) = false := by
    rw [← Bool.not_eq_true, hasKey_iff]; exact h
  rw [registerClasses, getClassFullNameAndNamespace_eq]
  simp [hk]

theorem registerClasses_cons_present (ns : String) (c : Class) (cs : List Class) (reg : Registry)
    (h : fullyQualifiedName ns c.Name ∈ reg.keys) :
    registerClasses ns (c :: cs) reg =
      (reg, some (.duplicateClass c.Name (effectiveNamespace ns))) := by
  have hk : reg.hasKey (fullyQualifiedName ns c.Name) = true := (hasKey_iff _ _).2 h
  rw [registerClasses, getClassFullNameAndNamespace_eq]
  simp [hk]

/-- Registration succeeds when the names are new and pairwise distinct, and
then the keys are the old keys and the names. -/
theorem registerClasses_ok (ns : String) (cs : List Class) :
    ∀ reg : Registry,
      (cs.map (fun c => fullyQualifiedName ns c.Name)).Nodup →
      (∀ c ∈ cs, fullyQualifiedName ns c.Name ∉ reg.keys) →
      ∃ reg', registerClasses ns cs reg = (reg', none) ∧
        ∀ k, k ∈ reg'.keys ↔ k ∈ reg.keys ∨ k ∈ cs.map (fun c => fullyQualifiedName ns c.Name) := by
  induction cs with
  | nil => intro reg _ _; exact ⟨reg, rfl, by simp⟩
  | cons c cs ih =>
    intro reg hnd hfresh
    have hnd' : fullyQualifiedName ns c.Name ∉ cs.map (fun c => fullyQualifiedName ns c.Name) ∧
        (cs.map (fun c => fullyQualifiedName ns c.Name)).Nodup := List.nodup_cons.1 hnd
    rw [registerClasses_cons_fresh ns c cs reg (hfresh c (List.mem_cons_self _ _))]
    obtain ⟨reg', hreg', hkeys⟩ := ih
      (reg.insert (fullyQualifiedName ns c.Name) { c with Namespace := effectiveNamespace ns })
      hnd'.2 (by
        intro d hd hmem
        rcases (mem_keys_insert _ _ _ _).1 hmem with h | h
        · exact hnd'.1 (h ▸ List.mem_map_of_mem (fun c => fullyQualifiedName ns c.Name) hd)
        · exact hfresh d (List.mem_cons_of_mem _ hd) h)
    refine ⟨reg', hreg', ?_⟩
    intro k
    rw [hkeys k, mem_keys_insert, List.map_cons, List.mem_cons]
    tauto

/-- Whatever the outcome, the keys after registration are old keys or names of
the classes offered, and the old keys remain. -/
theorem registerClasses_keys (ns : String) (cs : List Class) :
    ∀ reg : Registry,
      (∀ k ∈ (registerClasses ns cs reg).1.keys,
        k ∈ reg.keys ∨ k ∈ cs.map (fun c => fullyQualifiedName ns c.Name)) ∧
      (∀ k ∈ reg.keys, k ∈ (registerClasses ns cs reg).1.keys) := by
  induction cs with
  | nil => intro reg; exact ⟨fun k hk => Or.inl hk, fun k hk => hk⟩
  | cons c cs ih =>
    intro reg
    by_cases h : fullyQualifiedName ns c.Name ∈ reg.keys
    · rw [registerClasses_cons_present ns c cs reg h]
      exact ⟨fun k hk => Or.inl hk, fun k hk => hk⟩
    · rw [registerClasses_cons_fresh ns c cs reg h]
      obtain ⟨h1, h2⟩ := ih
        (reg.insert (fullyQualifiedName ns c.Name) { c with Namespace := effectiveNamespace ns })
      constructor
      · intro k hk
        rcases h1 k hk with h' | h'
        · rcases (mem_keys_insert _ _ _ _).1 h' with h'' | h''
          · exact Or.inr (h'' ▸ List.mem_cons_self _ _)
          · exact Or.inl h''
        · exact Or.inr (List.mem_cons_of_mem _ h')
      · intro k hk
        exact h2 k ((mem_keys_insert _ _ _ _).2 (Or.inr hk))

/-- Registration fails with the duplicate-class error as soon as a name is
already a key or occurs twice; the error names a class offered. -/
theorem registerClasses_dup (ns : String) (cs : List Class) :
    ∀ reg : Registry,
      ¬ ((cs.map (fun c => fullyQualifiedName ns c.Name)).Nodup ∧
          ∀ c ∈ cs, fullyQualifiedName ns c.Name ∉ reg.keys) →
      ∃ n ∈ cs.map Class.Name,
        (registerClasses ns cs reg).2 = some (.duplicateClass n (effectiveNamespace ns)) := by
  induction cs with
  | nil => intro reg h; exact absurd ⟨List.nodup_nil, by simp⟩ h
  | cons c cs ih =>
    intro reg h
    by_cases hc : fullyQualifiedName ns c.Name ∈ reg.keys
    · rw [registerClasses_cons_present ns c cs reg hc]
      exact ⟨c.Name, List.mem_cons_self _ _, rfl⟩
    · rw [registerClasses_cons_fresh ns c cs reg hc]
      obtain ⟨n, hn, hres⟩ := ih
        (reg.insert (fullyQualifiedName ns c.Name) { c with Namespace := effectiveNamespace ns })
        (by
          rintro ⟨hnd, hfresh⟩
          apply h
          refine ⟨?_, ?_⟩
          · rw [List.map_cons, List.nodup_cons]
            refine ⟨?_, hnd⟩
            intro hmem
            obtain ⟨d, hd, hdn⟩ := List.mem_map.1 hmem
            exact hfresh d hd ((mem_keys_insert _ _ _ _).2 (Or.inl hdn))
          · intro d hd
            rcases List.mem_cons.1 hd with h' | h'
            · exact h' ▸ hc
            · exact fun hm => hfresh d h' ((mem_keys_insert _ _ _ _).2 (Or.inr hm)))
      exact ⟨n, List.mem_cons_of_mem _ hn, hres⟩

/-! ## Schemas without imports -/

theorem registerAndCheck_ok (env : Env) (schema : Schema) (reg : Registry)
    (hnd : schema.fullNames.Nodup) (hfresh : ∀ k ∈ schema.fullNames, k ∉ reg.keys)
    (hvalid : ∀ reg' : Registry,
      (∀ k, k ∈ reg'.keys ↔ k ∈ reg.keys ∨ k ∈ schema.fullNames) →
        ∀ c ∈ schema.Classes, ClassValid env reg' c) :
    ∃ reg', registerAndCheck env schema reg = .ok reg' ∧
      ∀ k, k ∈ reg'.keys ↔ k ∈ reg.keys ∨ k ∈ schema.fullNames := by
  obtain ⟨reg', hreg', hkeys⟩ := registerClasses_ok schema.Namespace schema.Classes reg hnd
    (fun c hc => hfresh _ (List.mem_map_of_mem (fun c => fullyQualifiedName schema.Namespace c.Name) hc))
  refine ⟨reg', ?_, hkeys⟩
  unfold registerAndCheck registerClassesAndCheckForDuplicate
  rw [hreg']
  have : checkAllFieldTypesAreValid env schema reg' = none :=
    (checkClasses_eq_none_iff env reg' schema.Classes).2 (hvalid reg' hkeys)
  simp only [this]

theorem ProcessSchema_of_registry (env : Env) (fuel : Nat) (schema : Schema) (reg : Registry)
    (h : ProcessSchemaRegistry env fuel schema = .ok reg) :
    ProcessSchema env fuel schema = .ok () := by
  unfold ProcessSchema
  rw [h]

/-- C3. For every builtin token in any letter casing followed by `[]`, a
non-external field so typed is accepted by `checkAllFieldTypesAreValid` against
every registry, and a schema without imports whose single class has that single
field makes `ProcessSchema` return no error. -/
theorem C3_builtin_array_accepted (env : Env) (fuel : Nat) (reg : Registry) (b s : String)
    (schema : Schema) (c : Class) (f : Field)
    (hb : b ∈ builtinTypes) (hs : EqUpToCase s b)
    (himport : schema.Import = []) (hclasses : schema.Classes = [c]) (hfields : c.Fields = [f])
    (hext : f.External = false) (htype : f.Type_ = s ++ "[]") :
    checkAllFieldTypesAreValid env schema reg = none ∧
      ProcessSchema env fuel schema = .ok () := by
  have hacc : ∀ r : Registry, ClassValid env r c := by
    intro r
    refine ⟨?_, by rw [hfields]; simp⟩
    intro g hg
    rw [hfields, List.mem_singleton] at hg
    subst hg
    left
    rw [htype, baseType_append_brackets]
    exact isBuiltInType_of_eqUpToCase env s b hb hs
  constructor
  · unfold checkAllFieldTypesAreValid
    rw [checkClasses_eq_none_iff, hclasses]
    intro d hd
    rw [List.mem_singleton] at hd
    exact hd ▸ hacc reg
  · obtain ⟨reg', hreg', _⟩ := registerAndCheck_ok env schema []
      (by unfold Schema.fullNames; rw [hclasses]; simp)
      (by intro k _ hk; cases hk)
      (by
        intro r _ d hd
        rw [hclasses, List.mem_singleton] at hd
        exact hd ▸ hacc r)
    apply ProcessSchema_of_registry env fuel schema reg'
    unfold ProcessSchemaRegistry ProcessSchemaWith
    rw [himport]
    exact hreg'

/-- C3 at the schema of the test case `valid array field type`. -/
theorem C3_builtin_array_accepted_witness :
    EqUpToCase "nullableInt16" "nullableInt16" ∧
      checkAllFieldTypesAreValid envPlain validArrayFieldType [] = none ∧
      ProcessSchema envPlain 0 validArrayFieldType = .ok () :=
  ⟨by decide,
    C3_builtin_array_accepted envPlain 0 [] "nullableInt16" "nullableInt16" validArrayFieldType
      { Name := "Employee",
        Fields := [{ Name := "age", Type_ := "nullableInt16[]", External := false }],
        Namespace := "" }
      { Name := "age", Type_ := "nullableInt16[]", External := false }
      (by decide) (by decide) rfl rfl rfl rfl (by decide)⟩

/-! ## Import resolution -/

theorem inClosure_nil (env : Env) (s : Schema) : ¬ InClosure env [] s := by
  intro h
  cases h with
  | direct hp _ => cases hp
  | nested hp _ _ => cases hp

theorem inClosure_cons (env : Env) (p : String) (ps : List String) (s : Schema) :
    InClosure env (p :: ps) s ↔ InClosure env [p] s ∨ InClosure env ps s := by
  constructor
  · intro h
    cases h with
    | direct hp hs =>
      rcases List.mem_cons.1 hp with rfl | hp
      · exact Or.inl (.direct (List.mem_singleton_self _) hs)
      · exact Or.inr (.direct hp hs)
    | nested hp hs ht =>
      rcases List.mem_cons.1 hp with rfl | hp
      · exact Or.inl (.nested (List.mem_singleton_self _) hs ht)
      · exact Or.inr (.nested hp hs ht)
  · rintro (h | h)
    · cases h with
      | direct hp hs =>
        rw [List.mem_singleton] at hp; subst hp
        exact .direct (List.mem_cons_self _ _) hs
      | nested hp hs ht =>
        rw [List.mem_singleton] at hp; subst hp
        exact .nested (List.mem_cons_self _ _) hs ht
    · cases h with
      | direct hp hs => exact .direct (List.mem_cons_of_mem _ hp) hs
      | nested hp hs ht => exact .nested (List.mem_cons_of_mem _ hp) hs ht

theorem inClosure_singleton (env : Env) (p : String) (a s : Schema)
    (ha : sourceAt env p = some a) :
    InClosure env [p] s ↔ s = a ∨ InClosure env a.Import s := by
  constructor
  · intro h
    cases h with
    | direct hp hs =>
      rw [List.mem_singleton] at hp; subst hp
      rw [ha] at hs
      exact Or.inl (Option.some.inj hs).symm
    | nested hp hs ht =>
      rw [List.mem_singleton] at hp; subst hp
      rw [ha] at hs
      cases Option.some.inj hs
      exact Or.inr ht
  · rintro (rfl | h)
    · exact .direct (List.mem_singleton_self _) ha
    · exact .nested (List.mem_singleton_self _) ha h

theorem processImports_ok_cons (pI : String → Registry → Res Registry) (p : String)
    (ps : List String) (reg reg' : Registry)
    (h : processImports pI (p :: ps) reg = .ok reg') :
    ∃ reg1, pI p reg = .ok reg1 ∧ processImports pI ps reg1 = .ok reg' := by
  rw [processImports] at h
  cases h1 : pI p reg with
  | ok reg1 => rw [h1] at h; exact ⟨reg1, rfl, h⟩
  | err e => rw [h1] at h; cases h
  | outOfFuel => rw [h1] at h; cases h

theorem processImports_append (pI : String → Registry → Res Registry) (pre rest : List String) :
    ∀ reg reg1 : Registry, processImports pI pre reg = .ok reg1 →
      processImports pI (pre ++ rest) reg = processImports pI rest reg1 := by
  induction pre with
  | nil => intro reg reg1 h; cases h; rfl
  | cons p ps ih =>
    intro reg reg1 h
    obtain ⟨r, hr, hrest⟩ := processImports_ok_cons pI p ps reg reg1 h
    rw [List.cons_append, processImports, hr]
    exact ih r reg1 hrest

/-- The import loop does not succeed when it meets a path on which
`processImport` does not succeed. -/
theorem processImports_not_ok (pI : String → Registry → Res Registry) (p : String)
    (hp : ∀ reg reg', pI p reg ≠ .ok reg') (imports : List String) (hmem : p ∈ imports) :
    ∀ reg reg' : Registry, processImports pI imports reg ≠ .ok reg' := by
  induction imports with
  | nil => cases hmem
  | cons q qs ih =>
    intro reg reg' h
    obtain ⟨r, hr, hrest⟩ := processImports_ok_cons pI q qs reg reg' h
    rcases List.mem_cons.1 hmem with rfl | hq
    · exact hp reg r hr
    · exact ih hq r reg' hrest

theorem registerClasses_eq_ok (ns : String) (cs : List Class) (reg reg' : Registry)
    (h : registerClasses ns cs reg = (reg', none)) :
    (cs.map (fun c => fullyQualifiedName ns c.Name)).Nodup ∧
      (∀ c ∈ cs, fullyQualifiedName ns c.Name ∉ reg.keys) ∧
      ∀ k, k ∈ reg'.keys ↔ k ∈ reg.keys ∨ k ∈ cs.map (fun c => fullyQualifiedName ns c.Name) := by
  have hgood : (cs.map (fun c => fullyQualifiedName ns c.Name)).Nodup ∧
      ∀ c ∈ cs, fullyQualifiedName ns c.Name ∉ reg.keys := by
    by_contra hbad
    obtain ⟨n, _, hn⟩ := registerClasses_dup ns cs reg hbad
    rw [h] at hn
    cases hn
  obtain ⟨reg'', hreg'', hkeys⟩ := registerClasses_ok ns cs reg hgood.1 hgood.2
  rw [h] at hreg''
  cases hreg''
  exact ⟨hgood.1, hgood.2, hkeys⟩

theorem registerAndCheck_eq_ok (env : Env) (schema : Schema) (reg reg' : Registry)
    (h : registerAndCheck env schema reg = .ok reg') :
    registerClassesAndCheckForDuplicate schema reg = (reg', none) ∧
      checkAllFieldTypesAreValid env schema reg' = none := by
  unfold registerAndCheck at h
  rcases hr : registerClassesAndCheckForDuplicate schema reg with ⟨r, _ | e⟩
  · rw [hr] at h
    cases hc : checkAllFieldTypesAreValid env schema r with
    | none =>
      simp only [hc] at h
      cases h
      exact ⟨rfl, hc⟩
    | some e => simp only [hc] at h; cases h
  · rw [hr] at h
    cases h

theorem registerAndCheck_keys (env : Env) (schema : Schema) (reg reg' : Registry)
    (h : registerAndCheck env schema reg = .ok reg') :
    ∀ k, k ∈ reg'.keys ↔ k ∈ reg.keys ∨ k ∈ schema.fullNames :=
  (registerClasses_eq_ok schema.Namespace schema.Classes reg reg'
    (registerAndCheck_eq_ok env schema reg reg' h).1).2.2

/-- What a successful `processImport` has gone through. -/
theorem processImport_succ_ok (env : Env) (n : Nat) (p : String) (reg reg' : Registry)
    (h : processImport env (n + 1) p reg = .ok reg') :
    ∃ sch reg0 reg1, sourceAt env p = some sch ∧
      ProcessSchemaWith env (processImport env n) sch = .ok reg0 ∧
      processImports (processImport env n) sch.Import reg = .ok reg1 ∧
      registerAndCheck env sch reg1 = .ok reg' := by
  rw [processImport] at h
  unfold sourceAt
  cases hread : env.readFile p with
  | error e => simp only [hread] at h; cases h
  | ok text =>
    simp only [hread] at h ⊢
    unfold ParseSchemaTextWith at h
    cases hdec : decodeSchema env text with
    | error e => simp only [hdec] at h; cases h
    | ok sch =>
      simp only [hdec] at h ⊢
      cases h0 : ProcessSchemaWith env (processImport env n) sch with
      | err e => simp only [h0] at h; cases h
      | outOfFuel => simp only [h0] at h; cases h
      | ok reg0 =>
        simp only [h0] at h
        cases h1 : processImports (processImport env n) sch.Import reg with
        | err e => simp only [h1] at h; cases h
        | outOfFuel => simp only [h1] at h; cases h
        | ok reg1 =>
          simp only [h1] at h
          exact ⟨sch, reg0, reg1, rfl, h0, h1, h⟩

theorem keysExtend_nil (env : Env) (reg : Registry) : KeysExtend env [] reg reg := by
  intro k
  constructor
  · exact Or.inl
  · rintro (h | ⟨s, hs, _⟩)
    · exact h
    · exact absurd hs (inClosure_nil env s)

theorem keysExtend_cons (env : Env) (p : String) (ps : List String) (reg reg1 reg' : Registry)
    (h1 : KeysExtend env [p] reg reg1) (h2 : KeysExtend env ps reg1 reg') :
    KeysExtend env (p :: ps) reg reg' := by
  intro k
  rw [h2 k, h1 k]
  constructor
  · rintro ((h | ⟨s, hs, hk⟩) | ⟨s, hs, hk⟩)
    · exact Or.inl h
    · exact Or.inr ⟨s, (inClosure_cons env p ps s).2 (Or.inl hs), hk⟩
    · exact Or.inr ⟨s, (inClosure_cons env p ps s).2 (Or.inr hs), hk⟩
  · rintro (h | ⟨s, hs, hk⟩)
    · exact Or.inl (Or.inl h)
    · rcases (inClosure_cons env p ps s).1 hs with h | h
      · exact Or.inl (Or.inr ⟨s, h, hk⟩)
      · exact Or.inr ⟨s, h, hk⟩

theorem processImports_keys (env : Env) (pI : String → Registry → Res Registry)
    (hpI : ∀ p reg reg', pI p reg = .ok reg' → KeysExtend env [p] reg reg')
    (imports : List String) :
    ∀ reg reg' : Registry, processImports pI imports reg = .ok reg' →
      KeysExtend env imports reg reg' := by
  induction imports with
  | nil =>
    intro reg reg' h
    cases h
    exact keysExtend_nil env reg
  | cons p ps ih =>
    intro reg reg' h
    obtain ⟨r, hr, hrest⟩ := processImports_ok_cons pI p ps reg reg' h
    exact keysExtend_cons env p ps reg r reg' (hpI p reg r hr) (ih r reg' hrest)

/-- A successful `processImport` adds to the registry exactly the fully-qualified
names of the classes declared by the imported schema and by its closure. -/
theorem processImport_keys (env : Env) :
    ∀ (fuel : Nat) (p : String) (reg reg' : Registry),
      processImport env fuel p reg = .ok reg' → KeysExtend env [p] reg reg' := by
  intro fuel
  induction fuel with
  | zero => intro p reg reg' h; rw [processImport] at h; cases h
  | succ n ih =>
    intro p reg reg' h
    obtain ⟨sch, reg0, reg1, hsrc, _, himp, hreg⟩ := processImport_succ_ok env n p reg reg' h
    have h1 := processImports_keys env (processImport env n) ih sch.Import reg reg1 himp
    have h2 := registerAndCheck_keys env sch reg1 reg' hreg
    intro k
    rw [h2 k, h1 k]
    constructor
    · rintro ((hk | ⟨s, hs, hk⟩) | hk)
      · exact Or.inl hk
      · exact Or.inr ⟨s, (inClosure_singleton env p sch s hsrc).2 (Or.inr hs), hk⟩
      · exact Or.inr ⟨sch, (inClosure_singleton env p sch sch hsrc).2 (Or.inl rfl), hk⟩
    · rintro (hk | ⟨s, hs, hk⟩)
      · exact Or.inl (Or.inl hk)
      · rcases (inClosure_singleton env p sch s hsrc).1 hs with rfl | hs'
        · exact Or.inr hk
        · exact Or.inl (Or.inr ⟨s, hs', hk⟩)

theorem processImports_processImport_keys (env : Env) (fuel : Nat) (imports : List String)
    (reg reg' : Registry) (h : processImports (processImport env fuel) imports reg = .ok reg') :
    KeysExtend env imports reg reg' :=
  processImports_keys env (processImport env fuel) (processImport_keys env fuel) imports reg reg' h

theorem ProcessSchemaWith_eq_ok (env : Env) (pI : String → Registry → Res Registry)
    (schema : Schema) (reg : Registry) (h : ProcessSchemaWith env pI schema = .ok reg) :
    ∃ reg1, processImports pI schema.Import [] = .ok reg1 ∧
      registerAndCheck env schema reg1 = .ok reg := by
  unfold ProcessSchemaWith at h
  cases h1 : processImports pI schema.Import [] with
  | ok reg1 => simp only [h1] at h; exact ⟨reg1, rfl, h⟩
  | err e => simp only [h1] at h; cases h
  | outOfFuel => simp only [h1] at h; cases h

theorem ProcessSchema_eq_ok (env : Env) (fuel : Nat) (schema : Schema)
    (h : ProcessSchema env fuel schema = .ok ()) :
    ∃ reg, ProcessSchemaRegistry env fuel schema = .ok reg := by
  unfold ProcessSchema at h
  cases h1 : ProcessSchemaRegistry env fuel schema with
  | ok reg => exact ⟨reg, rfl⟩
  | err e => simp only [h1] at h; cases h
  | outOfFuel => simp only [h1] at h; cases h

/-- No key of a registry grown from the empty one is the empty string. -/
theorem keys_ne_empty_of_extend (env : Env) (imports : List String) (reg : Registry)
    (h : KeysExtend env imports [] reg) : "" ∉ reg.keys := by
  intro hk
  rcases (h "").1 hk with h' | ⟨s, _, hs⟩
  · cases h'
  · unfold Schema.fullNames at hs
    obtain ⟨c, _, hc⟩ := List.mem_map.1 hs
    exact fullyQualifiedName_ne_empty _ _ hc

/-! ## First errors of the field checker -/

theorem checkAll_unresolved_at (env : Env) (schema : Schema) (reg : Registry)
    (pre post : List Class) (c : Class) (fpre fpost : List Field) (f : Field)
    (hclasses : schema.Classes = pre ++ c :: post)
    (hfields : c.Fields = fpre ++ f :: fpost)
    (hnew : f.Name ∉ fpre.map Field.Name)
    (hnacc : ¬ Accepted env reg f)
    (hpre : ∀ d ∈ pre, ClassValid env reg d)
    (hfpre : FieldsValid env reg [] fpre) :
    checkAllFieldTypesAreValid env schema reg = some (.unresolvedType (baseType f.Type_)) := by
  unfold checkAllFieldTypesAreValid
  rw [hclasses, checkClasses_append_valid env reg pre _ hpre]
  apply checkClasses_cons_of_error
  rw [hfields, checkFields_append_valid env reg c.Name fpre _ [] hfpre]
  apply checkFields_cons_of_unresolved _ _ _ _ _ _ _ hnacc
  simpa using hnew

theorem checkAll_duplicate_at (env : Env) (schema : Schema) (reg : Registry)
    (pre post : List Class) (c : Class) (fpre fpost : List Field) (f : Field)
    (hclasses : schema.Classes = pre ++ c :: post)
    (hfields : c.Fields = fpre ++ f :: fpost)
    (hold : f.Name ∈ fpre.map Field.Name)
    (hpre : ∀ d ∈ pre, ClassValid env reg d)
    (hfpre : FieldsValid env reg [] fpre) :
    checkAllFieldTypesAreValid env schema reg = some (.duplicateField f.Name c.Name) := by
  unfold checkAllFieldTypesAreValid
  rw [hclasses, checkClasses_append_valid env reg pre _ hpre]
  apply checkClasses_cons_of_error
  rw [hfields, checkFields_append_valid env reg c.Name fpre _ [] hfpre]
  apply checkFields_cons_of_seen
  simpa using hold

theorem checkAll_none_accepted (env : Env) (schema : Schema) (reg : Registry)
    (h : checkAllFieldTypesAreValid env schema reg = none) (c : Class) (hc : c ∈ schema.Classes) :
    ClassValid env reg c :=
  (checkClasses_eq_none_iff env reg schema.Classes).1 h c hc

theorem ProcessSchema_of_steps (env : Env) (fuel : Nat) (schema : Schema) (reg1 reg2 : Registry)
    (e : SchemaError)
    (himp : processImports (processImport env fuel) schema.Import [] = .ok reg1)
    (hreg : registerClassesAndCheckForDuplicate schema reg1 = (reg2, none))
    (hcheck : checkAllFieldTypesAreValid env schema reg2 = some e) :
    ProcessSchema env fuel schema = .err e := by
  unfold ProcessSchema ProcessSchemaRegistry ProcessSchemaWith registerAndCheck
  simp only [himp, hreg, hcheck]

theorem not_accepted_array_only (env : Env) (reg : Registry) (f : Field)
    (hext : f.External = false) (htype : f.Type_ = "[]") (hkey : "" ∉ reg.keys) :
    ¬ Accepted env reg f := by
  have hb : baseType f.Type_ = "" := by rw [htype]; decide
  rintro (h | h | h)
  · rw [hb, not_builtin_empty] at h; cases h
  · rw [hext] at h; cases h
  · rw [hb] at h; exact hkey h

/-- C4. If some class of the root has a non-external field whose type text is
exactly `[]`, then `ProcessSchema` never returns success, whatever the import
list and the imported sources; the registry against which the root is checked
never has the empty string as a key; and when the imports resolve, the root's
classes register, and every class and field checked before that field is valid,
the error is the unresolved-type error. -/
theorem C4_array_only_type_fails (env : Env) (root : Schema) (c : Class) (f : Field)
    (hc : c ∈ root.Classes) (hf : f ∈ c.Fields)
    (hext : f.External = false) (htype : f.Type_ = "[]") :
    (∀ fuel, ProcessSchema env fuel root ≠ .ok ()) ∧
    (∀ fuel reg1, processImports (processImport env fuel) root.Import [] = .ok reg1 →
      "" ∉ (registerClassesAndCheckForDuplicate root reg1).1.keys) ∧
    (∀ fuel reg1 reg2 pre post fpre fpost,
      processImports (processImport env fuel) root.Import [] = .ok reg1 →
      registerClassesAndCheckForDuplicate root reg1 = (reg2, none) →
      root.Classes = pre ++ c :: post → c.Fields = fpre ++ f :: fpost →
      (∀ d ∈ pre, ClassValid env reg2 d) → FieldsValid env reg2 [] fpre →
      f.Name ∉ fpre.map Field.Name →
      ProcessSchema env fuel root = .err (.unresolvedType "")) := by
  have hkeys : ∀ fuel reg1, processImports (processImport env fuel) root.Import [] = .ok reg1 →
      "" ∉ (registerClassesAndCheckForDuplicate root reg1).1.keys := by
    intro fuel reg1 himp hk
    have h1 := keys_ne_empty_of_extend env root.Import reg1
      (processImports_processImport_keys env fuel root.Import [] reg1 himp)
    rcases (registerClasses_keys root.Namespace root.Classes reg1).1 "" hk with h | h
    · exact h1 h
    · obtain ⟨d, _, hd⟩ := List.mem_map.1 h
      exact fullyQualifiedName_ne_empty _ _ hd
  refine ⟨?_, hkeys, ?_⟩
  · intro fuel hok
    obtain ⟨reg, hreg⟩ := ProcessSchema_eq_ok env fuel root hok
    obtain ⟨reg1, himp, hrc⟩ := ProcessSchemaWith_eq_ok env _ root reg hreg
    obtain ⟨hr, hcheck⟩ := registerAndCheck_eq_ok env root reg1 reg hrc
    have hk := hkeys fuel reg1 himp
    rw [hr] at hk
    exact not_accepted_array_only env reg f hext htype hk
      ((checkAll_none_accepted env root reg hcheck c hc).1 f hf)
  · intro fuel reg1 reg2 pre post fpre fpost himp hr hclasses hfields hpre hfpre hnew
    have hk := hkeys fuel reg1 himp
    rw [hr] at hk
    have hb : baseType f.Type_ = "" := by rw [htype]; decide
    have := checkAll_unresolved_at env root reg2 pre post c fpre fpost f hclasses hfields hnew
      (not_accepted_array_only env reg2 f hext htype hk) hpre hfpre
    rw [hb] at this
    exact ProcessSchema_of_steps env fuel root reg1 reg2 _ himp hr this

/-- C4 at the schema of the test case `invalid array field type`. -/
theorem C4_array_only_type_fails_witness :
    employeeArrayOnly ∈ invalidArrayFieldType.Classes ∧
      ProcessSchema envPlain 0 invalidArrayFieldType ≠ .ok () ∧
      ProcessSchema envPlain 0 invalidArrayFieldType = .err (.unresolvedType "") :=
  have h := C4_array_only_type_fails envPlain invalidArrayFieldType employeeArrayOnly
    { Name := "age", Type_ := "[]", External := false } (by decide) (by decide) rfl rfl
  ⟨by decide, h.1 0,
    h.2.2 0 [] [("com.example.Employee", { employeeArrayOnly with Namespace := "com.example" })]
      [] [] [] [] rfl (by decide) rfl rfl (by simp) (by simp [FieldsValid]) (by simp)⟩

theorem checkFields_unresolved_origin (env : Env) (reg : Registry) (cn t : String)
    (fs : List Field) :
    ∀ seen : List String, checkFields env reg cn seen fs = some (.unresolvedType t) →
      ∃ f ∈ fs, f.External = false ∧ baseType f.Type_ = t ∧ ¬ Accepted env reg f := by
  induction fs with
  | nil => intro seen h; simp [checkFields] at h
  | cons f fs ih =>
    intro seen h
    by_cases hseen : f.Name ∈ seen
    · rw [checkFields_cons_of_seen env reg cn seen f fs hseen] at h
      cases h
    · by_cases hacc : Accepted env reg f
      · rw [checkFields_cons_of_accepted env reg cn seen f fs hseen hacc] at h
        obtain ⟨g, hg, hrest⟩ := ih _ h
        exact ⟨g, List.mem_cons_of_mem _ hg, hrest⟩
      · rw [checkFields_cons_of_unresolved env reg cn seen f fs hseen hacc] at h
        cases h
        refine ⟨f, List.mem_cons_self _ _, ?_, rfl, hacc⟩
        cases hx : f.External with
        | false => rfl
        | true => exact absurd (Or.inr (Or.inl hx)) hacc

theorem checkClasses_unresolved_origin (env : Env) (reg : Registry) (t : String)
    (cs : List Class) (h : checkClasses env reg cs = some (.unresolvedType t)) :
    ∃ c ∈ cs, ∃ f ∈ c.Fields, f.External = false ∧ baseType f.Type_ = t ∧
      ¬ Accepted env reg f := by
  induction cs with
  | nil => simp [checkClasses] at h
  | cons c cs ih =>
    rw [checkClasses] at h
    cases hc : checkFields env reg c.Name [] c.Fields with
    | some e =>
      simp only [hc] at h
      cases h
      obtain ⟨f, hf, hrest⟩ := checkFields_unresolved_origin env reg c.Name t c.Fields [] hc
      exact ⟨c, List.mem_cons_self _ _, f, hf, hrest⟩
    | none =>
      simp only [hc] at h
      obtain ⟨d, hd, hrest⟩ := ih h
      exact ⟨d, List.mem_cons_of_mem _ hd, hrest⟩

/-- C5. A schema whose classes have pairwise distinct field names and in which
every field that is not of builtin type is external passes
`checkAllFieldTypesAreValid` against every registry, whatever the type texts of
the external fields; and whenever the checker returns an unresolved-type error,
for any schema and registry, the type it names is the base type of a field that
is not external. -/
theorem C5_external_field_accepted (env : Env) (schema : Schema) (reg : Registry)
    (hnames : ∀ c ∈ schema.Classes, (c.Fields.map Field.Name).Nodup)
    (hext : ∀ c ∈ schema.Classes, ∀ f ∈ c.Fields,
      isBuiltInType env f.Type_ = true ∨ isBuiltInType env (baseType f.Type_) = true ∨
        f.External = true) :
    checkAllFieldTypesAreValid env schema reg = none ∧
      ∀ (schema' : Schema) (reg' : Registry) (t : String),
        checkAllFieldTypesAreValid env schema' reg' = some (.unresolvedType t) →
          ∃ c ∈ schema'.Classes, ∃ f ∈ c.Fields, f.External = false ∧ baseType f.Type_ = t := by
  constructor
  · unfold checkAllFieldTypesAreValid
    rw [checkClasses_eq_none_iff]
    intro c hc
    refine ⟨?_, hnames c hc⟩
    intro f hf
    rcases hext c hc f hf with h | h | h
    · left
      rw [baseType_of_builtin env _ h]
      exact h
    · exact Or.inl h
    · exact Or.inr (Or.inl h)
  · intro schema' reg' t h
    obtain ⟨c, hc, f, hf, hx, hb, _⟩ := checkClasses_unresolved_origin env reg' t _ h
    exact ⟨c, hc, f, hf, hx, hb⟩

/-- C5 at the schema `ExternalFieldType` of the test suite, whose external field
is typed `Work`, against the empty registry. -/
theorem C5_external_field_accepted_witness :
    isBuiltInType envPlain "Work" = false ∧
      checkAllFieldTypesAreValid envPlain externalFieldType [] = none :=
  ⟨by decide,
    (C5_external_field_accepted envPlain externalFieldType [] (by decide) (by decide)).1⟩

/-- C6, as stated, fails: the class `Employee` of `duplicateAfterUnresolved` has
two fields named `age`, yet the checker returns the unresolved-type error of the
field `boss` that precedes them, not the duplicate-field error. -/
theorem C6_counterexample :
    employeeBossAgeTwice ∈ duplicateAfterUnresolved.Classes ∧
      employeeBossAgeTwice.Fields =
        [{ Name := "boss", Type_ := "Work", External := false }] ++
          { Name := "age", Type_ := "int8", External := false } ::
            ([] ++ [{ Name := "age", Type_ := "string", External := false }]) ∧
      checkAllFieldTypesAreValid envPlain duplicateAfterUnresolved [] =
        some (.unresolvedType "Work") ∧
      checkAllFieldTypesAreValid envPlain duplicateAfterUnresolved [] ≠
        some (.duplicateField "age" "Employee") := by
  decide

/-- C6, amended. If some class contains two fields with the same name, then
`checkAllFieldTypesAreValid` fails, for every registry; and when every class
before that class and every field before the second of the two is valid, the
error is the duplicate-field error naming that field and that class, whether the
types of the two fields are equal or different. -/
theorem C6_duplicate_field (env : Env) (schema : Schema) (reg : Registry)
    (pre post : List Class) (c : Class) (fpre mid fpost : List Field) (f1 f2 : Field)
    (hclasses : schema.Classes = pre ++ c :: post)
    (hfields : c.Fields = fpre ++ f1 :: (mid ++ f2 :: fpost))
    (hname : f1.Name = f2.Name) :
    checkAllFieldTypesAreValid env schema reg ≠ none ∧
      ((∀ d ∈ pre, ClassValid env reg d) → FieldsValid env reg [] (fpre ++ f1 :: mid) →
        checkAllFieldTypesAreValid env schema reg = some (.duplicateField f2.Name c.Name)) := by
  constructor
  · intro h
    have hc : c ∈ schema.Classes := by rw [hclasses]; simp
    have hnd := (checkAll_none_accepted env schema reg h c hc).2
    rw [hfields] at hnd
    simp only [List.map_append, List.map_cons] at hnd
    have h1 := (List.nodup_cons.1 (List.nodup_append.1 hnd).2.1).1
    apply h1
    rw [hname]
    simp
  · intro hpre hfpre
    apply checkAll_duplicate_at env schema reg pre post c (fpre ++ f1 :: mid) fpost f2 hclasses
      (by rw [hfields]; simp) ?_ hpre hfpre
    rw [← hname]
    simp

/-- C6, amended, at the schema of the test case `duplicate field name different
field type`. -/
theorem C6_duplicate_field_witness :
    checkAllFieldTypesAreValid envPlain duplicateFieldName [] ≠ none ∧
      checkAllFieldTypesAreValid envPlain duplicateFieldName [] =
        some (.duplicateField "age" "Employee") :=
  have h := C6_duplicate_field envPlain duplicateFieldName [] [] [] employeeAgeTwice [] [] []
    { Name := "age", Type_ := "int8", External := false }
    { Name := "age", Type_ := "string", External := false } rfl rfl rfl
  ⟨h.1, h.2 (by simp) (by decide)⟩

theorem registerAndCheck_of_register_error (env : Env) (schema : Schema) (reg : Registry)
    (e : SchemaError) (h : (registerClassesAndCheckForDuplicate schema reg).2 = some e) :
    registerAndCheck env schema reg = .err e := by
  unfold registerAndCheck
  rcases hr : registerClassesAndCheckForDuplicate schema reg with ⟨r, _ | e'⟩
  · rw [hr] at h; cases h
  · rw [hr] at h
    cases h
    rfl

theorem ProcessSchema_of_register_error (env : Env) (fuel : Nat) (schema : Schema)
    (reg1 : Registry) (e : SchemaError)
    (himp : processImports (processImport env fuel) schema.Import [] = .ok reg1)
    (hreg : (registerClassesAndCheckForDuplicate schema reg1).2 = some e) :
    ProcessSchema env fuel schema = .err e := by
  unfold ProcessSchema ProcessSchemaRegistry ProcessSchemaWith
  simp only [himp, registerAndCheck_of_register_error env schema reg1 e hreg]

/-- C7. For every schema with no imports in which two classes have the same
name, `ProcessSchema` returns the duplicate-class error, whose message ends in
`already exist`, whatever the fields of the classes are: registration of the
classes precedes the check of the fields. -/
theorem C7_duplicate_class_no_imports (env : Env) (fuel : Nat) (schema : Schema)
    (pre mid post : List Class) (c1 c2 : Class)
    (himport : schema.Import = [])
    (hclasses : schema.Classes = pre ++ c1 :: (mid ++ c2 :: post))
    (hname : c1.Name = c2.Name) :
    ∃ n ∈ schema.Classes.map Class.Name,
      ProcessSchema env fuel schema =
        .err (.duplicateClass n (effectiveNamespace schema.Namespace)) ∧
      (SchemaError.duplicateClass n (effectiveNamespace schema.Namespace)).message =
        "Class defined more than once. Compact class with name " ++ n ++ " and namespace " ++
          effectiveNamespace schema.Namespace ++ " already exist" := by
  obtain ⟨n, hn, hres⟩ := registerClasses_dup schema.Namespace schema.Classes [] (by
    rintro ⟨hnd, _⟩
    rw [hclasses] at hnd
    simp only [List.map_append, List.map_cons] at hnd
    have h1 := (List.nodup_cons.1 (List.nodup_append.1 hnd).2.1).1
    apply h1
    rw [hname]
    simp)
  refine ⟨n, hn, ?_, rfl⟩
  apply ProcessSchema_of_register_error env fuel schema [] _ (by rw [himport]; rfl)
  exact hres

/-- C7 at the schema of the test case `duplicate compact class`. -/
theorem C7_duplicate_class_no_imports_witness :
    ∃ n ∈ duplicateCompactClass.Classes.map Class.Name,
      ProcessSchema envPlain 0 duplicateCompactClass =
        .err (.duplicateClass n (effectiveNamespace duplicateCompactClass.Namespace)) ∧
      (SchemaError.duplicateClass n (effectiveNamespace duplicateCompactClass.Namespace)).message =
        "Class defined more than once. Compact class with name " ++ n ++ " and namespace " ++
          effectiveNamespace duplicateCompactClass.Namespace ++ " already exist" :=
  C7_duplicate_class_no_imports envPlain 0 duplicateCompactClass [] [] [] employeeWork
    { Name := "Employee", Fields := [], Namespace := "" } rfl rfl rfl

/-- C8. When the imports of the root all resolve, and the root declares a class
whose fully-qualified name equals that of a class declared in a directly or
transitively imported schema, `ProcessSchema` fails with the duplicate-class
error, whatever the fields of the two classes are. -/
theorem C8_duplicate_class_with_import (env : Env) (fuel : Nat) (root : Schema)
    (reg1 : Registry) (c : Class) (s : Schema) (d : Class)
    (himp : processImports (processImport env fuel) root.Import [] = .ok reg1)
    (hc : c ∈ root.Classes) (hs : InClosure env root.Import s) (hd : d ∈ s.Classes)
    (hname : fullyQualifiedName root.Namespace c.Name = fullyQualifiedName s.Namespace d.Name) :
    ∃ n ∈ root.Classes.map Class.Name,
      ProcessSchema env fuel root =
        .err (.duplicateClass n (effectiveNamespace root.Namespace)) := by
  have hkey : fullyQualifiedName root.Namespace c.Name ∈ reg1.keys := by
    rw [hname]
    apply ((processImports_processImport_keys env fuel root.Import [] reg1 himp) _).2
    exact Or.inr ⟨s, hs, List.mem_map_of_mem (fun c => fullyQualifiedName s.Namespace c.Name) hd⟩
  obtain ⟨n, hn, hres⟩ := registerClasses_dup root.Namespace root.Classes reg1
    (fun h => h.2 c hc hkey)
  exact ⟨n, hn, ProcessSchema_of_register_error env fuel root reg1 _ himp hres⟩

/-- C8 at the schema `SameNamespaceAndNamedClassImportedError` of the test suite:
the root and `example.yml` both declare `com.example.Employee`, with different
fields. -/
theorem C8_duplicate_class_with_import_witness :
    processImports (processImport envExample 1) sameNamespaceAndNamedClassImported.Import [] =
        .ok [("com.example.Employee", { employeeName with Namespace := "com.example" })] ∧
      employeeWorkString.Fields ≠ employeeName.Fields ∧
      ∃ n ∈ sameNamespaceAndNamedClassImported.Classes.map Class.Name,
        ProcessSchema envExample 1 sameNamespaceAndNamedClassImported =
          .err (.duplicateClass n (effectiveNamespace sameNamespaceAndNamedClassImported.Namespace)) :=
  ⟨by decide, by decide,
    C8_duplicate_class_with_import envExample 1 sameNamespaceAndNamedClassImported
      [("com.example.Employee", { employeeName with Namespace := "com.example" })]
      employeeWorkString exampleYml.schema employeeName (by decide) (by decide)
      (.direct (List.mem_singleton_self _) (by decide)) (by decide) (by decide)⟩

/-- C9, as stated, fails: `arr.yaml` resolves and declares the class
`com.xyz.Work[]`, the root has one class with one non-external field typed with
exactly that name, yet `ProcessSchema` strips the trailing `[]` of the type text
and returns the unresolved-type error for `com.xyz.Work`. -/
theorem C9_counterexample :
    processImports (processImport envArr 1) rootUsingArr.Import [] =
        .ok [("com.xyz.Work[]", { Name := "Work[]", Fields := [], Namespace := "com.xyz" })] ∧
      InClosure envArr rootUsingArr.Import arrYaml.schema ∧
      "com.xyz.Work[]" ∈ arrYaml.schema.fullNames ∧
      rootUsingArr.Classes =
        [{ Name := "Employee",
           Fields := [{ Name := "age", Type_ := "com.xyz.Work[]", External := false }],
           Namespace := "" }] ∧
      ProcessSchema envArr 1 rootUsingArr = .err (.unresolvedType "com.xyz.Work") :=
  ⟨by decide, .direct (List.mem_singleton_self _) (by decide), by decide, rfl, by decide⟩

/-- C9, amended. When the imports of the root all resolve, the fully-qualified
name of every class declared in a directly or transitively imported schema is a
key of the registry against which the root is type-checked; a type text that is
such a name followed by `[]`, or the bare name when the name does not itself end
in `[]`, has that name as base type; and `ProcessSchema` succeeds when the root
has no duplicate class, no repeated field name, and every field is external or
has a base type that is a builtin token, a class of the root, or a class of
the import closure. -/
theorem C9_root_may_use_imported_classes (env : Env) (fuel : Nat) (root : Schema)
    (reg1 : Registry)
    (himp : processImports (processImport env fuel) root.Import [] = .ok reg1) :
    (∀ s, InClosure env root.Import s → ∀ k ∈ s.fullNames,
      k ∈ (registerClassesAndCheckForDuplicate root reg1).1.keys) ∧
    (∀ n : String, baseType (n ++ "[]") = n ∧ (HasSuffix n "[]" = false → baseType n = n)) ∧
    (root.fullNames.Nodup →
      (∀ s, InClosure env root.Import s → ∀ k ∈ s.fullNames, k ∉ root.fullNames) →
      (∀ c ∈ root.Classes, (c.Fields.map Field.Name).Nodup) →
      (∀ c ∈ root.Classes, ∀ f ∈ c.Fields,
        isBuiltInType env (baseType f.Type_) = true ∨ f.External = true ∨
          baseType f.Type_ ∈ root.fullNames ∨
          ∃ s, InClosure env root.Import s ∧ baseType f.Type_ ∈ s.fullNames) →
      ProcessSchema env fuel root = .ok ()) := by
  have hext := processImports_processImport_keys env fuel root.Import [] reg1 himp
  refine ⟨?_, ?_, ?_⟩
  · intro s hs k hk
    exact (registerClasses_keys root.Namespace root.Classes reg1).2 k
      ((hext k).2 (Or.inr ⟨s, hs, hk⟩))
  · intro n
    refine ⟨baseType_append_brackets n, ?_⟩
    intro h
    unfold baseType
    rw [h]
    rfl
  · intro hnd hfresh hfields htypes
    obtain ⟨reg', hreg', _⟩ := registerAndCheck_ok env root reg1 hnd
      (by
        intro k hk hmem
        rcases (hext k).1 hmem with h | ⟨s, hs, hks⟩
        · cases h
        · exact hfresh s hs k hks hk)
      (by
        intro r hr c hc
        refine ⟨?_, hfields c hc⟩
        intro f hf
        rcases htypes c hc f hf with h | h | h | ⟨s, hs, hks⟩
        · exact Or.inl h
        · exact Or.inr (Or.inl h)
        · exact Or.inr (Or.inr ((hr _).2 (Or.inr h)))
        · exact Or.inr (Or.inr ((hr _).2 (Or.inl ((hext _).2 (Or.inr ⟨s, hs, hks⟩))))))
    apply ProcessSchema_of_registry env fuel root reg'
    unfold ProcessSchemaRegistry ProcessSchemaWith
    simp only [himp, hreg']

/-- C9, amended, at the schema `ImportedFieldType` of the test suite, whose field
is typed with the class `com.xyz.Work` of the imported `xyz.yaml`. -/
theorem C9_root_may_use_imported_classes_witness :
    processImports (processImport envXyz 1) importedFieldType.Import [] =
        .ok [("com.xyz.Work", { Name := "Work", Fields := [], Namespace := "com.xyz" })] ∧
      ProcessSchema envXyz 1 importedFieldType = .ok () :=
  ⟨by decide,
    (C9_root_may_use_imported_classes envXyz 1 importedFieldType
      [("com.xyz.Work", { Name := "Work", Fields := [], Namespace := "com.xyz" })]
      (by decide)).2.2 (by decide)
      (by
        intro s hs k hk
        have hs' := (inClosure_singleton envXyz "xyz.yaml" xyzYaml.schema s (by decide)).1 hs
        rcases hs' with rfl | h
        · revert k; decide
        · exact absurd h (inClosure_nil envXyz s))
      (by decide)
      (by
        intro c hc f hf
        simp only [importedFieldType, List.mem_singleton] at hc
        subst hc
        simp only [List.mem_singleton] at hf
        subst hf
        exact Or.inr (Or.inr (Or.inr ⟨xyzYaml.schema,
          .direct (List.mem_singleton_self _) (by decide), by decide⟩)))⟩

theorem sourceAt_eq_some (env : Env) (p : String) (a : Schema) (h : sourceAt env p = some a) :
    ∃ text, env.readFile p = .ok text ∧ decodeSchema env text = .ok a := by
  unfold sourceAt at h
  cases hread : env.readFile p with
  | error e => simp only [hread] at h; cases h
  | ok text =>
    simp only [hread] at h
    cases hdec : decodeSchema env text with
    | error e => simp only [hdec] at h; cases h
    | ok sch =>
      simp only [hdec] at h
      cases h
      exact ⟨text, rfl, hdec⟩

theorem processImport_of_parse_error (env : Env) (n : Nat) (p : String) (a : Schema)
    (reg : Registry) (e : SchemaError) (hsrc : sourceAt env p = some a)
    (h : ProcessSchemaWith env (processImport env n) a = .err e) :
    processImport env (n + 1) p reg = .err e := by
  obtain ⟨text, hread, hdec⟩ := sourceAt_eq_some env p a hsrc
  rw [processImport]
  unfold ParseSchemaTextWith
  simp only [hread, hdec, h]

theorem processImports_cons_error (pI : String → Registry → Res Registry) (p : String)
    (ps : List String) (reg : Registry) (e : SchemaError) (h : pI p reg = .err e) :
    processImports pI (p :: ps) reg = .err e := by
  rw [processImports, h]

theorem ProcessSchema_of_import_error (env : Env) (fuel : Nat) (schema : Schema)
    (e : SchemaError)
    (h : processImports (processImport env fuel) schema.Import [] = .err e) :
    ProcessSchema env fuel schema = .err e := by
  unfold ProcessSchema ProcessSchemaRegistry ProcessSchemaWith
  simp only [h]

/-- A field whose base type is a fully-qualified name absent from the registry
is not accepted, unless it is external. -/
theorem not_accepted_of_absent (env : Env) (reg : Registry) (f : Field) (ns n : String)
    (hext : f.External = false) (hbase : baseType f.Type_ = fullyQualifiedName ns n)
    (hkey : baseType f.Type_ ∉ reg.keys) : ¬ Accepted env reg f := by
  rintro (h | h | h)
  · rw [hbase, not_builtin_of_dot env _ (dot_mem_fullyQualifiedName ns n)] at h
    cases h
  · rw [hext] at h; cases h
  · exact hkey h

/-- C10, as stated, fails: the root imports `a.yaml` and declares
`com.example.Employee`; the class `Manager` of `a.yaml` has a non-external field
typed `com.example.Employee`, which `a.yaml` neither declares nor imports; yet
`ProcessSchema` on the root returns the duplicate-field error of the field `id`
that `Manager` repeats before that field, not the unresolved-type error. -/
theorem C10_counterexample :
    "a.yaml" ∈ rootWithEmployee.Import ∧
      sourceAt envManagerIdTwice "a.yaml" = some managerIdTwiceYaml.schema ∧
      managerIdTwiceYaml.schema.Import = [] ∧
      managerIdTwice ∈ managerIdTwiceYaml.schema.Classes ∧
      bossField ∈ managerIdTwice.Fields ∧ bossField.External = false ∧
      baseType bossField.Type_ = fullyQualifiedName rootWithEmployee.Namespace employeeName.Name ∧
      employeeName ∈ rootWithEmployee.Classes ∧
      baseType bossField.Type_ ∉ managerIdTwiceYaml.schema.fullNames ∧
      ProcessSchema envManagerIdTwice 1 rootWithEmployee =
        .err (.duplicateField "id" "Manager") ∧
      ProcessSchema envManagerIdTwice 2 rootWithEmployee =
        .err (.duplicateField "id" "Manager") :=
  ⟨by decide, by decide, rfl, by decide, by decide, rfl, by decide, by decide, by decide,
    by decide, by decide⟩

/-- C10, amended. If the root imports a schema `A` that has a non-external field
whose base type is the fully-qualified name of a class declared in the root and
in no schema of the import closure of `A`, `A` included, then that class is
declared in the overall closure, yet `ProcessSchema` on the root never returns
success; and when the imports listed before `A` resolve,
the imports of `A` resolve, the classes of `A` register, and every class and
field of `A` checked before that field is valid, it fails with the
unresolved-type error naming that base type. -/
theorem C10_import_cannot_use_root_class (env : Env) (root A : Schema) (p : String)
    (c x : Class) (f : Field)
    (hp : p ∈ root.Import) (hA : sourceAt env p = some A)
    (hc : c ∈ A.Classes) (hf : f ∈ c.Fields) (hext : f.External = false)
    (hx : x ∈ root.Classes)
    (hbase : baseType f.Type_ = fullyQualifiedName root.Namespace x.Name)
    (hnotA : baseType f.Type_ ∉ A.fullNames)
    (hnotcl : ∀ s, InClosure env A.Import s → baseType f.Type_ ∉ s.fullNames) :
    baseType f.Type_ ∈ root.fullNames ∧
    (∀ fuel, ProcessSchema env fuel root ≠ .ok ()) ∧
    (∀ n pre post reg0 regA regA' cpre cpost fpre fpost,
      root.Import = pre ++ p :: post →
      processImports (processImport env (n + 1)) pre [] = .ok reg0 →
      processImports (processImport env n) A.Import [] = .ok regA →
      registerClassesAndCheckForDuplicate A regA = (regA', none) →
      A.Classes = cpre ++ c :: cpost → c.Fields = fpre ++ f :: fpost →
      (∀ d ∈ cpre, ClassValid env regA' d) → FieldsValid env regA' [] fpre →
      f.Name ∉ fpre.map Field.Name →
      ProcessSchema env (n + 1) root = .err (.unresolvedType (baseType f.Type_))) := by
  have habsent : ∀ (n : Nat) (regA regA' : Registry),
      processImports (processImport env n) A.Import [] = .ok regA →
      registerClassesAndCheckForDuplicate A regA = (regA', none) →
      ¬ Accepted env regA' f := by
    intro n regA regA' himp hreg
    apply not_accepted_of_absent env regA' f root.Namespace x.Name hext hbase
    intro hk
    rcases ((registerClasses_eq_ok A.Namespace A.Classes regA regA' hreg).2.2 _).1 hk with h | h
    · rcases ((processImports_processImport_keys env n A.Import [] regA himp) _).1 h with
        h' | ⟨s, hs, hks⟩
      · cases h'
      · exact hnotcl s hs hks
    · exact hnotA h
  refine ⟨?_, ?_, ?_⟩
  · rw [hbase]
    exact List.mem_map_of_mem (fun c => fullyQualifiedName root.Namespace c.Name) hx
  · intro fuel hok
    obtain ⟨reg, hreg⟩ := ProcessSchema_eq_ok env fuel root hok
    obtain ⟨reg1, himp, _⟩ := ProcessSchemaWith_eq_ok env _ root reg hreg
    refine processImports_not_ok (processImport env fuel) p ?_ root.Import hp [] reg1 himp
    intro r r' hpi
    cases fuel with
    | zero => rw [processImport] at hpi; cases hpi
    | succ n =>
      obtain ⟨sch, reg0, _, hsrc, hps, _, _⟩ := processImport_succ_ok env n p r r' hpi
      rw [hA] at hsrc
      cases hsrc
      obtain ⟨regA, himpA, hrc⟩ := ProcessSchemaWith_eq_ok env _ A reg0 hps
      obtain ⟨hr, hcheck⟩ := registerAndCheck_eq_ok env A regA reg0 hrc
      exact habsent n regA reg0 himpA hr ((checkAll_none_accepted env A reg0 hcheck c hc).1 f hf)
  · intro n pre post reg0 regA regA' cpre cpost fpre fpost hroot hpre himpA hreg hcls hfs
      hcpre hfpre hnew
    have hcheck := checkAll_unresolved_at env A regA' cpre cpost c fpre fpost f hcls hfs hnew
      (habsent n regA regA' himpA hreg) hcpre hfpre
    have hA' : ProcessSchemaWith env (processImport env n) A =
        .err (.unresolvedType (baseType f.Type_)) := by
      unfold ProcessSchemaWith registerAndCheck
      simp only [himpA, hreg, hcheck]
    apply ProcessSchema_of_import_error
    rw [hroot, processImports_append _ pre _ [] reg0 hpre]
    exact processImports_cons_error _ p post reg0 _
      (processImport_of_parse_error env n p A reg0 _ hA hA')

/-- C10, amended, at a root that declares `Employee` and imports `a.yaml`, whose
class `Manager` has a field typed `com.example.Employee`. -/
theorem C10_import_cannot_use_root_class_witness :
    sourceAt envManager "a.yaml" = some managerYaml.schema ∧
      ProcessSchema envManager 1 rootWithEmployee ≠ .ok () ∧
      ProcessSchema envManager 1 rootWithEmployee =
        .err (.unresolvedType "com.example.Employee") :=
  have h := C10_import_cannot_use_root_class envManager rootWithEmployee managerYaml.schema
    "a.yaml" managerClass employeeName bossField (by decide) (by decide) (by decide)
    (by decide) rfl (by decide) (by decide) (by decide)
    (fun s hs => absurd hs (inClosure_nil envManager s))
  ⟨by decide, h.2.1 1,
    h.2.2 0 [] [] [] []
      [("com.example.Manager", { managerClass with Namespace := "com.example" })]
      [] [] [] [] rfl rfl rfl (by decide) rfl rfl (by simp) (by simp [FieldsValid]) (by simp)⟩

/-! ## Imports that refer to earlier imports -/

theorem accepted_mono (env : Env) (reg reg' : Registry) (f : Field)
    (hsub : ∀ k ∈ reg.keys, k ∈ reg'.keys) (h : Accepted env reg f) : Accepted env reg' f := by
  rcases h with h | h | h
  · exact Or.inl h
  · exact Or.inr (Or.inl h)
  · exact Or.inr (Or.inr (hsub _ h))

theorem classValid_mono (env : Env) (reg reg' : Registry) (c : Class)
    (hsub : ∀ k ∈ reg.keys, k ∈ reg'.keys) (h : ClassValid env reg c) : ClassValid env reg' c :=
  ⟨fun f hf => accepted_mono env reg reg' f hsub (h.1 f hf), h.2⟩

/-- The field check at the end of `processImport` cannot fail: the schema has
already passed the check inside `ParseSchemaText`, against a registry with no
more keys. -/
theorem processImport_final_check_passes (env : Env) (n : Nat) (sch : Schema)
    (reg reg0 reg1 reg2 : Registry)
    (hparse : ProcessSchemaWith env (processImport env n) sch = .ok reg0)
    (himp : processImports (processImport env n) sch.Import reg = .ok reg1)
    (hreg : registerClassesAndCheckForDuplicate sch reg1 = (reg2, none)) :
    checkAllFieldTypesAreValid env sch reg2 = none := by
  obtain ⟨r0, h0, hrc⟩ := ProcessSchemaWith_eq_ok env _ sch reg0 hparse
  obtain ⟨hr, hcheck⟩ := registerAndCheck_eq_ok env sch r0 reg0 hrc
  have hk0 := processImports_processImport_keys env n sch.Import [] r0 h0
  have hk1 := processImports_processImport_keys env n sch.Import reg reg1 himp
  have hkr0 := (registerClasses_eq_ok sch.Namespace sch.Classes r0 reg0 hr).2.2
  have hkr2 := (registerClasses_eq_ok sch.Namespace sch.Classes reg1 reg2 hreg).2.2
  have hsub : ∀ k ∈ reg0.keys, k ∈ reg2.keys := by
    intro k hk
    rcases (hkr0 k).1 hk with h | h
    · rcases (hk0 k).1 h with h' | h'
      · cases h'
      · exact (hkr2 k).2 (Or.inl ((hk1 k).2 (Or.inr h')))
    · exact (hkr2 k).2 (Or.inr h)
  unfold checkAllFieldTypesAreValid
  rw [checkClasses_eq_none_iff]
  intro c hc
  exact classValid_mono env reg0 reg2 c hsub (checkAll_none_accepted env sch reg0 hcheck c hc)

/-- C11 at a failing input. The root imports `xyz.yaml`, which declares
`com.xyz.Work`, and then `zyx.yaml`, which has no imports and whose field is
typed `com.xyz.Work`. After `xyz.yaml` is resolved the shared registry holds
`com.xyz.Work`, and registering and checking `zyx.yaml` against it, the last two
steps of `processImport`, succeed; but `ParseSchemaText` has run `ProcessSchema`
on `zyx.yaml` alone before, and the root fails with the unresolved-type
error. -/
theorem C11_sibling_import_rejected :
    processImport envSiblings 1 "xyz.yaml" [] =
        .ok [("com.xyz.Work", { Name := "Work", Fields := [], Namespace := "com.xyz" })] ∧
      registerAndCheck envSiblings zyxJobYaml.schema
          [("com.xyz.Work", { Name := "Work", Fields := [], Namespace := "com.xyz" })] =
        .ok [("com.zyx.Job", { jobClass with Namespace := "com.zyx" }),
             ("com.xyz.Work", { Name := "Work", Fields := [], Namespace := "com.xyz" })] ∧
      ProcessSchema envSiblings 0 zyxJobYaml.schema = .err (.unresolvedType "com.xyz.Work") ∧
      ProcessSchema envSiblings 1 rootSiblings = .err (.unresolvedType "com.xyz.Work") ∧
      ProcessSchema envSiblings 2 rootSiblings = .err (.unresolvedType "com.xyz.Work") :=
  ⟨by decide, by decide, by decide, by decide, by decide⟩

/-! ## Repeated imports -/

theorem registerAndCheck_of_valid (env : Env) (schema : Schema) (reg : Registry)
    (names : List String)
    (hnd : schema.fullNames.Nodup) (hfresh : ∀ k ∈ schema.fullNames, k ∉ reg.keys)
    (hnames : ∀ k ∈ names, k ∈ reg.keys ∨ k ∈ schema.fullNames)
    (hvalid : SchemaValidIn env names schema) :
    ∃ reg', registerAndCheck env schema reg = .ok reg' ∧
      ∀ k, k ∈ reg'.keys ↔ k ∈ reg.keys ∨ k ∈ schema.fullNames := by
  apply registerAndCheck_ok env schema reg hnd hfresh
  intro r hr c hc
  refine ⟨?_, (hvalid c hc).1⟩
  intro f hf
  rcases (hvalid c hc).2 f hf with h | h | h
  · exact Or.inl h
  · exact Or.inr (Or.inl h)
  · exact Or.inr (Or.inr ((hr _).2 (hnames _ h)))

/-- How `processImport` goes on after `ParseSchemaText` has accepted the schema
it imports. -/
theorem processImport_of_parsed (env : Env) (n : Nat) (p : String) (sch : Schema)
    (reg reg0 : Registry) (hsrc : sourceAt env p = some sch)
    (hparse : ProcessSchemaWith env (processImport env n) sch = .ok reg0) :
    processImport env (n + 1) p reg =
      match processImports (processImport env n) sch.Import reg with
      | .ok reg1 => registerAndCheck env sch reg1
      | .err e => .err e
      | .outOfFuel => .outOfFuel := by
  obtain ⟨text, hread, hdec⟩ := sourceAt_eq_some env p sch hsrc
  rw [processImport]
  unfold ParseSchemaTextWith
  simp only [hread, hdec, hparse]
  cases processImports (processImport env n) sch.Import reg <;> rfl

theorem processImport_leaf (env : Env) (n : Nat) (p : String) (sch : Schema)
    (reg reg0 : Registry) (hsrc : sourceAt env p = some sch) (himports : sch.Import = [])
    (halone : registerAndCheck env sch [] = .ok reg0) :
    processImport env (n + 1) p reg = registerAndCheck env sch reg := by
  have hparse : ProcessSchemaWith env (processImport env n) sch = .ok reg0 := by
    unfold ProcessSchemaWith
    rw [himports]
    exact halone
  rw [processImport_of_parsed env n p sch reg reg0 hsrc hparse, himports]
  rfl

theorem processImports_mono (env : Env) (fuel : Nat) (imports : List String)
    (reg reg' : Registry) (h : processImports (processImport env fuel) imports reg = .ok reg') :
    ∀ k ∈ reg.keys, k ∈ reg'.keys :=
  fun k hk => ((processImports_processImport_keys env fuel imports reg reg' h) k).2 (Or.inl hk)

/-- A successful `processImport` has met no class name that was already a key:
the names declared in the closure of the path are new to the registry. -/
theorem processImport_fresh (env : Env) :
    ∀ (fuel : Nat) (p : String) (reg reg' : Registry),
      processImport env fuel p reg = .ok reg' →
        ∀ s, InClosure env [p] s → ∀ k ∈ s.fullNames, k ∉ reg.keys := by
  intro fuel
  induction fuel with
  | zero => intro p reg reg' h; rw [processImport] at h; cases h
  | succ n ih =>
    have ihl : ∀ (imports : List String) (reg reg' : Registry),
        processImports (processImport env n) imports reg = .ok reg' →
          ∀ s, InClosure env imports s → ∀ k ∈ s.fullNames, k ∉ reg.keys := by
      intro imports
      induction imports with
      | nil => intro reg reg' _ s hs; exact absurd hs (inClosure_nil env s)
      | cons q qs ihq =>
        intro reg reg' h s hs k hk
        obtain ⟨r, hr, hrest⟩ := processImports_ok_cons _ q qs reg reg' h
        rcases (inClosure_cons env q qs s).1 hs with h1 | h1
        · exact ih q reg r hr s h1 k hk
        · intro hmem
          exact ihq r reg' hrest s h1 k hk (((processImport_keys env n q reg r hr) k).2 (Or.inl hmem))
    intro p reg reg' h s hs k hk hmem
    obtain ⟨sch, reg0, reg1, hsrc, _, himp, hreg⟩ := processImport_succ_ok env n p reg reg' h
    rcases (inClosure_singleton env p sch s hsrc).1 hs with rfl | hs'
    · have hfresh := (registerClasses_eq_ok s.Namespace s.Classes reg1 reg'
        (registerAndCheck_eq_ok env s reg1 reg' hreg).1).2.1
      obtain ⟨c, hc, rfl⟩ := List.mem_map.1 hk
      exact hfresh c hc (processImports_mono env n s.Import reg reg1 himp _ hmem)
    · exact ihl sch.Import reg reg1 himp s hs' k hk hmem

theorem processImports_singleton (pI : String → Registry → Res Registry) (p : String)
    (reg : Registry) : processImports pI [p] reg = pI p reg := by
  rw [processImports]
  cases pI p reg <;> rfl

theorem processImports_pair (pI : String → Registry → Res Registry) (p q : String)
    (reg reg1 : Registry) (h : pI p reg = .ok reg1) :
    processImports pI [p, q] reg = pI q reg1 := by
  rw [processImports, h]
  exact processImports_singleton pI q reg1

theorem registerAndCheck_no_classes (env : Env) (schema : Schema) (reg : Registry)
    (h : schema.Classes = []) : registerAndCheck env schema reg = .ok reg := by
  unfold registerAndCheck registerClassesAndCheckForDuplicate checkAllFieldTypesAreValid
  rw [h]
  rfl

theorem registerAndCheck_first_present (env : Env) (schema : Schema) (reg : Registry)
    (c : Class) (rest : List Class) (h : schema.Classes = c :: rest)
    (hkey : fullyQualifiedName schema.Namespace c.Name ∈ reg.keys) :
    registerAndCheck env schema reg =
      .err (.duplicateClass c.Name (effectiveNamespace schema.Namespace)) := by
  apply registerAndCheck_of_register_error
  unfold registerClassesAndCheckForDuplicate
  rw [h, registerClasses_cons_present schema.Namespace c rest reg hkey]

theorem ProcessSchema_of_imports_ok (env : Env) (fuel : Nat) (schema : Schema)
    (reg1 reg : Registry)
    (himp : processImports (processImport env fuel) schema.Import [] = .ok reg1)
    (hrc : registerAndCheck env schema reg1 = .ok reg) :
    ProcessSchemaRegistry env fuel schema = .ok reg ∧ ProcessSchema env fuel schema = .ok () := by
  have h : ProcessSchemaRegistry env fuel schema = .ok reg := by
    unfold ProcessSchemaRegistry ProcessSchemaWith
    simp only [himp, hrc]
  exact ⟨h, ProcessSchema_of_registry env fuel schema reg h⟩

/-- An imported schema `A` whose only import is the leaf `C` resolves, and leaves
the names of `C` and of `A` in an empty registry. -/
theorem processImport_over_leaf (env : Env) (A C : Schema) (pA pC : String) (n : Nat)
    (hA : sourceAt env pA = some A) (hC : sourceAt env pC = some C)
    (hAi : A.Import = [pC]) (hCi : C.Import = [])
    (hnd : (C.fullNames ++ A.fullNames).Nodup)
    (hCvalid : SchemaValidIn env C.fullNames C)
    (hAvalid : SchemaValidIn env (C.fullNames ++ A.fullNames) A) :
    (∀ reg, processImport env (n + 1) pC reg = registerAndCheck env C reg) ∧
    (∃ r0, ProcessSchemaWith env (processImport env (n + 1)) A = .ok r0) ∧
    ∃ rCA, processImport env (n + 2) pA [] = .ok rCA ∧
      ∀ k, k ∈ rCA.keys ↔ k ∈ C.fullNames ∨ k ∈ A.fullNames := by
  obtain ⟨hCnd, hAnd, hdisj⟩ := List.nodup_append.1 hnd
  obtain ⟨rC, hrC, hkC⟩ := registerAndCheck_of_valid env C [] C.fullNames hCnd
    (fun k _ hk => by cases hk) (fun k hk => Or.inr hk) hCvalid
  have hpC : ∀ reg, processImport env (n + 1) pC reg = registerAndCheck env C reg :=
    fun reg => processImport_leaf env n pC C reg rC hC hCi hrC
  obtain ⟨rCA, hrCA, hkCA⟩ := registerAndCheck_of_valid env A rC (C.fullNames ++ A.fullNames) hAnd
    (fun k hk hmem => by
      rcases (hkC k).1 hmem with h | h
      · cases h
      · exact hdisj h hk)
    (fun k hk => by
      rcases List.mem_append.1 hk with h | h
      · exact Or.inl ((hkC k).2 (Or.inr h))
      · exact Or.inr h)
    hAvalid
  have himp : processImports (processImport env (n + 1)) A.Import [] = .ok rC := by
    rw [hAi, processImports_singleton, hpC, hrC]
  have hparse : ProcessSchemaWith env (processImport env (n + 1)) A = .ok rCA := by
    unfold ProcessSchemaWith
    simp only [himp, hrCA]
  refine ⟨hpC, ⟨rCA, hparse⟩, rCA, ?_, ?_⟩
  · rw [processImport_of_parsed env (n + 1) pA A [] rCA hA hparse]
    simp only [himp, hrCA]
  · intro k
    rw [hkCA k, hkC k]
    constructor
    · rintro ((h | h) | h)
      · cases h
      · exact Or.inl h
      · exact Or.inr h
    · rintro (h | h)
      · exact Or.inl (Or.inr h)
      · exact Or.inr h

/-- C12, as stated, fails: `left.yaml` and `right.yaml` each import `base.yaml`,
each of the three is valid on its own, and the four schemas declare four
distinct fully-qualified names; yet `ProcessSchema` on the root ends in the
duplicate-class error for `com.base.Id`, which is registered when `left.yaml`
is resolved and offered again when `right.yaml` is. -/
theorem C12_counterexample :
    rootDiamond.Import = ["left.yaml", "right.yaml"] ∧
      leftYaml.schema.Import = ["base.yaml"] ∧ rightYaml.schema.Import = ["base.yaml"] ∧
      ProcessSchema envDiamond 0 baseYaml.schema = .ok () ∧
      ProcessSchema envDiamond 1 leftYaml.schema = .ok () ∧
      ProcessSchema envDiamond 1 rightYaml.schema = .ok () ∧
      (baseYaml.schema.fullNames ++ leftYaml.schema.fullNames ++ rightYaml.schema.fullNames ++
        rootDiamond.fullNames).Nodup ∧
      ProcessSchema envDiamond 2 rootDiamond = .err (.duplicateClass "Id" "com.base") ∧
      ProcessSchema envDiamond 3 rootDiamond = .err (.duplicateClass "Id" "com.base") :=
  ⟨rfl, rfl, rfl, by decide, by decide, by decide, by decide, by decide, by decide⟩

/-- C12, amended. Let the root import `A` and `B`, which each import the same
schema `C`. If `C` declares a class, `ProcessSchema` on the root never succeeds.
If moreover `C` imports nothing, the three schemas are valid, all the classes
declared have pairwise distinct fully-qualified names and the imports may nest
two deep, then `ProcessSchema` on the root fails with the duplicate-class error
for the first class of `C` when `C` declares a class, and when `C` declares none
it succeeds with a final registry that holds every class of `A`, `B`, `C` and
the root. -/
theorem C12_diamond_import (env : Env) (root A B C : Schema) (pA pB pC : String)
    (hroot : root.Import = [pA, pB])
    (hA : sourceAt env pA = some A) (hB : sourceAt env pB = some B)
    (hC : sourceAt env pC = some C)
    (hAi : A.Import = [pC]) (hBi : B.Import = [pC]) :
    (C.Classes ≠ [] → ∀ fuel, ProcessSchema env fuel root ≠ .ok ()) ∧
    (C.Import = [] →
      (C.fullNames ++ A.fullNames ++ B.fullNames ++ root.fullNames).Nodup →
      SchemaValidIn env C.fullNames C →
      SchemaValidIn env (C.fullNames ++ A.fullNames) A →
      SchemaValidIn env (C.fullNames ++ B.fullNames) B →
      SchemaValidIn env (C.fullNames ++ A.fullNames ++ B.fullNames ++ root.fullNames) root →
      ∀ fuel, 2 ≤ fuel →
        (C.Classes = [] →
          ∃ reg, ProcessSchemaRegistry env fuel root = .ok reg ∧
            (∀ k, k ∈ reg.keys ↔
              k ∈ C.fullNames ++ A.fullNames ++ B.fullNames ++ root.fullNames) ∧
            ProcessSchema env fuel root = .ok ()) ∧
        (∀ c0 rest, C.Classes = c0 :: rest →
          ProcessSchema env fuel root =
            .err (.duplicateClass c0.Name (effectiveNamespace C.Namespace)))) := by
  constructor
  · intro hne fuel hok
    obtain ⟨reg, hreg⟩ := ProcessSchema_eq_ok env fuel root hok
    obtain ⟨reg1, himp, _⟩ := ProcessSchemaWith_eq_ok env _ root reg hreg
    rw [hroot] at himp
    obtain ⟨r1, hr1, hrest⟩ := processImports_ok_cons _ pA [pB] [] reg1 himp
    obtain ⟨r2, hr2, _⟩ := processImports_ok_cons _ pB [] r1 reg1 hrest
    have hCA : InClosure env [pA] C :=
      .nested (List.mem_singleton_self _) hA
        (by rw [hAi]; exact .direct (List.mem_singleton_self _) hC)
    have hCB : InClosure env [pB] C :=
      .nested (List.mem_singleton_self _) hB
        (by rw [hBi]; exact .direct (List.mem_singleton_self _) hC)
    obtain ⟨c, rest, hc⟩ := List.exists_cons_of_ne_nil hne
    have hk : fullyQualifiedName C.Namespace c.Name ∈ C.fullNames := by
      unfold Schema.fullNames
      rw [hc]
      exact List.mem_cons_self _ _
    exact processImport_fresh env fuel pB r1 r2 hr2 C hCB _ hk
      (((processImport_keys env fuel pA [] r1 hr1) _).2 (Or.inr ⟨C, hCA, hk⟩))
  · intro hCi hnd hCvalid hAvalid hBvalid hRvalid fuel hfuel
    obtain ⟨n, rfl⟩ : ∃ n, fuel = n + 2 := ⟨fuel - 2, by omega⟩
    obtain ⟨hCABnd, hRnd, hdisjR⟩ := List.nodup_append.1 hnd
    obtain ⟨hCAnd, hBnd, hdisjB⟩ := List.nodup_append.1 hCABnd
    obtain ⟨hCnd, _, hdisjCA⟩ := List.nodup_append.1 hCAnd
    have hCBnd : (C.fullNames ++ B.fullNames).Nodup :=
      List.nodup_append.2 ⟨hCnd, hBnd, fun k hk hk' => hdisjB (List.mem_append_left _ hk) hk'⟩
    obtain ⟨hpC, _, rCA, hpA, hkCA⟩ :=
      processImport_over_leaf env A C pA pC n hA hC hAi hCi hCAnd hCvalid hAvalid
    obtain ⟨_, ⟨rB0, hBparse⟩, _⟩ :=
      processImport_over_leaf env B C pB pC n hB hC hBi hCi hCBnd hCvalid hBvalid
    have hpB : processImport env (n + 2) pB rCA =
        match registerAndCheck env C rCA with
        | .ok reg1 => registerAndCheck env B reg1
        | .err e => .err e
        | .outOfFuel => .outOfFuel := by
      rw [processImport_of_parsed env (n + 1) pB B rCA rB0 hB hBparse, hBi,
        processImports_singleton, hpC]
    have himports : processImports (processImport env (n + 2)) root.Import [] =
        processImport env (n + 2) pB rCA := by
      rw [hroot]
      exact processImports_pair _ pA pB [] rCA hpA
    constructor
    · intro hCc
      rw [registerAndCheck_no_classes env C rCA hCc] at hpB
      obtain ⟨rB, hrB, hkB⟩ := registerAndCheck_of_valid env B rCA (C.fullNames ++ B.fullNames)
        hBnd
        (fun k hk hmem => by
          rcases (hkCA k).1 hmem with h | h
          · exact hdisjB (List.mem_append_left _ h) hk
          · exact hdisjB (List.mem_append_right _ h) hk)
        (fun k hk => by
          rcases List.mem_append.1 hk with h | h
          · exact Or.inl ((hkCA k).2 (Or.inl h))
          · exact Or.inr h)
        hBvalid
      have hkB' : ∀ k, k ∈ rB.keys ↔ k ∈ C.fullNames ++ A.fullNames ++ B.fullNames := by
        intro k
        rw [hkB k, hkCA k, List.mem_append, List.mem_append]
      obtain ⟨rR, hrR, hkR⟩ := registerAndCheck_of_valid env root rB
        (C.fullNames ++ A.fullNames ++ B.fullNames ++ root.fullNames) hRnd
        (fun k hk hmem => hdisjR ((hkB' k).1 hmem) hk)
        (fun k hk => by
          rcases List.mem_append.1 hk with h | h
          · exact Or.inl ((hkB' k).2 h)
          · exact Or.inr h)
        hRvalid
      have hall : processImports (processImport env (n + 2)) root.Import [] = .ok rB := by
        rw [himports, hpB]
        exact hrB
      obtain ⟨h1, h2⟩ := ProcessSchema_of_imports_ok env (n + 2) root rB rR hall hrR
      refine ⟨rR, h1, ?_, h2⟩
      intro k
      rw [hkR k, hkB' k]
      exact List.mem_append.symm
    · intro c0 rest hCc
      have hk : fullyQualifiedName C.Namespace c0.Name ∈ rCA.keys := by
        apply (hkCA _).2
        left
        unfold Schema.fullNames
        rw [hCc]
        exact List.mem_cons_self _ _
      rw [registerAndCheck_first_present env C rCA c0 rest hCc hk] at hpB
      apply ProcessSchema_of_import_error
      rw [himports, hpB]

/-- C12, amended, at two working directories: in the first the common source
`base.yaml` declares `com.base.Id` and the root fails; in the second the common
source `none.yaml` declares no class and the root succeeds. -/
theorem C12_diamond_import_witness :
    ProcessSchema envDiamond 2 rootDiamond ≠ .ok () ∧
      ProcessSchema envDiamond 2 rootDiamond = .err (.duplicateClass "Id" "com.base") ∧
      ProcessSchema envDiamondNone 2 rootDiamond = .ok () :=
  have h := C12_diamond_import envDiamond rootDiamond leftYaml.schema rightYaml.schema
    baseYaml.schema "left.yaml" "right.yaml" "base.yaml" rfl (by decide) (by decide) (by decide)
    rfl rfl
  have h' := C12_diamond_import envDiamondNone rootDiamond leftNoneYaml.schema
    rightNoneYaml.schema noneYaml.schema "left.yaml" "right.yaml" "none.yaml" rfl (by decide)
    (by decide) (by decide) rfl rfl
  ⟨h.1 (by decide) 2,
    (h.2 rfl (by decide) (by decide) (by decide) (by decide) (by decide) 2 (le_refl 2)).2
      { Name := "Id", Fields := [], Namespace := "" } [] rfl,
    ((h'.2 rfl (by decide) (by decide) (by decide) (by decide) (by decide) 2 (le_refl 2)).1
      rfl).elim fun _ hr => hr.2.2⟩

/-! ## References within one schema -/

theorem fullNames_nodup_of_names (s : Schema) (h : (s.Classes.map Class.Name).Nodup) :
    s.fullNames.Nodup := by
  unfold Schema.fullNames
  have : s.Classes.map (fun c => fullyQualifiedName s.Namespace c.Name) =
      (s.Classes.map Class.Name).map (fullyQualifiedName s.Namespace) := by
    rw [List.map_map]; rfl
  rw [this]
  exact List.Nodup.map (fun a b hab => fullyQualifiedName_injective s.Namespace a b hab) h

theorem names_nodup_of_fullNames (s : Schema) (h : s.fullNames.Nodup) :
    (s.Classes.map Class.Name).Nodup := by
  unfold Schema.fullNames at h
  have : s.Classes.map (fun c => fullyQualifiedName s.Namespace c.Name) =
      (s.Classes.map Class.Name).map (fullyQualifiedName s.Namespace) := by
    rw [List.map_map]; rfl
  rw [this] at h
  exact List.Nodup.of_map _ h

/-- A schema without imports passes exactly when its class names are pairwise
distinct and it is valid against its own fully-qualified names. -/
theorem ProcessSchema_no_imports_iff (env : Env) (fuel : Nat) (s : Schema)
    (himport : s.Import = []) :
    ProcessSchema env fuel s = .ok () ↔
      (s.Classes.map Class.Name).Nodup ∧ SchemaValidIn env s.fullNames s := by
  constructor
  · intro hok
    obtain ⟨reg, hreg⟩ := ProcessSchema_eq_ok env fuel s hok
    obtain ⟨reg1, himp, hrc⟩ := ProcessSchemaWith_eq_ok env _ s reg hreg
    rw [himport] at himp
    cases himp
    obtain ⟨hr, hcheck⟩ := registerAndCheck_eq_ok env s [] reg hrc
    obtain ⟨hnd, _, hkeys⟩ := registerClasses_eq_ok s.Namespace s.Classes [] reg hr
    refine ⟨names_nodup_of_fullNames s hnd, ?_⟩
    intro c hc
    have hv := checkAll_none_accepted env s reg hcheck c hc
    refine ⟨hv.2, ?_⟩
    intro f hf
    rcases hv.1 f hf with h | h | h
    · exact Or.inl h
    · exact Or.inr (Or.inl h)
    · rcases (hkeys _).1 h with h' | h'
      · cases h'
      · exact Or.inr (Or.inr h')
  · rintro ⟨hnd, hvalid⟩
    obtain ⟨reg, hreg, _⟩ := registerAndCheck_of_valid env s [] s.fullNames
      (fullNames_nodup_of_names s hnd) (fun k _ hk => by cases hk) (fun k hk => Or.inr hk) hvalid
    exact (ProcessSchema_of_imports_ok env fuel s [] reg (by rw [himport]; rfl) hreg).2

/-- C13, as stated, fails: the schema has no imports, two classes with distinct
names and no repeated field name, and the field of `Employee` is typed with
`com.example.Work[]`, the fully-qualified name of the class `Work[]` declared
after it; `ProcessSchema` strips the trailing `[]` and returns the
unresolved-type error for `com.example.Work`. -/
theorem C13_counterexample :
    arrayNamedClassSchema.Import = [] ∧
      (arrayNamedClassSchema.Classes.map Class.Name).Nodup ∧
      "com.example.Work[]" ∈ arrayNamedClassSchema.fullNames ∧
      arrayNamedClassSchema.Classes.map (fun c => c.Fields.map Field.Type_) =
        [["com.example.Work[]"], []] ∧
      ProcessSchema envPlain 0 arrayNamedClassSchema =
        .err (.unresolvedType "com.example.Work") :=
  ⟨rfl, by decide, by decide, rfl, by decide⟩

/-- C13, amended. For every schema with no imports, pairwise distinct class names
and no repeated field name within a class, `ProcessSchema` returns no error when
every field is external or has a base type that is a builtin token or the
fully-qualified name of a class declared anywhere in the same schema: before
the referencing class, after it, or the referencing class itself. The base type
of a type text that is such a name followed by `[]` is the name, and so is that
of the bare name when the name does not itself end in `[]`. -/
theorem C13_same_schema_reference (env : Env) (fuel : Nat) (schema : Schema)
    (himport : schema.Import = [])
    (hnames : (schema.Classes.map Class.Name).Nodup)
    (hfields : ∀ c ∈ schema.Classes, (c.Fields.map Field.Name).Nodup)
    (htypes : ∀ c ∈ schema.Classes, ∀ f ∈ c.Fields,
      isBuiltInType env (baseType f.Type_) = true ∨ f.External = true ∨
        ∃ d ∈ schema.Classes, baseType f.Type_ = fullyQualifiedName schema.Namespace d.Name) :
    ProcessSchema env fuel schema = .ok () ∧
      ∀ n : String, baseType (n ++ "[]") = n ∧ (HasSuffix n "[]" = false → baseType n = n) := by
  constructor
  · rw [ProcessSchema_no_imports_iff env fuel schema himport]
    refine ⟨hnames, ?_⟩
    intro c hc
    refine ⟨hfields c hc, ?_⟩
    intro f hf
    rcases htypes c hc f hf with h | h | ⟨d, hd, hbase⟩
    · exact Or.inl h
    · exact Or.inr (Or.inl h)
    · right; right
      rw [hbase]
      exact List.mem_map_of_mem (fun c => fullyQualifiedName schema.Namespace c.Name) hd
  · intro n
    refine ⟨baseType_append_brackets n, ?_⟩
    intro h
    unfold baseType
    rw [h]
    rfl

/-- C13, amended, at the schema `ValidNewFieldTypeDefined` of the test suite. -/
theorem C13_same_schema_reference_witness :
    ProcessSchema envPlain 0 validNewFieldTypeDefined = .ok () :=
  (C13_same_schema_reference envPlain 0 validNewFieldTypeDefined rfl (by decide) (by decide)
    (by
      intro c hc f hf
      right; right
      refine ⟨{ Name := "Work", Fields := [], Namespace := "" }, by decide, ?_⟩
      revert f
      revert c
      decide)).1

/-! ## Entries of the registry -/

theorem find_insert_self (reg : Registry) (k : String) (c : Class) :
    (reg.insert k c).find k = some c := by
  simp [Registry.insert, Registry.find, List.find?]

theorem find?_filter_of_imp {α : Type} (p q : α → Bool) (l : List α)
    (h : ∀ x, p x = true → q x = true) :
    (l.filter q).find? p = l.find? p := by
  induction l with
  | nil => rfl
  | cons x xs ih =>
    by_cases hq : q x = true
    · rw [List.filter_cons_of_pos hq]
      simp only [List.find?_cons]
      rw [ih]
    · have hp : p x = false := by
        cases hpx : p x with
        | false => rfl
        | true => exact absurd (h x hpx) hq
      rw [List.filter_cons_of_neg hq, List.find?_cons, hp]
      exact ih

theorem find_insert_ne (reg : Registry) (k k' : String) (c : Class) (h : k' ≠ k) :
    (reg.insert k c).find k' = reg.find k' := by
  unfold Registry.insert Registry.find
  have h1 : ((k, c).1 == k') = false := by
    simpa using fun h' : k = k' => h h'.symm
  rw [List.find?_cons, h1]
  rw [find?_filter_of_imp (fun p : String × Class => p.1 == k') (fun p => p.1 != k) reg]
  intro x hx
  have : x.1 = k' := by simpa using hx
  simpa [this] using h

theorem mem_keys_of_find (reg : Registry) (k : String) (c : Class) (h : reg.find k = some c) :
    k ∈ reg.keys := by
  unfold Registry.find at h
  cases hf : reg.find? (fun p => p.1 == k) with
  | none => rw [hf] at h; cases h
  | some p =>
    have hp := List.find?_some hf
    have hm := List.mem_of_find?_eq_some hf
    have hk : p.1 = k := by simpa using hp
    unfold Registry.keys
    exact hk ▸ List.mem_map_of_mem Prod.fst hm

/-- An entry of the registry stays, with the same class, through a call of
`registerClassesAndCheckForDuplicate`, whether the call fails or not. -/
theorem registerClasses_find_preserved (ns : String) (cs : List Class) :
    ∀ (reg : Registry) (k : String) (c : Class), reg.find k = some c →
      (registerClasses ns cs reg).1.find k = some c := by
  induction cs with
  | nil => intro reg k c h; exact h
  | cons d ds ih =>
    intro reg k c h
    by_cases hd : fullyQualifiedName ns d.Name ∈ reg.keys
    · rw [registerClasses_cons_present ns d ds reg hd]
      exact h
    · rw [registerClasses_cons_fresh ns d ds reg hd]
      apply ih
      rw [find_insert_ne]
      · exact h
      · intro hk
        exact hd (hk ▸ mem_keys_of_find reg k c h)

theorem registerClasses_cons_ok (ns : String) (d : Class) (ds : List Class)
    (reg reg' : Registry) (h : registerClasses ns (d :: ds) reg = (reg', none)) :
    fullyQualifiedName ns d.Name ∉ reg.keys ∧
      registerClasses ns ds
        (reg.insert (fullyQualifiedName ns d.Name) { d with Namespace := effectiveNamespace ns })
        = (reg', none) := by
  by_cases hd : fullyQualifiedName ns d.Name ∈ reg.keys
  · rw [registerClasses_cons_present ns d ds reg hd] at h
    cases h
  · rw [registerClasses_cons_fresh ns d ds reg hd] at h
    exact ⟨hd, h⟩

/-- After a successful registration every class offered is found under its
fully-qualified name, with its namespace set. -/
theorem registerClasses_find_registered (ns : String) (cs : List Class) :
    ∀ (reg reg' : Registry), registerClasses ns cs reg = (reg', none) →
      ∀ c ∈ cs, reg'.find (fullyQualifiedName ns c.Name) =
        some { c with Namespace := effectiveNamespace ns } := by
  induction cs with
  | nil => intro reg reg' _ c hc; cases hc
  | cons d ds ih =>
    intro reg reg' h c hc
    obtain ⟨_, hrest⟩ := registerClasses_cons_ok ns d ds reg reg' h
    rcases List.mem_cons.1 hc with rfl | hc'
    · have := registerClasses_find_preserved ns ds _ _ _
        (find_insert_self reg (fullyQualifiedName ns c.Name)
          { c with Namespace := effectiveNamespace ns })
      rw [hrest] at this
      exact this
    · exact ih _ reg' hrest c hc'

theorem fullyQualifiedName_default (n : String) :
    fullyQualifiedName "" n = "com.example." ++ n := by
  unfold fullyQualifiedName effectiveNamespace
  apply String.ext
  simp [String.data_append]

/-- C14. The function `getClassFullNameAndNamespace` returns
`("com.example." + n, "com.example")` for the empty namespace text and
`(ns + "." + n, ns)` otherwise; so after a schema that declares no namespace has
registered, each of its classes is found under `"com.example." + n` with the
namespace `com.example`, `isCompactName` finds that name, and a field whose base
type is that name is acceptable. -/
theorem C14_full_name_and_namespace (env : Env) (n ns : String) (schema : Schema)
    (reg reg' : Registry) (c : Class) (f : Field)
    (hns : schema.Namespace = "")
    (hreg : registerClassesAndCheckForDuplicate schema reg = (reg', none))
    (hc : c ∈ schema.Classes)
    (hf : baseType f.Type_ = "com.example." ++ c.Name) :
    getClassFullNameAndNamespace n "" = ("com.example." ++ n, "com.example") ∧
      (ns ≠ "" → getClassFullNameAndNamespace n ns = (ns ++ "." ++ n, ns)) ∧
      reg'.find ("com.example." ++ c.Name) = some { c with Namespace := "com.example" } ∧
      isCompactName ("com.example." ++ c.Name) reg' = true ∧
      Accepted env reg' f := by
  have hfind : reg'.find ("com.example." ++ c.Name) = some { c with Namespace := "com.example" } := by
    unfold registerClassesAndCheckForDuplicate at hreg
    rw [hns] at hreg
    have := registerClasses_find_registered "" schema.Classes reg reg' hreg c hc
    rw [fullyQualifiedName_default] at this
    exact this
  have hkey := mem_keys_of_find reg' _ _ hfind
  refine ⟨?_, ?_, hfind, (isCompactName_iff _ _).2 hkey, Or.inr (Or.inr (hf ▸ hkey))⟩
  · rw [getClassFullNameAndNamespace_eq, fullyQualifiedName_default]
    rfl
  · intro h
    unfold getClassFullNameAndNamespace
    rw [if_neg h]

/-- C14 at the schema `ValidNewFieldTypeDefined` of the test suite, which
declares no namespace: `Work` is registered as `com.example.Work`, the type of
the field of `Employee`. -/
theorem C14_full_name_and_namespace_witness :
    getClassFullNameAndNamespace "Work" "" = ("com.example.Work", "com.example") ∧
      getClassFullNameAndNamespace "Work" "com.xyz" = ("com.xyz.Work", "com.xyz") ∧
      (registerClassesAndCheckForDuplicate validNewFieldTypeDefined []).1.find
          "com.example.Work" =
        some { Name := "Work", Fields := [], Namespace := "com.example" } ∧
      ProcessSchema envPlain 0 validNewFieldTypeDefined = .ok () :=
  have h := C14_full_name_and_namespace envPlain "Work" "com.xyz" validNewFieldTypeDefined []
    (registerClassesAndCheckForDuplicate validNewFieldTypeDefined []).1
    { Name := "Work", Fields := [], Namespace := "" }
    { Name := "age", Type_ := "com.example.Work", External := false }
    rfl (by decide) (by decide) (by decide)
  ⟨h.1, h.2.1 (by decide), h.2.2.1, by decide⟩

/-! ## The schema returned by `ParseSchemaText` -/

/-- A successful `ParseSchemaText` returns the schema as `ConvertMapToSchema`
decoded it. -/
theorem ParseSchemaText_returns_decoded (env : Env) (fuel : Nat) (text : String) (sch : Schema)
    (h : ParseSchemaText env fuel text = .ok sch) : decodeSchema env text = .ok sch := by
  unfold ParseSchemaText ParseSchemaTextWith at h
  cases hdec : decodeSchema env text with
  | error e => simp only [hdec] at h; cases h
  | ok s =>
    simp only [hdec] at h
    cases hp : ProcessSchemaWith env (processImport env fuel) s with
    | ok r => simp only [hp] at h; cases h; rfl
    | err e => simp only [hp] at h; cases h
    | outOfFuel => simp only [hp] at h; cases h

/-- C15 at a failing input. `ParseSchemaText` succeeds on the text of
`example.yml`, which declares no namespace, and on the text of `xyz.yaml`, which
declares `com.xyz`; the class of each returned schema has the empty `Namespace`
it was decoded with, while the copy that `registerClassesAndCheckForDuplicate`
put into the registry bears `com.example`, respectively `com.xyz`. -/
theorem C15_returned_classes_lack_namespace :
    ParseSchemaText envExample 0 exampleYml.text = .ok exampleYml.schema ∧
      exampleYml.schema.Namespace = "" ∧
      exampleYml.schema.Classes.map Class.Namespace = [""] ∧
      (registerClassesAndCheckForDuplicate exampleYml.schema []).1 =
        [("com.example.Employee", { employeeName with Namespace := "com.example" })] ∧
      ParseSchemaText envXyz 0 xyzYaml.text = .ok xyzYaml.schema ∧
      xyzYaml.schema.Namespace = "com.xyz" ∧
      xyzYaml.schema.Classes.map Class.Namespace = [""] ∧
      (registerClassesAndCheckForDuplicate xyzYaml.schema []).1 =
        [("com.xyz.Work", { Name := "Work", Fields := [], Namespace := "com.xyz" })] :=
  ⟨by decide, rfl, rfl, by decide, by decide, rfl, rfl, by decide⟩

/-- C18. For a schema without imports, `ProcessSchema` returns no error if and
only if the class names are pairwise distinct, the field names of every class
are pairwise distinct, and every field has a base type that is a builtin token
under the case-insensitive comparison, or is external, or has as base type the
namespace of the schema (`com.example` when that is empty), a dot and the name
of a class of the schema. The base type is the type text with exactly one
trailing `[]` removed: that of `int32[][]` is `int32[]`. -/
theorem C18_no_imports_characterisation (env : Env) (fuel : Nat) (S : Schema)
    (himport : S.Import = []) :
    (ProcessSchema env fuel S = .ok () ↔
      (S.Classes.map Class.Name).Nodup ∧
      (∀ c ∈ S.Classes, (c.Fields.map Field.Name).Nodup) ∧
      (∀ c ∈ S.Classes, ∀ f ∈ c.Fields,
        (∃ bt ∈ builtinTypes, ToLower env (baseType f.Type_) = ToLower env bt) ∨
          f.External = true ∨
          ∃ d ∈ S.Classes, baseType f.Type_ =
            (if S.Namespace = "" then "com.example" else S.Namespace) ++ "." ++ d.Name)) ∧
      baseType "int32[][]" = "int32[]" := by
  refine ⟨?_, by decide⟩
  rw [ProcessSchema_no_imports_iff env fuel S himport]
  have hb : ∀ t : String, isBuiltInType env t = true ↔
      ∃ bt ∈ builtinTypes, ToLower env t = ToLower env bt := by
    intro t
    unfold isBuiltInType
    simp only [List.any_eq_true, beq_iff_eq]
  have hn : ∀ t : String, t ∈ S.fullNames ↔
      ∃ d ∈ S.Classes, t = (if S.Namespace = "" then "com.example" else S.Namespace) ++ "." ++ d.Name := by
    intro t
    unfold Schema.fullNames fullyQualifiedName effectiveNamespace
    simp only [List.mem_map]
    constructor
    · rintro ⟨d, hd, rfl⟩; exact ⟨d, hd, rfl⟩
    · rintro ⟨d, hd, rfl⟩; exact ⟨d, hd, rfl⟩
  constructor
  · rintro ⟨hnd, hv⟩
    refine ⟨hnd, fun c hc => (hv c hc).1, ?_⟩
    intro c hc f hf
    rcases (hv c hc).2 f hf with h | h | h
    · exact Or.inl ((hb _).1 h)
    · exact Or.inr (Or.inl h)
    · exact Or.inr (Or.inr ((hn _).1 h))
  · rintro ⟨hnd, hfn, ht⟩
    refine ⟨hnd, fun c hc => ⟨hfn c hc, ?_⟩⟩
    intro f hf
    rcases ht c hc f hf with h | h | h
    · exact Or.inl ((hb _).2 h)
    · exact Or.inr (Or.inl h)
    · exact Or.inr (Or.inr ((hn _).2 h))

/-- C18 at the schema `ValidNewFieldTypeDefined` of the test suite, which
passes, and at the schema of the test case `duplicate compact class`, which
does not. -/
theorem C18_no_imports_characterisation_witness :
    ProcessSchema envPlain 0 validNewFieldTypeDefined = .ok () ∧
      (validNewFieldTypeDefined.Classes.map Class.Name).Nodup ∧
      ¬ (duplicateCompactClass.Classes.map Class.Name).Nodup ∧
      ProcessSchema envPlain 0 duplicateCompactClass ≠ .ok () :=
  ⟨by decide,
    ((C18_no_imports_characterisation envPlain 0 validNewFieldTypeDefined rfl).1.1
      (by decide)).1,
    by decide,
    fun h => absurd
      ((C18_no_imports_characterisation envPlain 0 duplicateCompactClass rfl).1.1 h).1
      (by decide)⟩

/-! ## Identity of classes -/

theorem split_at_last_dot (a c b d : List Char) (hb : '.' ∉ b) (hd : '.' ∉ d)
    (h : a ++ '.' :: b = c ++ '.' :: d) : a = c ∧ b = d := by
  induction a generalizing c with
  | nil =>
    cases c with
    | nil => exact ⟨rfl, List.tail_eq_of_cons_eq h⟩
    | cons y c' =>
      exfalso
      have h2 := List.tail_eq_of_cons_eq h
      apply hb
      rw [h2]
      simp
  | cons x a' ih =>
    cases c with
    | nil =>
      exfalso
      have h2 := List.tail_eq_of_cons_eq h
      apply hd
      rw [← h2]
      simp
    | cons y c' =>
      have h1 := List.head_eq_of_cons_eq h
      have h2 := List.tail_eq_of_cons_eq h
      obtain ⟨h3, h4⟩ := ih c' h2
      exact ⟨by rw [h1, h3], h4⟩

/-- Two fully-qualified names whose class names hold no dot are equal only when
the namespaces and the names are. -/
theorem identity_of_fullName (e1 n1 e2 n2 : String) (h1 : '.' ∉ n1.data) (h2 : '.' ∉ n2.data)
    (h : e1 ++ "." ++ n1 = e2 ++ "." ++ n2) : e1 = e2 ∧ n1 = n2 := by
  have h' := congrArg String.data h
  simp only [String.data_append, List.append_assoc] at h'
  obtain ⟨ha, hb⟩ := split_at_last_dot e1.data e2.data n1.data n2.data h1 h2 h'
  exact ⟨String.ext ha, String.ext hb⟩

theorem registerAll_cons_ok (s : Schema) (rest : List Schema) (reg reg' : Registry)
    (h : registerClassesAndCheckForDuplicate s reg = (reg', none)) :
    registerAll (s :: rest) reg = registerAll rest reg' := by
  rw [registerAll, h]

theorem registerAll_cons_error (s : Schema) (rest : List Schema) (reg : Registry)
    (e : SchemaError) (h : (registerClassesAndCheckForDuplicate s reg).2 = some e) :
    (registerAll (s :: rest) reg).2 = some e := by
  rw [registerAll]
  rcases hr : registerClassesAndCheckForDuplicate s reg with ⟨r, _ | e'⟩
  · rw [hr] at h; cases h
  · rw [hr] at h
    cases h
    rfl

/-- A sequence of registrations goes through exactly when the fully-qualified
names offered are pairwise distinct and none is a key already. -/
theorem registerAll_ok_iff (schemas : List Schema) :
    ∀ reg : Registry,
      (registerAll schemas reg).2 = none ↔
        (schemas.flatMap Schema.fullNames).Nodup ∧
          ∀ k ∈ schemas.flatMap Schema.fullNames, k ∉ reg.keys := by
  induction schemas with
  | nil => intro reg; simp [registerAll]
  | cons s rest ih =>
    intro reg
    rw [List.flatMap_cons]
    by_cases hgood : s.fullNames.Nodup ∧ ∀ c ∈ s.Classes,
        fullyQualifiedName s.Namespace c.Name ∉ reg.keys
    · obtain ⟨reg', hreg', hkeys⟩ :=
        registerClasses_ok s.Namespace s.Classes reg hgood.1 hgood.2
      have hfresh : ∀ k ∈ s.fullNames, k ∉ reg.keys := by
        intro k hk
        obtain ⟨c, hc, rfl⟩ := List.mem_map.1 hk
        exact hgood.2 c hc
      rw [registerAll_cons_ok s rest reg reg' hreg', ih reg', List.nodup_append]
      constructor
      · rintro ⟨hnd, hfr⟩
        refine ⟨⟨hgood.1, hnd, ?_⟩, ?_⟩
        · intro k hk hk'
          exact hfr k hk' ((hkeys k).2 (Or.inr hk))
        · intro k hk
          rcases List.mem_append.1 hk with h | h
          · exact hfresh k h
          · exact fun hm => hfr k h ((hkeys k).2 (Or.inl hm))
      · rintro ⟨⟨_, hnd, hdisj⟩, hfr⟩
        refine ⟨hnd, ?_⟩
        intro k hk hm
        rcases (hkeys k).1 hm with h | h
        · exact hfr k (List.mem_append_right _ hk) h
        · exact hdisj h hk
    · obtain ⟨n, _, hn⟩ := registerClasses_dup s.Namespace s.Classes reg hgood
      rw [registerAll_cons_error s rest reg _ hn]
      constructor
      · intro h; cases h
      · rintro ⟨hnd, hfr⟩
        exfalso
        apply hgood
        refine ⟨(List.nodup_append.1 hnd).1, ?_⟩
        intro c hc
        exact hfr _ (List.mem_append_left _
          (List.mem_map_of_mem (fun c => fullyQualifiedName s.Namespace c.Name) hc))

theorem registerAll_error_kind (schemas : List Schema) :
    ∀ (reg : Registry) (e : SchemaError), (registerAll schemas reg).2 = some e →
      ∃ s ∈ schemas, ∃ c ∈ s.Classes,
        e = .duplicateClass c.Name (effectiveNamespace s.Namespace) := by
  induction schemas with
  | nil => intro reg e h; simp [registerAll] at h
  | cons s rest ih =>
    intro reg e h
    rcases hr : registerClassesAndCheckForDuplicate s reg with ⟨r, _ | e'⟩
    · rw [registerAll_cons_ok s rest reg r hr] at h
      obtain ⟨t, ht, c, hc, he⟩ := ih r e h
      exact ⟨t, List.mem_cons_of_mem _ ht, c, hc, he⟩
    · have hgood : ¬ (s.fullNames.Nodup ∧ ∀ c ∈ s.Classes,
          fullyQualifiedName s.Namespace c.Name ∉ reg.keys) := by
        intro hg
        obtain ⟨reg', hreg', _⟩ := registerClasses_ok s.Namespace s.Classes reg hg.1 hg.2
        unfold registerClassesAndCheckForDuplicate at hr
        rw [hreg'] at hr
        cases hr
      obtain ⟨n, hn, hres⟩ := registerClasses_dup s.Namespace s.Classes reg hgood
      rw [registerAll_cons_error s rest reg _ hres] at h
      cases h
      obtain ⟨c, hc, rfl⟩ := List.mem_map.1 hn
      exact ⟨s, List.mem_cons_self _ _, c, hc, rfl⟩

theorem fullNames_eq_map_identities (s : Schema) :
    s.fullNames = s.identities.map (fun p => p.1 ++ "." ++ p.2) := by
  unfold Schema.fullNames Schema.identities fullyQualifiedName
  rw [List.map_map]
  rfl

theorem flatMap_fullNames_eq (schemas : List Schema) :
    schemas.flatMap Schema.fullNames =
      (schemas.flatMap Schema.identities).map (fun p => p.1 ++ "." ++ p.2) := by
  induction schemas with
  | nil => rfl
  | cons s rest ih =>
    rw [List.flatMap_cons, List.flatMap_cons, List.map_append, ih, fullNames_eq_map_identities]

theorem mem_identities_name (schemas : List Schema) (p : String × String)
    (h : p ∈ schemas.flatMap Schema.identities) :
    ∃ s ∈ schemas, ∃ c ∈ s.Classes, p.2 = c.Name := by
  obtain ⟨s, hs, hp⟩ := List.mem_flatMap.1 h
  unfold Schema.identities at hp
  obtain ⟨c, hc, rfl⟩ := List.mem_map.1 hp
  exact ⟨s, hs, c, hc, rfl⟩

/-- C19, as stated, fails: the class `xyz.Work` of the namespace `com` and the
class `Work` of the namespace `com.xyz` have different pairs of namespace and
name, yet `registerClassesAndCheckForDuplicate` reports the second as a
duplicate: both are keyed `com.xyz.Work`. -/
theorem C19_counterexample :
    comXyzWork.identities = [("com", "xyz.Work")] ∧
      xyzYaml.schema.identities = [("com.xyz", "Work")] ∧
      (("com", "xyz.Work") : String × String) ≠ ("com.xyz", "Work") ∧
      (registerClassesAndCheckForDuplicate comXyzWork []).2 = none ∧
      (registerClassesAndCheckForDuplicate xyzYaml.schema
        (registerClassesAndCheckForDuplicate comXyzWork []).1).2 =
          some (.duplicateClass "Work" "com.xyz") ∧
      (registerAll [comXyzWork, xyzYaml.schema] []).2 =
        some (.duplicateClass "Work" "com.xyz") :=
  ⟨by decide, by decide, by decide, by decide, by decide, by decide⟩

/-- C19, amended. Class identity is the text of the fully-qualified name. For
every sequence of schemas registered into one registry, starting from the empty
one, `registerClassesAndCheckForDuplicate` reports no duplicate exactly when the
fully-qualified names of all the classes are pairwise distinct; an error it
reports is the duplicate-class error for a class of the sequence; and when no
class name holds a dot, the fully-qualified names are pairwise distinct exactly
when the pairs of effective namespace and name are, so that two classes with the
same name in different namespaces are both registered. -/
theorem C19_class_identity (schemas : List Schema) :
    ((registerAll schemas []).2 = none ↔ (schemas.flatMap Schema.fullNames).Nodup) ∧
    (∀ e, (registerAll schemas []).2 = some e →
      ∃ s ∈ schemas, ∃ c ∈ s.Classes,
        e = .duplicateClass c.Name (effectiveNamespace s.Namespace)) ∧
    ((∀ s ∈ schemas, ∀ c ∈ s.Classes, '.' ∉ c.Name.data) →
      ((schemas.flatMap Schema.fullNames).Nodup ↔ (schemas.flatMap Schema.identities).Nodup)) := by
  refine ⟨?_, registerAll_error_kind schemas [], ?_⟩
  · rw [registerAll_ok_iff schemas []]
    constructor
    · exact fun h => h.1
    · exact fun h => ⟨h, fun k _ hk => by cases hk⟩
  · intro hdot
    rw [flatMap_fullNames_eq]
    constructor
    · exact List.Nodup.of_map _
    · intro hnd
      apply List.Nodup.map_on _ hnd
      intro p hp q hq hpq
      obtain ⟨s, hs, c, hc, hpc⟩ := mem_identities_name schemas p hp
      obtain ⟨t, ht, d, hd, hqd⟩ := mem_identities_name schemas q hq
      obtain ⟨h1, h2⟩ := identity_of_fullName p.1 p.2 q.1 q.2
        (hpc ▸ hdot s hs c hc) (hqd ▸ hdot t ht d hd) hpq
      exact Prod.ext h1 h2

/-- C19, amended, at the two schemas of the test case with `com.xyz.Work` and
`com.zyx.Work`: same class name, different namespaces, both registered. -/
theorem C19_class_identity_witness :
    (xyzYaml.schema.identities ++ zyxYaml.schema.identities) =
        [("com.xyz", "Work"), ("com.zyx", "Work")] ∧
      (registerAll [xyzYaml.schema, zyxYaml.schema] []).2 = none ∧
      (registerAll [xyzYaml.schema, zyxYaml.schema] []).1.keys =
        ["com.zyx.Work", "com.xyz.Work"] :=
  ⟨by decide,
    (C19_class_identity [xyzYaml.schema, zyxYaml.schema]).1.2
      (((C19_class_identity [xyzYaml.schema, zyxYaml.schema]).2.2 (by decide)).2 (by decide)),
    by decide⟩

/-! ## The registry invariant -/

theorem effectiveNamespace_ne_empty (ns : String) : effectiveNamespace ns ≠ "" := by
  unfold effectiveNamespace
  split
  · decide
  · assumption

theorem registerClasses_wellKeyed (ns : String) (cs : List Class) :
    ∀ reg : Registry, EntriesWellKeyed reg → EntriesWellKeyed (registerClasses ns cs reg).1 := by
  induction cs with
  | nil => intro reg h; exact h
  | cons d ds ih =>
    intro reg h
    by_cases hd : fullyQualifiedName ns d.Name ∈ reg.keys
    · rw [registerClasses_cons_present ns d ds reg hd]
      exact h
    · rw [registerClasses_cons_fresh ns d ds reg hd]
      apply ih
      intro p hp
      unfold Registry.insert at hp
      rcases List.mem_cons.1 hp with rfl | hp'
      · exact ⟨effectiveNamespace_ne_empty ns, rfl⟩
      · exact h p (List.mem_filter.1 hp').1

theorem registerClasses_mem_preserved (ns : String) (cs : List Class) :
    ∀ (reg : Registry) (p : String × Class), p ∈ reg → p ∈ (registerClasses ns cs reg).1 := by
  induction cs with
  | nil => intro reg p h; exact h
  | cons d ds ih =>
    intro reg p h
    by_cases hd : fullyQualifiedName ns d.Name ∈ reg.keys
    · rw [registerClasses_cons_present ns d ds reg hd]
      exact h
    · rw [registerClasses_cons_fresh ns d ds reg hd]
      apply ih
      unfold Registry.insert
      apply List.mem_cons_of_mem
      rw [List.mem_filter]
      refine ⟨h, ?_⟩
      have : p.1 ≠ fullyQualifiedName ns d.Name := by
        intro hk
        apply hd
        rw [← hk]
        exact List.mem_map_of_mem Prod.fst h
      simpa using this

theorem reachable_wellKeyed (reg : Registry) (h : Reachable reg) : EntriesWellKeyed reg := by
  induction h with
  | empty => intro p hp; cases hp
  | call schema reg _ ih => exact registerClasses_wellKeyed schema.Namespace schema.Classes reg ih

/-- C20. Starting from the empty registry, after any sequence of calls of
`registerClassesAndCheckForDuplicate`, failed ones included, every entry has a
non-empty namespace and is keyed by its namespace, a dot and its name; every
entry present before a call is present after it, with the same class; the
registered copy of a class has the namespace set, while the schema passed in is
left as it was: what `ParseSchemaText` returns after the registration is the
schema as it was decoded. -/
theorem C20_registry_invariant (env : Env) (reg : Registry) (schema : Schema)
    (h : Reachable reg) :
    (∀ k c, (k, c) ∈ reg → c.Namespace ≠ "" ∧ k = c.Namespace ++ "." ++ c.Name) ∧
    (∀ k c, (k, c) ∈ (registerClassesAndCheckForDuplicate schema reg).1 →
      c.Namespace ≠ "" ∧ k = c.Namespace ++ "." ++ c.Name) ∧
    (∀ k c, (k, c) ∈ reg → (k, c) ∈ (registerClassesAndCheckForDuplicate schema reg).1) ∧
    (∀ k c, reg.find k = some c →
      (registerClassesAndCheckForDuplicate schema reg).1.find k = some c) ∧
    (∀ reg', registerClassesAndCheckForDuplicate schema reg = (reg', none) →
      ∀ c ∈ schema.Classes,
        reg'.find (fullyQualifiedName schema.Namespace c.Name) =
          some { c with Namespace := effectiveNamespace schema.Namespace }) ∧
    (∀ fuel text sch, ParseSchemaText env fuel text = .ok sch →
      decodeSchema env text = .ok sch) := by
  refine ⟨?_, ?_, ?_, ?_, ?_, ?_⟩
  · intro k c hkc
    exact reachable_wellKeyed reg h (k, c) hkc
  · intro k c hkc
    exact reachable_wellKeyed _ (.call schema reg h) (k, c) hkc
  · intro k c hkc
    exact registerClasses_mem_preserved schema.Namespace schema.Classes reg (k, c) hkc
  · intro k c hkc
    exact registerClasses_find_preserved schema.Namespace schema.Classes reg k c hkc
  · intro reg' hreg c hc
    exact registerClasses_find_registered schema.Namespace schema.Classes reg reg' hreg c hc
  · intro fuel text sch hp
    exact ParseSchemaText_returns_decoded env fuel text sch hp

/-- C20 at the registry left by a successful registration of `xyz.yaml` and a
failing second registration of the same schema. -/
theorem C20_registry_invariant_witness :
    (registerClassesAndCheckForDuplicate xyzYaml.schema []).1 =
        [("com.xyz.Work", { Name := "Work", Fields := [], Namespace := "com.xyz" })] ∧
      registerClassesAndCheckForDuplicate xyzYaml.schema
          (registerClassesAndCheckForDuplicate xyzYaml.schema []).1 =
        ([("com.xyz.Work", { Name := "Work", Fields := [], Namespace := "com.xyz" })],
          some (.duplicateClass "Work" "com.xyz")) ∧
      ∀ k c, (k, c) ∈ (registerClassesAndCheckForDuplicate xyzYaml.schema
          (registerClassesAndCheckForDuplicate xyzYaml.schema []).1).1 →
        c.Namespace ≠ "" ∧ k = c.Namespace ++ "." ++ c.Name :=
  ⟨by decide, by decide,
    (C20_registry_invariant envXyz (registerClassesAndCheckForDuplicate xyzYaml.schema []).1
      xyzYaml.schema (.call xyzYaml.schema [] .empty)).2.1⟩

/-! ## The structural validator -/

theorem validate_eq (types : List String) (addl : Bool) (props : List (String × JSchema))
    (items : Option JSchema) (uniq : Bool) (req : List String) (path : List String)
    (node : Json) :
    validate (.mk types addl props items uniq req) path node =
      if !typeMatches types node then [invalidTypeMessage path types node]
      else
        match node with
        | .arr xs =>
          validateItems items path xs ++ (if uniq then uniqueErrorsFrom path [] 0 xs else [])
        | .obj ms =>
          requiredErrors path req ms ++
            (if addl then [] else additionalErrors path (props.map Prod.fst) ms) ++
            validateProperties props path ms
        | _ => [] := by
  cases node <;> simp [validate]

theorem mem_validateProperties (props : List (String × JSchema)) (path : List String)
    (ms : List (String × Json)) (k : String) (s : JSchema) (w : Json) (m : String)
    (hk : (k, s) ∈ props) (hw : ms.lookup k = some w) (hm : m ∈ validate s (path ++ [k]) w) :
    m ∈ validateProperties props path ms := by
  induction props with
  | nil => cases hk
  | cons q rest ih =>
    obtain ⟨k', s'⟩ := q
    rw [validateProperties, List.mem_append]
    rcases List.mem_cons.1 hk with h | h
    · left
      cases h
      rw [hw]
      exact hm
    · exact Or.inr (ih h)

theorem mem_collectIndexed {α β : Type} (f : Nat → α → List β) (xs : List α) :
    ∀ (n j : Nat) (w : α) (m : β), xs[j]? = some w → m ∈ f (n + j) w →
      m ∈ collectIndexed f n xs := by
  induction xs with
  | nil => intro n j w m h; simp at h
  | cons x rest ih =>
    intro n j w m h hm
    rw [collectIndexed, List.mem_append]
    cases j with
    | zero =>
      left
      simp only [List.getElem?_cons_zero, Option.some.injEq] at h
      subst h
      exact hm
    | succ j' =>
      right
      simp only [List.getElem?_cons_succ] at h
      apply ih (n + 1) j' w m h
      rw [show n + 1 + j' = n + (j' + 1) by omega]
      exact hm

theorem mem_uniqueErrorsFrom_of_found (path : List String) (rest : List Json) :
    ∀ (seen : List (Json × Nat)) (k j : Nat) (y : Json) (p : Json × Nat),
      rest[j]? = some y →
      (∀ m x', m < j → rest[m]? = some x' → x'.beq y = false) →
      seen.find? (fun q => q.1.beq y) = some p →
      uniqueMessage path p.2 (k + j) ∈ uniqueErrorsFrom path seen k rest := by
  induction rest with
  | nil => intro seen k j y p h; simp at h
  | cons v vs ih =>
    intro seen k j y p hy hbetween hfind
    rw [uniqueErrorsFrom, List.mem_append]
    cases j with
    | zero =>
      left
      simp only [List.getElem?_cons_zero, Option.some.injEq] at hy
      subst hy
      rw [hfind]
      simp
    | succ j' =>
      right
      simp only [List.getElem?_cons_succ] at hy
      have hv : v.beq y = false := hbetween 0 v (by omega) (by simp)
      have := ih ((v, k) :: seen) (k + 1) j' y p hy
        (fun m x' hm hx => hbetween (m + 1) x' (by omega) (by simpa using hx))
        (by rw [List.find?_cons, hv]; exact hfind)
      rw [show k + 1 + j' = k + (j' + 1) by omega] at this
      exact this

theorem mem_uniqueErrorsFrom (path : List String) (xs : List Json) :
    ∀ (seen : List (Json × Nat)) (n i j : Nat) (x y : Json),
      i < j → xs[i]? = some x → xs[j]? = some y → x.beq y = true →
      (∀ m x', i < m → m < j → xs[m]? = some x' → x'.beq y = false) →
      uniqueMessage path (n + i) (n + j) ∈ uniqueErrorsFrom path seen n xs := by
  induction xs with
  | nil => intro seen n i j x y _ h; simp at h
  | cons v vs ih =>
    intro seen n i j x y hij hx hy hbeq hbetween
    rw [uniqueErrorsFrom, List.mem_append]
    right
    obtain ⟨j', rfl⟩ : ∃ j', j = j' + 1 := ⟨j - 1, by omega⟩
    simp only [List.getElem?_cons_succ] at hy
    cases i with
    | zero =>
      simp only [List.getElem?_cons_zero, Option.some.injEq] at hx
      subst hx
      have := mem_uniqueErrorsFrom_of_found path vs ((v, n) :: seen) (n + 1) j' y (v, n) hy
        (fun m x' hm hx' => hbetween (m + 1) x' (by omega) (by omega) (by simpa using hx'))
        (by rw [List.find?_cons, hbeq])
      rw [show n + 1 + j' = n + (j' + 1) by omega] at this
      exact this
    | succ i' =>
      simp only [List.getElem?_cons_succ] at hx
      have := ih ((v, n) :: seen) (n + 1) i' j' x y (by omega) hx hy hbeq
        (fun m x' h1 h2 hx' => hbetween (m + 1) x' (by omega) (by omega) (by simpa using hx'))
      rw [show n + 1 + i' = n + (i' + 1) by omega,
        show n + 1 + j' = n + (j' + 1) by omega] at this
      exact this

/-- Every grammar violation is reported: its message is among the errors. -/
theorem violates_mem (s : JSchema) (path : List String) (v : Json) (m : String)
    (h : Violates s path v m) : m ∈ validate s path v := by
  induction h with
  | invalidType ht =>
    rw [validate_eq, ht]
    simp
  | required ht hk hl =>
    rw [validate_eq, ht]
    simp only [Bool.not_true, Bool.false_eq_true, if_false, List.mem_append]
    left; left
    unfold requiredErrors
    exact List.mem_map_of_mem _ (List.mem_filter.2 ⟨hk, by rw [hl]; rfl⟩)
  | additional ht hk hn =>
    rw [validate_eq, ht]
    simp only [Bool.not_true, Bool.false_eq_true, if_false, List.mem_append]
    left; right
    unfold additionalErrors
    exact List.mem_map_of_mem _ (List.mem_filter.2 ⟨hk, by simpa using hn⟩)
  | property ht hk hl _ ih =>
    rw [validate_eq, ht]
    simp only [Bool.not_true, Bool.false_eq_true, if_false, List.mem_append]
    right
    exact mem_validateProperties _ _ _ _ _ _ _ hk hl ih
  | item ht hj _ ih =>
    rw [validate_eq, ht]
    simp only [Bool.not_true, Bool.false_eq_true, if_false, List.mem_append]
    left
    rw [validateItems]
    exact mem_collectIndexed _ _ 0 _ _ _ hj (by rw [Nat.zero_add]; exact ih)
  | @repeated types a p it r path xs i j x y ht hij hx hy hbeq hbetween =>
    rw [validate_eq, ht]
    simp only [Bool.not_true, Bool.false_eq_true, if_false, List.mem_append, if_true]
    right
    have := mem_uniqueErrorsFrom path xs [] 0 i j x y hij hx hy hbeq hbetween
    rw [Nat.zero_add, Nat.zero_add] at this
    exact this

theorem typeMatches_string (v : Json) : typeMatches ["string"] v = true ↔ IsText v := by
  unfold IsText
  cases v with
  | str s => simp [typeMatches, Json.typeName]
  | num q => by_cases h : q.den = 1 <;> simp [typeMatches, Json.typeName, h]
  | null => simp [typeMatches, Json.typeName]
  | bool b => simp [typeMatches, Json.typeName]
  | arr xs => simp [typeMatches, Json.typeName]
  | obj ms => simp [typeMatches, Json.typeName]

theorem typeMatches_object (v : Json) :
    typeMatches ["object"] v = true ↔ ∃ ms, v = .obj ms := by
  cases v with
  | str s => simp [typeMatches, Json.typeName]
  | num q => by_cases h : q.den = 1 <;> simp [typeMatches, Json.typeName, h]
  | null => simp [typeMatches, Json.typeName]
  | bool b => simp [typeMatches, Json.typeName]
  | arr xs => simp [typeMatches, Json.typeName]
  | obj ms => simp [typeMatches, Json.typeName]

theorem typeMatches_array (v : Json) :
    typeMatches ["array"] v = true ↔ ∃ xs, v = .arr xs := by
  cases v with
  | str s => simp [typeMatches, Json.typeName]
  | num q => by_cases h : q.den = 1 <;> simp [typeMatches, Json.typeName, h]
  | null => simp [typeMatches, Json.typeName]
  | bool b => simp [typeMatches, Json.typeName]
  | arr xs => simp [typeMatches, Json.typeName]
  | obj ms => simp [typeMatches, Json.typeName]

theorem validate_string_eq_nil (path : List String) (v : Json) :
    validate stringSchema path v = [] ↔ IsText v := by
  unfold stringSchema
  rw [validate_eq, ← typeMatches_string]
  cases h : typeMatches ["string"] v with
  | false => simp
  | true =>
    obtain ⟨s, rfl⟩ := (typeMatches_string v).1 h
    simp

theorem requiredErrors_eq_nil (path req : List String) (ms : List (String × Json)) :
    requiredErrors path req ms = [] ↔ ∀ k ∈ req, ∃ w, ms.lookup k = some w := by
  unfold requiredErrors
  rw [List.map_eq_nil_iff, List.filter_eq_nil_iff]
  constructor
  · intro h k hk
    have := h k hk
    cases hl : ms.lookup k with
    | none => rw [hl] at this; simp at this
    | some w => exact ⟨w, rfl⟩
  · intro h k hk
    obtain ⟨w, hw⟩ := h k hk
    rw [hw]
    simp

theorem additionalErrors_eq_nil (path allowed : List String) (ms : List (String × Json)) :
    additionalErrors path allowed ms = [] ↔ OnlyKeys allowed ms := by
  unfold additionalErrors OnlyKeys
  rw [List.map_eq_nil_iff, List.filter_eq_nil_iff]
  constructor
  · intro h k hk
    simpa using h k hk
  · intro h k hk
    simpa using h k hk

theorem collectIndexed_eq_nil {α β : Type} (f : Nat → α → List β) (P : α → Prop)
    (hf : ∀ i x, f i x = [] ↔ P x) (xs : List α) :
    ∀ n, collectIndexed f n xs = [] ↔ ∀ x ∈ xs, P x := by
  induction xs with
  | nil => intro n; simp [collectIndexed]
  | cons x rest ih =>
    intro n
    rw [collectIndexed, List.append_eq_nil, hf, ih]
    simp

theorem beq_str (a b : String) : (Json.str a).beq (.str b) = (a == b) := by
  rw [Json.beq]

theorem uniqueErrorsFrom_text_eq_nil (path : List String) (items : List String) :
    ∀ (seen : List (Json × Nat)) (n : Nat),
      uniqueErrorsFrom path seen n (items.map Json.str) = [] ↔
        items.Nodup ∧ ∀ s ∈ items, ∀ p ∈ seen, p.1.beq (.str s) = false := by
  induction items with
  | nil => intro seen n; simp [uniqueErrorsFrom]
  | cons a rest ih =>
    intro seen n
    rw [List.map_cons, uniqueErrorsFrom, List.append_eq_nil, ih]
    have hhead : (match seen.find? (fun p => p.1.beq (.str a)) with
        | some p => [uniqueMessage path p.2 n]
        | none => []) = [] ↔ ∀ p ∈ seen, p.1.beq (.str a) = false := by
      cases hf : seen.find? (fun p => p.1.beq (.str a)) with
      | none =>
        simp only [true_iff]
        intro p hp
        have := List.find?_eq_none.1 hf p hp
        simpa using this
      | some q =>
        simp only [List.cons_ne_nil, false_iff]
        intro hall
        have h1 := List.find?_some hf
        have h2 := hall q (List.mem_of_find?_eq_some hf)
        rw [h2] at h1
        cases h1
    rw [hhead, List.nodup_cons]
    constructor
    · rintro ⟨h1, h2, h3⟩
      refine ⟨⟨?_, h2⟩, ?_⟩
      · intro hmem
        have := h3 a hmem (.str a, n) (List.mem_cons_self _ _)
        rw [beq_str] at this
        simp at this
      · intro s hs p hp
        rcases List.mem_cons.1 hs with rfl | hs'
        · exact h1 p hp
        · exact h3 s hs' p (List.mem_cons_of_mem _ hp)
    · rintro ⟨⟨h1, h2⟩, h3⟩
      refine ⟨fun p hp => h3 a (List.mem_cons_self _ _) p hp, h2, ?_⟩
      intro s hs p hp
      rcases List.mem_cons.1 hp with rfl | hp'
      · rw [beq_str]
        simpa using fun h : a = s => h1 (h ▸ hs)
      · exact h3 s (List.mem_cons_of_mem _ hs) p hp'

theorem propertyErrors_eq_nil (s : JSchema) (path : List String) (ms : List (String × Json))
    (k : String) :
    (match ms.lookup k with
      | some v => validate s (path ++ [k]) v
      | none => []) = [] ↔ ∀ w, ms.lookup k = some w → validate s (path ++ [k]) w = [] := by
  cases h : ms.lookup k with
  | none => simp
  | some v => simp

theorem all_text_iff (xs : List Json) :
    (∀ x ∈ xs, IsText x) ↔ ∃ items : List String, xs = items.map Json.str := by
  induction xs with
  | nil => exact ⟨fun _ => ⟨[], rfl⟩, fun _ x hx => by cases hx⟩
  | cons x rest ih =>
    constructor
    · intro h
      obtain ⟨s, rfl⟩ := h x (List.mem_cons_self _ _)
      obtain ⟨items, rfl⟩ := ih.1 (fun y hy => h y (List.mem_cons_of_mem _ hy))
      exact ⟨s :: items, rfl⟩
    · rintro ⟨items, hitems⟩ y hy
      rw [hitems] at hy
      obtain ⟨s, _, rfl⟩ := List.mem_map.1 hy
      exact ⟨s, rfl⟩

theorem validate_array_of (s : JSchema) (P : Json → Prop)
    (hs : ∀ path v, validate s path v = [] ↔ P v) (path : List String) (v : Json) :
    validate (.mk ["array"] true [] (some s) false []) path v = [] ↔
      ∃ xs, v = .arr xs ∧ ∀ x ∈ xs, P x := by
  rw [validate_eq]
  cases h : typeMatches ["array"] v with
  | false =>
    simp only [Bool.not_false, if_true, List.cons_ne_nil, false_iff]
    rintro ⟨xs, rfl, _⟩
    simp [typeMatches, Json.typeName] at h
  | true =>
    obtain ⟨xs, rfl⟩ := (typeMatches_array v).1 h
    simp only [Bool.not_true, Bool.false_eq_true, if_false, List.append_nil]
    rw [validateItems, collectIndexed_eq_nil _ P (fun i x => hs _ x)]
    constructor
    · intro hx; exact ⟨xs, rfl, hx⟩
    · rintro ⟨ys, hy, hx⟩
      cases hy
      exact hx

theorem validate_import_eq_nil (path : List String) (v : Json) :
    validate (.mk ["array"] true [] (some stringSchema) true []) path v = [] ↔
      ∃ items : List String, v = .arr (items.map Json.str) ∧ items.Nodup := by
  rw [validate_eq]
  cases h : typeMatches ["array"] v with
  | false =>
    simp only [Bool.not_false, if_true, List.cons_ne_nil, false_iff]
    rintro ⟨items, rfl, _⟩
    simp [typeMatches, Json.typeName] at h
  | true =>
    obtain ⟨xs, rfl⟩ := (typeMatches_array v).1 h
    simp only [Bool.not_true, Bool.false_eq_true, if_false, if_true, List.append_eq_nil]
    rw [validateItems, collectIndexed_eq_nil _ IsText (fun i x => validate_string_eq_nil _ x),
      all_text_iff]
    constructor
    · rintro ⟨⟨items, rfl⟩, hu⟩
      exact ⟨items, rfl, ((uniqueErrorsFrom_text_eq_nil path items [] 0).1 hu).1⟩
    · rintro ⟨items, hitems, hnd⟩
      cases hitems
      exact ⟨⟨items, rfl⟩,
        (uniqueErrorsFrom_text_eq_nil path items [] 0).2 ⟨hnd, fun _ _ p hp => by cases hp⟩⟩

theorem hasText_iff (path : List String) (ms : List (String × Json)) (k : String) :
    ((∃ w, ms.lookup k = some w) ∧
      ∀ w, ms.lookup k = some w → validate stringSchema (path ++ [k]) w = []) ↔
      HasText k ms := by
  unfold HasText
  constructor
  · rintro ⟨⟨w, hw⟩, h⟩
    obtain ⟨s, rfl⟩ := (validate_string_eq_nil _ w).1 (h w hw)
    exact ⟨s, hw⟩
  · rintro ⟨s, hs⟩
    refine ⟨⟨_, hs⟩, ?_⟩
    intro w hw
    rw [hs] at hw
    cases hw
    exact (validate_string_eq_nil _ _).2 ⟨s, rfl⟩

theorem validate_fieldEntry_eq_nil (path : List String) (v : Json) :
    validate fieldEntrySchema path v = [] ↔ FieldEntryConforms v := by
  unfold fieldEntrySchema FieldEntryConforms
  rw [validate_eq]
  cases h : typeMatches ["object"] v with
  | false =>
    simp only [Bool.not_false, if_true, List.cons_ne_nil, false_iff]
    rintro ⟨ms, rfl, _⟩
    simp [typeMatches, Json.typeName] at h
  | true =>
    obtain ⟨ms, rfl⟩ := (typeMatches_object v).1 h
    simp only [Bool.not_true, Bool.false_eq_true, if_false, List.append_eq_nil,
      validateProperties, requiredErrors_eq_nil, additionalErrors_eq_nil, propertyErrors_eq_nil,
      List.map_cons, List.map_nil, List.mem_cons, List.mem_singleton, forall_eq_or_imp,
      forall_eq, List.not_mem_nil, and_true]
    constructor
    · rintro ⟨⟨⟨h1, h2, _⟩, h3⟩, h4, h5⟩
      exact ⟨ms, rfl, h3, (hasText_iff path ms "name").1 ⟨h1, h4⟩,
        (hasText_iff path ms "type").1 ⟨h2, h5⟩⟩
    · rintro ⟨ms', hms, h3, hn, ht⟩
      cases hms
      obtain ⟨h1, h4⟩ := (hasText_iff path ms "name").2 hn
      obtain ⟨h2, h5⟩ := (hasText_iff path ms "type").2 ht
      exact ⟨⟨⟨h1, h2, fun _ ha => ha.elim⟩, h3⟩, h4, h5⟩

theorem hasArray_iff (s : JSchema) (P : Json → Prop)
    (hs : ∀ path v, validate s path v = [] ↔ P v)
    (path : List String) (ms : List (String × Json)) (k : String) :
    ((∃ w, ms.lookup k = some w) ∧
      ∀ w, ms.lookup k = some w →
        validate (.mk ["array"] true [] (some s) false []) (path ++ [k]) w = []) ↔
      ∃ xs, ms.lookup k = some (.arr xs) ∧ ∀ x ∈ xs, P x := by
  constructor
  · rintro ⟨⟨w, hw⟩, h⟩
    obtain ⟨xs, rfl, hx⟩ := (validate_array_of s P hs _ w).1 (h w hw)
    exact ⟨xs, hw, hx⟩
  · rintro ⟨xs, hxs, hx⟩
    refine ⟨⟨_, hxs⟩, ?_⟩
    intro w hw
    rw [hxs] at hw
    cases hw
    exact (validate_array_of s P hs _ _).2 ⟨xs, rfl, hx⟩

theorem validate_classEntry_eq_nil (path : List String) (v : Json) :
    validate classEntrySchema path v = [] ↔ ClassEntryConforms v := by
  unfold classEntrySchema ClassEntryConforms
  rw [validate_eq]
  cases h : typeMatches ["object"] v with
  | false =>
    simp only [Bool.not_false, if_true, List.cons_ne_nil, false_iff]
    rintro ⟨ms, rfl, _⟩
    simp [typeMatches, Json.typeName] at h
  | true =>
    obtain ⟨ms, rfl⟩ := (typeMatches_object v).1 h
    simp only [Bool.not_true, Bool.false_eq_true, if_false, List.append_eq_nil,
      validateProperties, requiredErrors_eq_nil, additionalErrors_eq_nil, propertyErrors_eq_nil,
      List.map_cons, List.map_nil, List.mem_cons, List.mem_singleton, forall_eq_or_imp,
      forall_eq, List.not_mem_nil, and_true]
    constructor
    · rintro ⟨⟨⟨h1, h2, _⟩, h3⟩, h4, h5⟩
      exact ⟨ms, rfl, h3, (hasText_iff path ms "name").1 ⟨h1, h4⟩,
        (hasArray_iff fieldEntrySchema FieldEntryConforms validate_fieldEntry_eq_nil
          path ms "fields").1 ⟨h2, h5⟩⟩
    · rintro ⟨ms', hms, h3, hn, hf⟩
      cases hms
      obtain ⟨h1, h4⟩ := (hasText_iff path ms "name").2 hn
      obtain ⟨h2, h5⟩ := (hasArray_iff fieldEntrySchema FieldEntryConforms
        validate_fieldEntry_eq_nil path ms "fields").2 hf
      exact ⟨⟨⟨h1, h2, fun _ ha => ha.elim⟩, h3⟩, h4, h5⟩

/-- The validator finds no error exactly in the documents that conform to the
grammar. -/
theorem validate_root_eq_nil (v : Json) :
    validate validationSchema [] v = [] ↔ RootConforms v := by
  unfold validationSchema RootConforms
  rw [validate_eq]
  cases h : typeMatches ["object"] v with
  | false =>
    simp only [Bool.not_false, if_true, List.cons_ne_nil, false_iff]
    rintro ⟨ms, rfl, _⟩
    simp [typeMatches, Json.typeName] at h
  | true =>
    obtain ⟨ms, rfl⟩ := (typeMatches_object v).1 h
    simp only [Bool.not_true, Bool.false_eq_true, if_false, List.append_eq_nil,
      validateProperties, requiredErrors_eq_nil, additionalErrors_eq_nil, propertyErrors_eq_nil,
      List.map_cons, List.map_nil, List.mem_cons, List.mem_singleton, forall_eq_or_imp,
      forall_eq, List.not_mem_nil, and_true]
    constructor
    · rintro ⟨⟨⟨h1, _⟩, h3⟩, h4, h5, h6⟩
      refine ⟨ms, rfl, h3, ?_, ?_, ?_⟩
      · exact fun w hw => (validate_string_eq_nil _ w).1 (h4 w hw)
      · exact fun w hw => (validate_import_eq_nil _ w).1 (h5 w hw)
      · exact (hasArray_iff classEntrySchema ClassEntryConforms validate_classEntry_eq_nil
          [] ms "classes").1 ⟨h1, h6⟩
    · rintro ⟨ms', hms, h3, hns, himp, hcls⟩
      cases hms
      obtain ⟨h1, h6⟩ := (hasArray_iff classEntrySchema ClassEntryConforms
        validate_classEntry_eq_nil [] ms "classes").2 hcls
      exact ⟨⟨⟨h1, fun _ ha => ha.elim⟩, h3⟩,
        fun w hw => (validate_string_eq_nil _ w).2 (hns w hw),
        fun w hw => (validate_import_eq_nil _ w).2 (himp w hw), h6⟩

theorem typeMatches_object_obj (ms : List (String × Json)) :
    typeMatches ["object"] (.obj ms) = true := by
  simp [typeMatches, Json.typeName]

theorem typeMatches_array_arr (xs : List Json) : typeMatches ["array"] (.arr xs) = true := by
  simp [typeMatches, Json.typeName]

theorem validateDocument_of_mem (doc : Json) (m : String)
    (h : m ∈ validate validationSchema [] doc) :
    (validateDocument doc).1 = false ∧ m ∈ (validateDocument doc).2 := by
  unfold validateDocument
  have hne : (validate validationSchema [] doc).isEmpty = false := by
    cases hv : validate validationSchema [] doc with
    | nil => rw [hv] at h; cases h
    | cons a l => rfl
  simp only [hne, Bool.not_false, if_true]
  exact ⟨trivial, h⟩

theorem validateDocument_valid_iff (doc : Json) :
    (validateDocument doc).1 = true ↔ RootConforms doc := by
  rw [← validate_root_eq_nil]
  unfold validateDocument
  simp [List.isEmpty_iff]

theorem validateJSONSchemaString_of_load (loadJSON : String → Except SchemaError Json)
    (text : String) (doc : Json) (h : loadJSON text = .ok doc) :
    validateJSONSchemaString loadJSON text = .ok (validateDocument doc) := by
  unfold validateJSONSchemaString
  rw [h]

/-- A class entry of the document that lacks a required key. -/
theorem violates_class_required (ms cm : List (String × Json)) (cs : List Json) (i : Nat)
    (k : String) (hcs : ms.lookup "classes" = some (.arr cs)) (hc : cs[i]? = some (.obj cm))
    (hk : k = "name" ∨ k = "fields") (hl : cm.lookup k = none) :
    Violates validationSchema [] (.obj ms) (requiredMessage ["classes", toString i] k) := by
  unfold validationSchema
  refine .property (typeMatches_object_obj ms)
    (by simp : ("classes", JSchema.mk ["array"] true [] (some classEntrySchema) false []) ∈ _)
    hcs ?_
  refine .item (typeMatches_array_arr cs) hc ?_
  unfold classEntrySchema
  exact .required (typeMatches_object_obj cm) (by rcases hk with rfl | rfl <;> simp) hl

/-- A field entry of the document that lacks a required key. -/
theorem violates_field_required (ms cm fm : List (String × Json)) (cs fs : List Json)
    (i j : Nat) (k : String) (hcs : ms.lookup "classes" = some (.arr cs))
    (hc : cs[i]? = some (.obj cm)) (hfs : cm.lookup "fields" = some (.arr fs))
    (hf : fs[j]? = some (.obj fm)) (hk : k = "name" ∨ k = "type") (hl : fm.lookup k = none) :
    Violates validationSchema [] (.obj ms)
      (requiredMessage ["classes", toString i, "fields", toString j] k) := by
  unfold validationSchema
  refine .property (typeMatches_object_obj ms)
    (by simp : ("classes", JSchema.mk ["array"] true [] (some classEntrySchema) false []) ∈ _)
    hcs ?_
  refine .item (typeMatches_array_arr cs) hc ?_
  unfold classEntrySchema
  refine .property (typeMatches_object_obj cm)
    (by simp : ("fields", JSchema.mk ["array"] true [] (some fieldEntrySchema) false []) ∈ _)
    hfs ?_
  refine .item (typeMatches_array_arr fs) hf ?_
  unfold fieldEntrySchema
  exact .required (typeMatches_object_obj fm) (by rcases hk with rfl | rfl <;> simp) hl

theorem fieldEntry_external_invalid (fm : List (String × Json))
    (h : "external" ∈ fm.map Prod.fst) : ¬ FieldEntryConforms (.obj fm) := by
  rintro ⟨ms, hms, hkeys, _⟩
  cases hms
  have := hkeys "external" h
  simp at this

/-- C16. The structural validator reports a document as valid exactly when it
conforms to the grammar: the root is an object with required array `classes`,
optional text `namespace`, optional `import` array of unique text items and no
other keys; a class entry is an object with required text `name`, required array
`fields` and no other keys; a field entry is an object with required text `name`
and `type` and no other keys, so that a field entry carrying `external` is
invalid. A root without `classes`, a class entry without `name` or `fields`, and
a field entry without `name` or `type` are each invalid with a message that
names the missing key. -/
theorem C16_structural_validator (loadJSON : String → Except SchemaError Json)
    (text : String) (doc : Json) (hload : loadJSON text = .ok doc) :
    validateJSONSchemaString loadJSON text = .ok (validateDocument doc) ∧
    ((validateDocument doc).1 = true ↔ RootConforms doc) ∧
    (∀ fm : List (String × Json), "external" ∈ fm.map Prod.fst →
      ¬ FieldEntryConforms (.obj fm)) ∧
    (∀ ms : List (String × Json), doc = .obj ms → ms.lookup "classes" = none →
      (validateDocument doc).1 = false ∧
        "(root): " ++ "classes" ++ " is required" ∈ (validateDocument doc).2) ∧
    (∀ (ms : List (String × Json)) (cs : List Json) (i : Nat) (cm : List (String × Json))
        (k : String), doc = .obj ms → ms.lookup "classes" = some (.arr cs) →
      cs[i]? = some (.obj cm) → k = "name" ∨ k = "fields" → cm.lookup k = none →
      (validateDocument doc).1 = false ∧
        "classes." ++ toString i ++ ": " ++ k ++ " is required" ∈ (validateDocument doc).2) ∧
    (∀ (ms : List (String × Json)) (cs : List Json) (i : Nat) (cm : List (String × Json))
        (fs : List Json) (j : Nat) (fm : List (String × Json)) (k : String),
      doc = .obj ms → ms.lookup "classes" = some (.arr cs) →
      cs[i]? = some (.obj cm) → cm.lookup "fields" = some (.arr fs) →
      fs[j]? = some (.obj fm) → k = "name" ∨ k = "type" → fm.lookup k = none →
      (validateDocument doc).1 = false ∧
        "classes." ++ toString i ++ ".fields." ++ toString j ++ ": " ++ k ++ " is required" ∈
          (validateDocument doc).2) := by
  refine ⟨validateJSONSchemaString_of_load loadJSON text doc hload,
    validateDocument_valid_iff doc, fieldEntry_external_invalid, ?_, ?_, ?_⟩
  · rintro ms rfl hl
    exact validateDocument_of_mem _ _ (violates_mem _ _ _ _
      (by unfold validationSchema
          exact .required (typeMatches_object_obj ms) (by simp) hl))
  · rintro ms cs i cm k rfl hcs hc hk hl
    have := validateDocument_of_mem _ _ (violates_mem _ _ _ _
      (violates_class_required ms cm cs i k hcs hc hk hl))
    have hm : requiredMessage ["classes", toString i] k =
        "classes." ++ toString i ++ ": " ++ k ++ " is required" := by
      apply String.ext
      simp [requiredMessage, contextString, String.intercalate, String.intercalate.go,
        String.data_append]
    rw [hm] at this
    exact this
  · rintro ms cs i cm fs j fm k rfl hcs hc hfs hf hk hl
    have := validateDocument_of_mem _ _ (violates_mem _ _ _ _
      (violates_field_required ms cm fm cs fs i j k hcs hc hfs hf hk hl))
    have hm : requiredMessage ["classes", toString i, "fields", toString j] k =
        "classes." ++ toString i ++ ".fields." ++ toString j ++ ": " ++ k ++ " is required" := by
      apply String.ext
      simp [requiredMessage, contextString, String.intercalate, String.intercalate.go,
        String.data_append]
    rw [hm] at this
    exact this

/-- C16 at documents of the test suite: `Valid` conforms and is reported valid;
the document with an `external` key is reported invalid; the empty object lacks
`classes`. -/
theorem C16_structural_validator_witness :
    validateJSONSchemaString (loadAs validDocument) "" = .ok (true, []) ∧
      RootConforms validDocument ∧
      validateJSONSchemaString (loadAs externalDocument) "" =
        .ok (false, ["classes.0.fields.0: Additional property external is not allowed"]) ∧
      validateJSONSchemaString (loadAs (.obj [])) "{}" =
        .ok (false, ["(root): classes is required"]) :=
  have h := C16_structural_validator (loadAs validDocument) "" validDocument rfl
  ⟨congrArg (@Except.ok SchemaError (Bool × List String))
      (by decide : validateDocument validDocument = (true, [])),
    h.2.1.1 (by decide),
    congrArg (@Except.ok SchemaError (Bool × List String))
      (by decide : validateDocument externalDocument =
        (false, ["classes.0.fields.0: Additional property external is not allowed"])),
    congrArg (@Except.ok SchemaError (Bool × List String))
      (by decide : validateDocument (.obj []) = (false, ["(root): classes is required"]))⟩

theorem countP_le_collectIndexed {α β : Type} (f : Nat → α → List β) (p : α → Bool)
    (hf : ∀ i x, p x = true → 1 ≤ (f i x).length) (xs : List α) :
    ∀ n, xs.countP p ≤ (collectIndexed f n xs).length := by
  induction xs with
  | nil => intro n; simp
  | cons x rest ih =>
    intro n
    rw [collectIndexed, List.length_append, List.countP_cons]
    have := ih (n + 1)
    by_cases hp : p x = true
    · have := hf n x hp
      simp only [hp, if_true]
      omega
    · simp only [hp]
      simp only [Bool.false_eq_true, if_false]
      omega

theorem sum_le_collectIndexed {α β : Type} (f : Nat → α → List β) (g : α → Nat)
    (hf : ∀ i x, g x ≤ (f i x).length) (xs : List α) :
    ∀ n, (xs.map g).sum ≤ (collectIndexed f n xs).length := by
  induction xs with
  | nil => intro n; simp
  | cons x rest ih =>
    intro n
    rw [collectIndexed, List.length_append, List.map_cons, List.sum_cons]
    have := ih (n + 1)
    have := hf n x
    omega

theorem fieldEntry_without_type_error (path : List String) (f : Json)
    (h : fieldEntryLacksType f = true) : 1 ≤ (validate fieldEntrySchema path f).length := by
  cases f with
  | obj fm =>
    have hl : fm.lookup "type" = none := by
      simpa [fieldEntryLacksType] using h
    have hv : Violates fieldEntrySchema path (.obj fm) (requiredMessage path "type") := by
      unfold fieldEntrySchema
      exact .required (typeMatches_object_obj fm) (by simp) hl
    exact List.length_pos_of_mem (violates_mem _ _ _ _ hv)
  | null => simp [fieldEntryLacksType] at h
  | bool b => simp [fieldEntryLacksType] at h
  | num q => simp [fieldEntryLacksType] at h
  | str s => simp [fieldEntryLacksType] at h
  | arr xs => simp [fieldEntryLacksType] at h

theorem validate_array_length (s : JSchema) (path : List String) (xs : List Json) :
    (validate (.mk ["array"] true [] (some s) false []) path (.arr xs)).length =
      (collectIndexed (fun i x => validate s (path ++ [toString i]) x) 0 xs).length := by
  rw [validate_eq, typeMatches_array_arr]
  simp [validateItems]

theorem classEntry_errors_ge (path : List String) (c : Json) :
    classEntryFieldsWithoutType c ≤ (validate classEntrySchema path c).length := by
  cases c with
  | obj cm =>
    unfold classEntryFieldsWithoutType
    cases hl : cm.lookup "fields" with
    | none => simp [hl]
    | some w =>
      cases w with
      | arr fs =>
        have h1 := countP_le_collectIndexed
          (fun i x => validate fieldEntrySchema ((path ++ ["fields"]) ++ [toString i]) x)
          fieldEntryLacksType (fun i x hx => fieldEntry_without_type_error _ x hx) fs 0
        rw [← validate_array_length] at h1
        unfold classEntrySchema
        rw [validate_eq, typeMatches_object_obj]
        simp only [Bool.not_true, Bool.false_eq_true, if_false, validateProperties, hl,
          List.length_append]
        omega
      | null => simp [hl]
      | bool b => simp [hl]
      | num q => simp [hl]
      | str s => simp [hl]
      | obj ms => simp [hl]
  | null => simp [classEntryFieldsWithoutType]
  | bool b => simp [classEntryFieldsWithoutType]
  | num q => simp [classEntryFieldsWithoutType]
  | str s => simp [classEntryFieldsWithoutType]
  | arr xs => simp [classEntryFieldsWithoutType]

/-- The validator reports at least one error for each field entry without
`type`. -/
theorem root_errors_ge (doc : Json) :
    fieldEntriesWithoutType doc ≤ (validate validationSchema [] doc).length := by
  cases doc with
  | obj ms =>
    unfold fieldEntriesWithoutType
    cases hl : ms.lookup "classes" with
    | none => simp [hl]
    | some w =>
      cases w with
      | arr cs =>
        have h1 := sum_le_collectIndexed
          (fun i x => validate classEntrySchema (([] ++ ["classes"]) ++ [toString i]) x)
          classEntryFieldsWithoutType (fun i x => classEntry_errors_ge _ x) cs 0
        rw [← validate_array_length] at h1
        unfold validationSchema
        rw [validate_eq, typeMatches_object_obj]
        simp only [Bool.not_true, Bool.false_eq_true, if_false, validateProperties, hl,
          List.length_append]
        omega
      | null => simp [hl]
      | bool b => simp [hl]
      | num q => simp [hl]
      | str s => simp [hl]
      | obj ms => simp [hl]
  | null => simp [fieldEntriesWithoutType]
  | bool b => simp [fieldEntriesWithoutType]
  | num q => simp [fieldEntriesWithoutType]
  | str s => simp [fieldEntriesWithoutType]
  | arr xs => simp [fieldEntriesWithoutType]

theorem validateDocument_snd (doc : Json) :
    (validateDocument doc).2 = validate validationSchema [] doc := by
  unfold validateDocument
  cases h : validate validationSchema [] doc with
  | nil => rfl
  | cons a l => rfl

theorem validateDocument_fst (doc : Json) :
    (validateDocument doc).1 = (validate validationSchema [] doc).isEmpty := rfl

/-- C17. The structural validator is batched: `validateJSONSchemaString` returns
`isValid = true` exactly when the list of violations it returns is empty; for
every grammar violation of the document the list holds its message; and the
list has at least as many messages as the document has field entries without
`type`, so two such entries yield at least two messages. -/
theorem C17_batched_violations (loadJSON : String → Except SchemaError Json)
    (text : String) (doc : Json) (hload : loadJSON text = .ok doc) :
    validateJSONSchemaString loadJSON text = .ok (validateDocument doc) ∧
    ((validateDocument doc).1 = true ↔ (validateDocument doc).2 = []) ∧
    (∀ m, Violates validationSchema [] doc m →
      (validateDocument doc).1 = false ∧ m ∈ (validateDocument doc).2) ∧
    fieldEntriesWithoutType doc ≤ (validateDocument doc).2.length := by
  refine ⟨validateJSONSchemaString_of_load loadJSON text doc hload, ?_, ?_, ?_⟩
  · rw [validateDocument_snd, validateDocument_fst, List.isEmpty_iff]
  · intro m hm
    exact validateDocument_of_mem doc m (violates_mem _ _ _ _ hm)
  · rw [validateDocument_snd]
    exact root_errors_ge doc

/-- C17 at a document whose class has two field entries without `type`: both
are reported. -/
theorem C17_batched_violations_witness :
    fieldEntriesWithoutType twoFieldsWithoutType = 2 ∧
      validateJSONSchemaString (loadAs twoFieldsWithoutType) "" =
        .ok (false, ["classes.0.fields.0: type is required",
          "classes.0.fields.1: type is required"]) ∧
      2 ≤ (validateDocument twoFieldsWithoutType).2.length :=
  have h := C17_batched_violations (loadAs twoFieldsWithoutType) "" twoFieldsWithoutType rfl
  ⟨by decide,
    congrArg (@Except.ok SchemaError (Bool × List String))
      (by decide : validateDocument twoFieldsWithoutType =
        (false, ["classes.0.fields.0: type is required",
          "classes.0.fields.1: type is required"])),
    h.2.2.2⟩

/-! ## Language dispatch -/

theorem isLangSupported_iff (env : Env) (lang : String) :
    IsLangSupported env lang = true ↔ ToLower env lang ∈ SupportedLangs := by
  unfold IsLangSupported
  simp only [List.any_eq_true, beq_iff_eq]
  constructor
  · rintro ⟨sl, hsl, rfl⟩; exact hsl
  · intro h; exact ⟨_, h, rfl⟩

theorem generate_unsupported_iff (gen : Schema → List (String × String)) (lang : String)
    (schema : Schema) :
    GenerateCompactClasses gen lang schema = .unsupported ↔ lang ∉ SupportedLangs := by
  unfold GenerateCompactClasses SupportedLangs
  simp only [List.mem_cons, List.mem_singleton, List.not_mem_nil, or_false, not_or]
  constructor
  · intro h
    refine ⟨?_, ?_, ?_, ?_, ?_, ?_⟩ <;> intro hl <;> subst hl <;> simp at h
  · rintro ⟨h1, h2, h3, h4, h5, h6⟩
    simp [h1, h2, h3, h4, h5, h6]

/-- C22 at a failing input. `IsLangSupported` lower-cases its argument and
accepts `JAVA`, and it is true exactly when the lower-cased text is one of the
six constants; `GenerateCompactClasses` compares the text as passed, so for
`JAVA` it returns the unsupported-language error, whatever `java.Generate` is.
It returns that error exactly when the text as passed is none of the six
constants, and for `py` it panics. -/
theorem C22_dispatch_rejects_accepted_language :
    IsLangSupported envPlain "JAVA" = true ∧
      (∀ gen schema, GenerateCompactClasses gen "JAVA" schema = .unsupported) ∧
      (∀ env lang, IsLangSupported env lang = true ↔
        ToLower env lang ∈ ["java", "py", "ts", "cpp", "go", "cs"]) ∧
      (∀ gen lang schema, GenerateCompactClasses gen lang schema = .unsupported ↔
        lang ∉ ["java", "py", "ts", "cpp", "go", "cs"]) ∧
      (∀ gen schema, GenerateCompactClasses gen "py" schema = .panics "implement me") :=
  ⟨by decide, fun gen schema => (generate_unsupported_iff gen "JAVA" schema).2 (by decide),
    isLangSupported_iff, generate_unsupported_iff, fun _ _ => rfl⟩

/-! ## Termination of import resolution -/

theorem reaches_trans (env : Env) (p q r : String) (h1 : Reaches env p q)
    (h2 : Reaches env q r) : Reaches env p r := by
  induction h1 with
  | step h => exact .next h h2
  | next h _ ih => exact .next h (ih h2)

/-- A source on a cycle imports a path that is on a cycle. -/
theorem cyclic_import (env : Env) (p : String) (s : Schema) (hs : sourceAt env p = some s)
    (h : Reaches env p p) : ∃ q ∈ s.Import, Reaches env q q := by
  cases h with
  | step hi =>
    obtain ⟨s', hs', hq⟩ := hi
    rw [hs] at hs'
    cases hs'
    exact ⟨p, hq, .step ⟨s, hs, hq⟩⟩
  | next hi hr =>
    obtain ⟨s', hs', hq⟩ := hi
    rw [hs] at hs'
    cases hs'
    exact ⟨_, hq, reaches_trans env _ p _ hr (.step ⟨s, hs, hq⟩)⟩

/-- Resolution of a path that lies on an import cycle never succeeds. -/
theorem processImport_cyclic_not_ok (env : Env) :
    ∀ (fuel : Nat) (p : String), Reaches env p p →
      ∀ reg reg', processImport env fuel p reg ≠ .ok reg' := by
  intro fuel
  induction fuel with
  | zero => intro p _ reg reg' h; rw [processImport] at h; cases h
  | succ n ih =>
    intro p hp reg reg' h
    obtain ⟨sch, reg0, _, hsrc, hparse, _, _⟩ := processImport_succ_ok env n p reg reg' h
    obtain ⟨r1, himp, _⟩ := ProcessSchemaWith_eq_ok env _ sch reg0 hparse
    obtain ⟨q, hq, hqq⟩ := cyclic_import env p sch hsrc hp
    exact processImports_not_ok (processImport env n) q (ih q hqq) sch.Import hq [] r1 himp

theorem processImports_outOfFuel_at (pI : String → Registry → Res Registry)
    (pre rest : List String) (q : String) (hq : ∀ reg, pI q reg = .outOfFuel) :
    ∀ reg, (∀ e, processImports pI pre reg ≠ .err e) →
      processImports pI (pre ++ q :: rest) reg = .outOfFuel := by
  induction pre with
  | nil =>
    intro reg _
    rw [List.nil_append, processImports, hq]
  | cons a as ih =>
    intro reg hpre
    rw [List.cons_append, processImports]
    cases ha : pI a reg with
    | ok r =>
      apply ih
      intro e he
      apply hpre e
      rw [processImports, ha]
      exact he
    | err e =>
      exfalso
      apply hpre e
      rw [processImports, ha]
    | outOfFuel => rfl

/-- Resolution that reaches a cycle runs out of every fuel: `C` is a set of paths
each of which loads and imports a path of `C` after imports that never fail. -/
theorem processImport_cycle_outOfFuel (env : Env) (C : String → Prop)
    (hC : ∀ p, C p → ∃ s pre q rest, sourceAt env p = some s ∧
      s.Import = pre ++ q :: rest ∧ C q ∧ NeverFails env pre) :
    ∀ (fuel : Nat) (p : String), C p → ∀ reg, processImport env fuel p reg = .outOfFuel := by
  intro fuel
  induction fuel with
  | zero => intro p _ reg; rw [processImport]
  | succ n ih =>
    intro p hp reg
    obtain ⟨s, pre, q, rest, hs, himp, hq, hpre⟩ := hC p hp
    obtain ⟨text, hread, hdec⟩ := sourceAt_eq_some env p s hs
    have hloop : processImports (processImport env n) s.Import [] = .outOfFuel := by
      rw [himp]
      exact processImports_outOfFuel_at _ pre rest q (ih q hq) [] (fun e => hpre n e)
    rw [processImport]
    unfold ParseSchemaTextWith ProcessSchemaWith
    simp only [hread, hdec, hloop]

theorem ProcessSchema_cycle_outOfFuel (env : Env) (C : String → Prop)
    (hC : ∀ p, C p → ∃ s pre q rest, sourceAt env p = some s ∧
      s.Import = pre ++ q :: rest ∧ C q ∧ NeverFails env pre)
    (root : Schema) (pre rest : List String) (q : String)
    (hroot : root.Import = pre ++ q :: rest) (hq : C q) (hpre : NeverFails env pre)
    (fuel : Nat) : ProcessSchema env fuel root = .outOfFuel := by
  have hloop : processImports (processImport env fuel) root.Import [] = .outOfFuel := by
    rw [hroot]
    exact processImports_outOfFuel_at _ pre rest q
      (fun reg => processImport_cycle_outOfFuel env C hC fuel q hq reg) []
      (fun e => hpre fuel e)
  unfold ProcessSchema ProcessSchemaRegistry ProcessSchemaWith
  simp only [hloop]

theorem processImports_mono_fuel (f g : String → Registry → Res Registry)
    (h : ∀ p reg r, r ≠ .outOfFuel → f p reg = r → g p reg = r) (l : List String) :
    ∀ reg r, r ≠ .outOfFuel → processImports f l reg = r → processImports g l reg = r := by
  induction l with
  | nil => intro reg r _ hr; exact hr
  | cons p ps ih =>
    intro reg r hne hr
    rw [processImports] at hr ⊢
    cases hf : f p reg with
    | ok r1 =>
      rw [hf] at hr
      rw [h p reg (.ok r1) (by simp) hf]
      exact ih r1 r hne hr
    | err e =>
      rw [hf] at hr
      rw [h p reg (.err e) (by simp) hf]
      exact hr
    | outOfFuel =>
      rw [hf] at hr
      exact absurd hr.symm hne

theorem registerAndCheck_ne_outOfFuel (env : Env) (schema : Schema) (reg : Registry) :
    registerAndCheck env schema reg ≠ .outOfFuel := by
  unfold registerAndCheck
  rcases registerClassesAndCheckForDuplicate schema reg with ⟨r, _ | e⟩
  · simp only []
    cases checkAllFieldTypesAreValid env schema r <;> simp
  · simp

theorem ProcessSchemaWith_mono_fuel (env : Env) (f g : String → Registry → Res Registry)
    (h : ∀ p reg r, r ≠ .outOfFuel → f p reg = r → g p reg = r) (schema : Schema)
    (r : Res Registry) (hne : r ≠ .outOfFuel) (hr : ProcessSchemaWith env f schema = r) :
    ProcessSchemaWith env g schema = r := by
  unfold ProcessSchemaWith at hr ⊢
  cases hf : processImports f schema.Import [] with
  | ok r1 =>
    rw [hf] at hr
    rw [processImports_mono_fuel f g h schema.Import [] (.ok r1) (by simp) hf]
    exact hr
  | err e =>
    rw [hf] at hr
    rw [processImports_mono_fuel f g h schema.Import [] (.err e) (by simp) hf]
    exact hr
  | outOfFuel =>
    rw [hf] at hr
    exact absurd hr.symm hne

theorem ParseSchemaTextWith_mono_fuel (env : Env) (f g : String → Registry → Res Registry)
    (h : ∀ p reg r, r ≠ .outOfFuel → f p reg = r → g p reg = r) (text : String)
    (r : Res Schema) (hne : r ≠ .outOfFuel) (hr : ParseSchemaTextWith env f text = r) :
    ParseSchemaTextWith env g text = r := by
  unfold ParseSchemaTextWith at hr ⊢
  cases hdec : decodeSchema env text with
  | error e => rw [hdec] at hr; exact hr
  | ok sch =>
    simp only [hdec] at hr ⊢
    cases hf : ProcessSchemaWith env f sch with
    | ok r1 =>
      rw [hf] at hr
      rw [ProcessSchemaWith_mono_fuel env f g h sch (.ok r1) (by simp) hf]
      exact hr
    | err e =>
      rw [hf] at hr
      rw [ProcessSchemaWith_mono_fuel env f g h sch (.err e) (by simp) hf]
      exact hr
    | outOfFuel =>
      rw [hf] at hr
      exact absurd hr.symm hne

/-- More fuel does not change a result. -/
theorem processImport_succ_fuel (env : Env) :
    ∀ (n : Nat) (p : String) (reg : Registry) (r : Res Registry), r ≠ .outOfFuel →
      processImport env n p reg = r → processImport env (n + 1) p reg = r := by
  intro n
  induction n with
  | zero =>
    intro p reg r hne hr
    rw [processImport] at hr
    exact absurd hr.symm hne
  | succ n ih =>
    intro p reg r hne hr
    rw [processImport] at hr ⊢
    cases hread : env.readFile p with
    | error e => simp only [hread] at hr ⊢; exact hr
    | ok text =>
      simp only [hread] at hr ⊢
      cases hparse : ParseSchemaTextWith env (processImport env n) text with
      | err e =>
        simp only [hparse] at hr
        rw [ParseSchemaTextWith_mono_fuel env _ _ ih text (.err e) (by simp) hparse]
        exact hr
      | outOfFuel =>
        simp only [hparse] at hr
        exact absurd hr.symm hne
      | ok sch =>
        simp only [hparse] at hr
        rw [ParseSchemaTextWith_mono_fuel env _ _ ih text (.ok sch) (by simp) hparse]
        simp only []
        cases himp : processImports (processImport env n) sch.Import reg with
        | err e =>
          simp only [himp] at hr
          rw [processImports_mono_fuel _ _ ih sch.Import reg (.err e) (by simp) himp]
          exact hr
        | outOfFuel =>
          simp only [himp] at hr
          exact absurd hr.symm hne
        | ok r1 =>
          simp only [himp] at hr
          rw [processImports_mono_fuel _ _ ih sch.Import reg (.ok r1) (by simp) himp]
          exact hr

theorem processImport_more_fuel (env : Env) (n m : Nat) (hnm : n ≤ m) (p : String)
    (reg : Registry) (r : Res Registry) (hne : r ≠ .outOfFuel)
    (hr : processImport env n p reg = r) : processImport env m p reg = r := by
  induction m with
  | zero =>
    have : n = 0 := by omega
    subst this
    exact hr
  | succ k ih =>
    by_cases hk : n ≤ k
    · exact processImport_succ_fuel env k p reg r hne (ih hk)
    · have : n = k + 1 := by omega
      subst this
      exact hr

theorem ProcessSchema_more_fuel (env : Env) (n m : Nat) (hnm : n ≤ m) (schema : Schema)
    (r : Res Unit) (hne : r ≠ .outOfFuel) (hr : ProcessSchema env n schema = r) :
    ProcessSchema env m schema = r := by
  unfold ProcessSchema ProcessSchemaRegistry at hr ⊢
  cases hf : ProcessSchemaWith env (processImport env n) schema with
  | ok r1 =>
    rw [hf] at hr
    rw [ProcessSchemaWith_mono_fuel env _ _
      (fun p reg r hne hr => processImport_more_fuel env n m hnm p reg r hne hr) schema
      (.ok r1) (by simp) hf]
    exact hr
  | err e =>
    rw [hf] at hr
    rw [ProcessSchemaWith_mono_fuel env _ _
      (fun p reg r hne hr => processImport_more_fuel env n m hnm p reg r hne hr) schema
      (.err e) (by simp) hf]
    exact hr
  | outOfFuel =>
    rw [hf] at hr
    exact absurd hr.symm hne

theorem processImports_ne_outOfFuel (f : String → Registry → Res Registry) (l : List String)
    (h : ∀ q ∈ l, ∀ reg, f q reg ≠ .outOfFuel) :
    ∀ reg, processImports f l reg ≠ .outOfFuel := by
  induction l with
  | nil => intro reg hr; rw [processImports] at hr; cases hr
  | cons p ps ih =>
    intro reg hr
    rw [processImports] at hr
    cases hf : f p reg with
    | ok r1 =>
      rw [hf] at hr
      exact ih (fun q hq => h q (List.mem_cons_of_mem _ hq)) r1 hr
    | err e => simp [hf] at hr
    | outOfFuel => exact h p (List.mem_cons_self _ _) reg hf

theorem ProcessSchemaWith_ne_outOfFuel (env : Env) (f : String → Registry → Res Registry)
    (schema : Schema) (h : ∀ q ∈ schema.Import, ∀ reg, f q reg ≠ .outOfFuel) :
    ProcessSchemaWith env f schema ≠ .outOfFuel := by
  unfold ProcessSchemaWith
  cases hf : processImports f schema.Import [] with
  | ok r1 => exact registerAndCheck_ne_outOfFuel env schema r1
  | err e => simp
  | outOfFuel => exact absurd hf (processImports_ne_outOfFuel f _ h [])

theorem ParseSchemaTextWith_ne_outOfFuel (env : Env) (f : String → Registry → Res Registry)
    (text : String)
    (h : ∀ sch, decodeSchema env text = .ok sch → ∀ q ∈ sch.Import, ∀ reg,
      f q reg ≠ .outOfFuel) :
    ParseSchemaTextWith env f text ≠ .outOfFuel := by
  unfold ParseSchemaTextWith
  cases hdec : decodeSchema env text with
  | error e => simp
  | ok sch =>
    simp only []
    cases hp : ProcessSchemaWith env f sch with
    | ok r => simp
    | err e => simp
    | outOfFuel => exact absurd hp (ProcessSchemaWith_ne_outOfFuel env f sch (h sch hdec))

theorem ParseSchemaTextWith_ok_decodes (env : Env) (f : String → Registry → Res Registry)
    (text : String) (sch : Schema) (h : ParseSchemaTextWith env f text = .ok sch) :
    decodeSchema env text = .ok sch := by
  unfold ParseSchemaTextWith at h
  cases hdec : decodeSchema env text with
  | error e => simp [hdec] at h
  | ok s =>
    simp only [hdec] at h
    cases hp : ProcessSchemaWith env f s with
    | ok r => simp [hp] at h; rw [h]
    | err e => simp [hp] at h
    | outOfFuel => simp [hp] at h

theorem processImports_more_fuel (env : Env) (n m : Nat) (hnm : n ≤ m) (l : List String)
    (reg : Registry) (r : Res Registry) (hne : r ≠ .outOfFuel)
    (hr : processImports (processImport env n) l reg = r) :
    processImports (processImport env m) l reg = r :=
  processImports_mono_fuel _ _
    (fun p reg r hne hr => processImport_more_fuel env n m hnm p reg r hne hr) l reg r hne hr

theorem ParseSchemaTextWith_eq_ok (env : Env) (f : String → Registry → Res Registry)
    (text : String) (sch : Schema) (h : ParseSchemaTextWith env f text = .ok sch) :
    decodeSchema env text = .ok sch ∧ ∃ r, ProcessSchemaWith env f sch = .ok r := by
  have hdec := ParseSchemaTextWith_ok_decodes env f text sch h
  refine ⟨hdec, ?_⟩
  unfold ParseSchemaTextWith at h
  simp only [hdec] at h
  cases hp : ProcessSchemaWith env f sch with
  | ok r => exact ⟨r, rfl⟩
  | err e => simp [hp] at h
  | outOfFuel => simp [hp] at h

theorem ProcessSchemaWith_outOfFuel (env : Env) (f : String → Registry → Res Registry)
    (schema : Schema) (h : ProcessSchemaWith env f schema = .outOfFuel) :
    processImports f schema.Import [] = .outOfFuel := by
  unfold ProcessSchemaWith at h
  cases hf : processImports f schema.Import [] with
  | ok r1 =>
    simp only [hf] at h
    exact absurd h (registerAndCheck_ne_outOfFuel env schema r1)
  | err e => simp [hf] at h
  | outOfFuel => rfl

theorem ProcessSchema_outOfFuel (env : Env) (fuel : Nat) (schema : Schema)
    (h : ProcessSchema env fuel schema = .outOfFuel) :
    processImports (processImport env fuel) schema.Import [] = .outOfFuel := by
  apply ProcessSchemaWith_outOfFuel env
  unfold ProcessSchema ProcessSchemaRegistry at h
  cases hf : ProcessSchemaWith env (processImport env fuel) schema with
  | ok r => simp [hf] at h
  | err e => simp [hf] at h
  | outOfFuel => rfl

/-- Every path of a list that resolves has resolved against some registry. -/
theorem processImports_ok_mem (f : String → Registry → Res Registry) (l : List String) :
    ∀ reg reg', processImports f l reg = .ok reg' →
      ∀ q ∈ l, ∃ r r', f q r = .ok r' := by
  induction l with
  | nil => intro _ _ _ q hq; cases hq
  | cons a as ih =>
    intro reg reg' h q hq
    obtain ⟨r1, ha, hrest⟩ := processImports_ok_cons f a as reg reg' h
    rcases List.mem_cons.1 hq with rfl | hq
    · exact ⟨reg, r1, ha⟩
    · exact ih r1 reg' hrest q hq

/-- Whether `processImport` runs out of fuel does not depend on the registry it
is given: the nested `ParseSchemaText` starts on a registry of its own. -/
theorem processImport_ne_outOfFuel_indep (env : Env) :
    ∀ (n : Nat) (p : String) (reg reg' : Registry),
      processImport env n p reg ≠ .outOfFuel → processImport env n p reg' ≠ .outOfFuel := by
  intro n
  induction n with
  | zero =>
    intro p reg reg' h
    exact absurd (by rw [processImport]) h
  | succ n ih =>
    intro p reg reg' h h'
    rw [processImport] at h h'
    cases hread : env.readFile p with
    | error e => simp [hread] at h'
    | ok text =>
      simp only [hread] at h h'
      cases hparse : ParseSchemaTextWith env (processImport env n) text with
      | err e => simp [hparse] at h'
      | outOfFuel => simp [hparse] at h
      | ok sch =>
        simp only [hparse] at h'
        obtain ⟨_, r0, hpsw⟩ := ParseSchemaTextWith_eq_ok env _ text sch hparse
        obtain ⟨r1, himp, _⟩ := ProcessSchemaWith_eq_ok env _ sch r0 hpsw
        have hall : ∀ q ∈ sch.Import, ∀ r, processImport env n q r ≠ .outOfFuel := by
          intro q hq r
          obtain ⟨ra, rb, hab⟩ := processImports_ok_mem _ _ _ _ himp q hq
          exact ih q ra r (by rw [hab]; simp)
        cases himp' : processImports (processImport env n) sch.Import reg' with
        | err e => simp [himp'] at h'
        | outOfFuel => exact processImports_ne_outOfFuel _ _ hall reg' himp'
        | ok r =>
          simp only [himp'] at h'
          exact registerAndCheck_ne_outOfFuel env sch r h'

/-- An import loop that runs out of every fuel holds a path that runs out of
every fuel, after paths that do not fail. -/
theorem processImports_diverges_split (env : Env) (l : List String) :
    ∀ reg, (∀ n, processImports (processImport env n) l reg = .outOfFuel) →
      ∃ pre q rest, l = pre ++ q :: rest ∧
        (∀ n reg', processImport env n q reg' = .outOfFuel) ∧
        ∀ n e, processImports (processImport env n) pre reg ≠ .err e := by
  induction l with
  | nil =>
    intro reg h
    have h0 := h 0
    rw [processImports] at h0
    cases h0
  | cons a l ih =>
    intro reg h
    by_cases ha : ∀ n, processImport env n a reg = .outOfFuel
    · refine ⟨[], a, l, rfl, ?_, ?_⟩
      · intro n reg'
        by_contra hne
        exact processImport_ne_outOfFuel_indep env n a reg' reg hne (ha n)
      · intro n e he
        rw [processImports] at he
        cases he
    · push_neg at ha
      obtain ⟨n0, hn0⟩ := ha
      cases hr : processImport env n0 a reg with
      | outOfFuel => exact absurd hr hn0
      | err e =>
        have h0 := h n0
        rw [processImports] at h0
        simp [hr] at h0
      | ok r1 =>
        have hdiv : ∀ n, processImports (processImport env n) l r1 = .outOfFuel := by
          intro n
          by_contra hne
          have hm := processImports_more_fuel env n (max n n0) (le_max_left _ _) l r1 _ hne rfl
          have ha' := processImport_more_fuel env n0 (max n n0) (le_max_right _ _) a reg _
            (by simp) hr
          have h0 := h (max n n0)
          rw [processImports] at h0
          simp only [ha'] at h0
          rw [hm] at h0
          exact hne h0
        obtain ⟨pre, q, rest, hl, hq, hpre⟩ := ih r1 hdiv
        refine ⟨a :: pre, q, rest, by rw [hl]; rfl, hq, ?_⟩
        intro n e he
        rw [processImports] at he
        cases hn : processImport env n a reg with
        | outOfFuel => simp [hn] at he
        | err e' =>
          have h1 := processImport_more_fuel env n (max n n0) (le_max_left _ _) a reg _
            (by simp) hn
          have h2 := processImport_more_fuel env n0 (max n n0) (le_max_right _ _) a reg _
            (by simp) hr
          rw [h1] at h2
          cases h2
        | ok r1' =>
          have h1 := processImport_more_fuel env n (max n n0) (le_max_left _ _) a reg _
            (by simp) hn
          have h2 := processImport_more_fuel env n0 (max n n0) (le_max_right _ _) a reg _
            (by simp) hr
          rw [h1] at h2
          cases h2
          simp only [hn] at he
          exact hpre n e he

/-- A path that runs out of every fuel loads, and the import loop of its schema,
started on the empty registry, runs out of every fuel. -/
theorem processImport_diverges_source (env : Env) (p : String)
    (h : ∀ n reg, processImport env n p reg = .outOfFuel) :
    ∃ s, sourceAt env p = some s ∧
      ∀ n, processImports (processImport env n) s.Import [] = .outOfFuel := by
  have h1 := h 1 []
  rw [processImport] at h1
  cases hread : env.readFile p with
  | error e => simp [hread] at h1
  | ok text =>
    have hpst : ∀ n, ParseSchemaTextWith env (processImport env n) text = .outOfFuel := by
      intro n
      have h2 := h (n + 1) []
      rw [processImport] at h2
      simp only [hread] at h2
      cases hparse : ParseSchemaTextWith env (processImport env n) text with
      | outOfFuel => rfl
      | err e => simp [hparse] at h2
      | ok sch =>
        simp only [hparse] at h2
        obtain ⟨_, r0, hpsw⟩ := ParseSchemaTextWith_eq_ok env _ text sch hparse
        obtain ⟨r1, himp, _⟩ := ProcessSchemaWith_eq_ok env _ sch r0 hpsw
        simp only [himp] at h2
        exact absurd h2 (registerAndCheck_ne_outOfFuel env sch r1)
    cases hdec : decodeSchema env text with
    | error e =>
      have h0 := hpst 0
      unfold ParseSchemaTextWith at h0
      simp [hdec] at h0
    | ok s =>
      refine ⟨s, by unfold sourceAt; simp only [hread, hdec], ?_⟩
      intro n
      have hn := hpst n
      unfold ParseSchemaTextWith at hn
      simp only [hdec] at hn
      cases hp : ProcessSchemaWith env (processImport env n) s with
      | ok r => simp [hp] at hn
      | err e => simp [hp] at hn
      | outOfFuel => exact ProcessSchemaWith_outOfFuel env _ s hp

/-- The exact condition for `ProcessSchema` to run out of every fuel. -/
theorem ProcessSchema_outOfFuel_iff (env : Env) (root : Schema) :
    (∀ fuel, ProcessSchema env fuel root = .outOfFuel) ↔
      ∃ C : String → Prop,
        (∀ p, C p → ∃ s, sourceAt env p = some s ∧ GetsTo env C s.Import) ∧
          GetsTo env C root.Import := by
  constructor
  · intro h
    refine ⟨fun p => ∀ n reg, processImport env n p reg = .outOfFuel, ?_, ?_⟩
    · intro p hp
      obtain ⟨s, hs, hdiv⟩ := processImport_diverges_source env p hp
      obtain ⟨pre, q, rest, hl, hq, hpre⟩ := processImports_diverges_split env s.Import [] hdiv
      exact ⟨s, hs, pre, q, rest, hl, hq, hpre⟩
    · obtain ⟨pre, q, rest, hl, hq, hpre⟩ := processImports_diverges_split env root.Import []
        (fun n => ProcessSchema_outOfFuel env n root (h n))
      exact ⟨pre, q, rest, hl, hq, hpre⟩
  · rintro ⟨C, hC, pre, q, rest, himp, hq, hpre⟩ fuel
    refine ProcessSchema_cycle_outOfFuel env C ?_ root pre rest q himp hq hpre fuel
    intro p hp
    obtain ⟨s, hs, pre', q', rest', h1, h2, h3⟩ := hC p hp
    exact ⟨s, pre', q', rest', hs, h1, h2, h3⟩

/-- For every environment and root, `ProcessSchema` runs out of every fuel or
ends with one result from some fuel on. -/
theorem ProcessSchema_dichotomy (env : Env) (root : Schema) :
    (∀ fuel, ProcessSchema env fuel root = .outOfFuel) ∨
      ∃ r N, r ≠ .outOfFuel ∧ ∀ fuel, N ≤ fuel → ProcessSchema env fuel root = r := by
  by_cases h : ∀ fuel, ProcessSchema env fuel root = .outOfFuel
  · exact Or.inl h
  · push_neg at h
    obtain ⟨N, hN⟩ := h
    exact Or.inr ⟨_, N, hN, fun fuel hf => ProcessSchema_more_fuel env N fuel hf root _ hN rfl⟩

theorem reachedFrom_import (env : Env) (imports : List String) (p q : String) (s : Schema)
    (hp : ReachedFrom env imports p) (hs : sourceAt env p = some s) (hq : q ∈ s.Import) :
    ReachedFrom env imports q := by
  rcases hp with hp | ⟨q0, hq0, hr⟩
  · exact Or.inr ⟨p, hp, .step ⟨s, hs, hq⟩⟩
  · exact Or.inr ⟨q0, hq0, reaches_trans env q0 p q hr (.step ⟨s, hs, hq⟩)⟩

/-- Resolution of a path does not run out of fuel when the paths of `R`, a set
closed under imports, that load all belong to the list `L` and none of them
reaches itself: `visited` are the paths on the way to `p`. -/
theorem processImport_acyclic_ne_outOfFuel (env : Env) (R : String → Prop) (L : List String)
    (hR : ∀ p s q, R p → sourceAt env p = some s → q ∈ s.Import → R q)
    (hfin : ∀ p s, R p → sourceAt env p = some s → p ∈ L)
    (hacyc : ∀ p, R p → ¬ Reaches env p p) :
    ∀ (n : Nat) (p : String) (visited : List String), R p → visited.Nodup → visited ⊆ L →
      (∀ v ∈ visited, Reaches env v p) → L.length < n + visited.length →
      ∀ reg, processImport env n p reg ≠ .outOfFuel := by
  intro n
  induction n with
  | zero =>
    intro p visited _ hnd hsub _ hlen
    have := (List.subperm_of_subset hnd hsub).length_le
    omega
  | succ n ih =>
    intro p visited hRp hnd hsub hreach hlen reg
    rw [processImport]
    cases hread : env.readFile p with
    | error e => simp
    | ok text =>
      simp only []
      have hsrc : ∀ sch, decodeSchema env text = .ok sch → ∀ q ∈ sch.Import, ∀ reg,
          processImport env n q reg ≠ .outOfFuel := by
        intro sch hdec q hq
        have hs : sourceAt env p = some sch := by
          unfold sourceAt
          simp only [hread, hdec]
        have hpv : p ∉ visited := fun hp => hacyc p hRp (hreach p hp)
        apply ih q (p :: visited) (hR p sch q hRp hs hq) (List.nodup_cons.2 ⟨hpv, hnd⟩)
        · intro v hv
          rcases List.mem_cons.1 hv with rfl | hv
          · exact hfin _ _ hRp hs
          · exact hsub hv
        · intro v hv
          rcases List.mem_cons.1 hv with rfl | hv
          · exact .step ⟨sch, hs, hq⟩
          · exact reaches_trans env v p q (hreach v hv) (.step ⟨sch, hs, hq⟩)
        · simp only [List.length_cons]
          omega
      cases hparse : ParseSchemaTextWith env (processImport env n) text with
      | err e => simp
      | outOfFuel => exact absurd hparse (ParseSchemaTextWith_ne_outOfFuel env _ text hsrc)
      | ok sch =>
        simp only []
        have hdec := ParseSchemaTextWith_ok_decodes env _ text sch hparse
        cases himp : processImports (processImport env n) sch.Import reg with
        | err e => simp
        | outOfFuel =>
          exact absurd himp (processImports_ne_outOfFuel _ _ (hsrc sch hdec) reg)
        | ok r1 => exact registerAndCheck_ne_outOfFuel env sch r1

theorem ProcessSchema_acyclic_ne_outOfFuel (env : Env) (root : Schema) (L : List String)
    (hfin : ∀ p s, ReachedFrom env root.Import p → sourceAt env p = some s → p ∈ L)
    (hacyc : ∀ p, ReachedFrom env root.Import p → ¬ Reaches env p p)
    (fuel : Nat) (hfuel : L.length < fuel) :
    ProcessSchema env fuel root ≠ .outOfFuel := by
  unfold ProcessSchema ProcessSchemaRegistry
  cases hf : ProcessSchemaWith env (processImport env fuel) root with
  | ok r => simp
  | err e => simp
  | outOfFuel =>
    exact absurd hf (ProcessSchemaWith_ne_outOfFuel env _ root (fun q hq reg =>
      processImport_acyclic_ne_outOfFuel env (ReachedFrom env root.Import) L
        (fun p s q hp hs hq => reachedFrom_import env root.Import p q s hp hs hq)
        hfin hacyc fuel q [] (Or.inl hq) List.nodup_nil
        (List.nil_subset _) (fun v hv => by cases hv) (by simpa using hfuel) reg))

/-- A path that resolves has every path it reaches resolved. -/
theorem processImport_ok_reaches (env : Env) (p q : String) (h : Reaches env p q) :
    ∀ n reg reg', processImport env n p reg = .ok reg' →
      ∃ m r r', processImport env m q r = .ok r' := by
  induction h with
  | step hi =>
    intro n reg reg' hok
    cases n with
    | zero => rw [processImport] at hok; cases hok
    | succ n =>
      obtain ⟨sch, reg0, _, hsrc, hparse, _, _⟩ := processImport_succ_ok env n _ reg reg' hok
      obtain ⟨s, hs, hq⟩ := hi
      rw [hsrc] at hs
      cases hs
      obtain ⟨r1, himp, _⟩ := ProcessSchemaWith_eq_ok env _ sch reg0 hparse
      obtain ⟨ra, rb, hab⟩ := processImports_ok_mem _ _ _ _ himp _ hq
      exact ⟨n, ra, rb, hab⟩
  | next hi _ ih =>
    intro n reg reg' hok
    cases n with
    | zero => rw [processImport] at hok; cases hok
    | succ n =>
      obtain ⟨sch, reg0, _, hsrc, hparse, _, _⟩ := processImport_succ_ok env n _ reg reg' hok
      obtain ⟨s, hs, hq⟩ := hi
      rw [hsrc] at hs
      cases hs
      obtain ⟨r1, himp, _⟩ := ProcessSchemaWith_eq_ok env _ sch reg0 hparse
      obtain ⟨ra, rb, hab⟩ := processImports_ok_mem _ _ _ _ himp _ hq
      exact ih n ra rb hab

/-- A root whose imports reach a path on a cycle never resolves. -/
theorem ProcessSchema_cyclic_not_ok (env : Env) (root : Schema) (p : String)
    (hp : ReachedFrom env root.Import p) (hpp : Reaches env p p) (fuel : Nat) :
    ProcessSchema env fuel root ≠ .ok () := by
  intro h
  obtain ⟨reg, hreg⟩ := ProcessSchema_eq_ok env fuel root h
  obtain ⟨r1, himp, _⟩ := ProcessSchemaWith_eq_ok env _ root reg hreg
  rcases hp with hp | ⟨q, hq, hqp⟩
  · exact processImports_not_ok (processImport env fuel) p
      (processImport_cyclic_not_ok env fuel p hpp) root.Import hp [] r1 himp
  · obtain ⟨ra, rb, hab⟩ := processImports_ok_mem _ _ _ _ himp q hq
    obtain ⟨m, r, r', hok⟩ := processImport_ok_reaches env q p hqp fuel ra rb hab
    exact processImport_cyclic_not_ok env m p hpp r r' hok

theorem neverFails_nil (env : Env) : NeverFails env [] := by
  intro fuel e h
  rw [processImports] at h
  cases h

/-- An import loop that resolves for some fuel never fails. -/
theorem neverFails_of_ok (env : Env) (l : List String) (n : Nat) (r : Registry)
    (h : processImports (processImport env n) l [] = .ok r) : NeverFails env l := by
  intro fuel e he
  have h1 := processImports_more_fuel env n (max n fuel) (le_max_left _ _) l [] _ (by simp) h
  have h2 := processImports_more_fuel env fuel (max n fuel) (le_max_right _ _) l [] _
    (by simp) he
  rw [h1] at h2
  cases h2

/-- Every path that loads in the working directory of `srcs` is the path of one
of the sources. -/
theorem sourceAt_ofSources_mem (srcs : List Source) (p : String) (s : Schema)
    (h : sourceAt (Env.ofSources srcs) p = some s) : p ∈ srcs.map Source.path := by
  obtain ⟨text, hread, _⟩ := sourceAt_eq_some _ p s h
  unfold Env.ofSources at hread
  simp only at hread
  cases hf : srcs.find? (fun s => s.path == p) with
  | none => simp [hf] at hread
  | some src =>
    have h1 := List.find?_some hf
    have h2 := List.mem_of_find?_eq_some hf
    have h3 : src.path = p := by simpa using h1
    rw [← h3]
    exact List.mem_map_of_mem Source.path h2

theorem reaches_rank_lt (env : Env) (rank : String → Nat)
    (hrank : ∀ p s q, sourceAt env p = some s → q ∈ s.Import → rank q < rank p)
    (p q : String) (h : Reaches env p q) : rank q < rank p := by
  induction h with
  | step hi =>
    obtain ⟨s, hs, hq⟩ := hi
    exact hrank _ s _ hs hq
  | next hi _ ih =>
    obtain ⟨s, hs, hq⟩ := hi
    exact Nat.lt_trans ih (hrank _ s _ hs hq)

theorem envDiamond_rank (p : String) (s : Schema) (q : String)
    (hs : sourceAt envDiamond p = some s) (hq : q ∈ s.Import) :
    rankDiamond q < rankDiamond p := by
  have hp := sourceAt_ofSources_mem [baseYaml, leftYaml, rightYaml] p s hs
  simp only [List.map, List.mem_cons, List.mem_nil_iff, or_false] at hp
  rcases hp with rfl | rfl | rfl
  · have h : sourceAt envDiamond "base.yaml" = some baseYaml.schema := by decide
    rw [show baseYaml.path = "base.yaml" from rfl, h] at hs
    cases hs
    cases hq
  · have h : sourceAt envDiamond "left.yaml" = some leftYaml.schema := by decide
    rw [show leftYaml.path = "left.yaml" from rfl, h] at hs
    cases hs
    have hq' : q = "base.yaml" := by simpa [leftYaml] using hq
    subst hq'
    decide
  · have h : sourceAt envDiamond "right.yaml" = some rightYaml.schema := by decide
    rw [show rightYaml.path = "right.yaml" from rfl, h] at hs
    cases hs
    have hq' : q = "base.yaml" := by simpa [rightYaml] using hq
    subst hq'
    decide

theorem envDiamond_acyclic (p : String) : ¬ Reaches envDiamond p p := fun h =>
  Nat.lt_irrefl _ (reaches_rank_lt envDiamond rankDiamond envDiamond_rank p p h)

/-! ## Import cycles -/

/-- C21, as stated, fails. `loop.yaml` lists `missing.yaml` and then its own path,
so its import list reaches itself; `ProcessSchema` on its schema, and
`ParseSchemaText` on its text, return the error of reading `missing.yaml` for
every fuel but zero, before the cycle is entered. The same happens in a directory
where every source loads: `cycle.yaml` lists `broken.yaml` and then its own
path, and the unresolved type of `broken.yaml` is returned. -/
theorem C21_counterexample :
    sourceAt envLoop "loop.yaml" = some loopYaml.schema ∧
      "loop.yaml" ∈ loopYaml.schema.Import ∧
      Reaches envLoop "loop.yaml" "loop.yaml" ∧
      (∀ fuel, 1 ≤ fuel → ProcessSchema envLoop fuel loopYaml.schema =
        .err (.foreign "open missing.yaml: no such file or directory")) ∧
      ParseSchemaText envLoop 1 loopYaml.text =
        .err (.foreign "open missing.yaml: no such file or directory") ∧
      sourceAt envCycle "broken.yaml" = some brokenYaml.schema ∧
      sourceAt envCycle "cycle.yaml" = some cycleYaml.schema ∧
      Reaches envCycle "cycle.yaml" "cycle.yaml" ∧
      (∀ fuel, 1 ≤ fuel → ProcessSchema envCycle fuel cycleYaml.schema =
        .err (.unresolvedType "Work")) :=
  ⟨by decide, by decide, .step ⟨loopYaml.schema, by decide, by decide⟩,
    fun fuel h => ProcessSchema_more_fuel envLoop 1 fuel h loopYaml.schema _ (by simp)
      (by decide),
    by decide, by decide, by decide, .step ⟨cycleYaml.schema, by decide, by decide⟩,
    fun fuel h => ProcessSchema_more_fuel envCycle 1 fuel h cycleYaml.schema _ (by simp)
      (by decide)⟩

theorem not_reaches_xyz (p : String) : ¬ Reaches envXyzSelf "xyz.yaml" p := by
  have h : sourceAt envXyzSelf "xyz.yaml" = some xyzYaml.schema := by decide
  have hi : ∀ q, ¬ ImportsPath envXyzSelf "xyz.yaml" q := by
    rintro q ⟨s, hs, hq⟩
    rw [h] at hs
    cases hs
    cases hq
  intro hr
  cases hr with
  | step hi' => exact hi _ hi'
  | next hi' _ => exact hi _ hi'

/-- C21, amended. Import resolution has no cycle guard; what a cycle does
depends on whether the import loop gets to it. (1) `ProcessSchema` runs out of
every finite amount of fuel exactly when there is a set `C` of paths such that
the import list of the root, and of the source at each path of `C`, holds a path
of `C` after imports that, resolved in order from the empty registry on which
`ProcessSchema` starts, never fail. (2) When the imports of the root reach a
path whose imports reach that path again, `ProcessSchema` returns success for no
fuel: it runs out of every fuel, or from some fuel on it returns one and the
same error. (3) When the paths in the closure of the imports of the root that
load all belong to a finite list `L` and none of them reaches itself,
`ProcessSchema` ends with one result for every fuel above the length of `L`. -/
theorem C21_import_cycles_and_termination (env : Env) (root : Schema) :
    ((∀ fuel, ProcessSchema env fuel root = .outOfFuel) ↔
        ∃ C : String → Prop,
          (∀ p, C p → ∃ s, sourceAt env p = some s ∧ GetsTo env C s.Import) ∧
            GetsTo env C root.Import) ∧
      (∀ p, ReachedFrom env root.Import p → Reaches env p p →
        (∀ fuel, ProcessSchema env fuel root ≠ .ok ()) ∧
          ((∀ fuel, ProcessSchema env fuel root = .outOfFuel) ∨
            ∃ e N, ∀ fuel, N ≤ fuel → ProcessSchema env fuel root = .err e)) ∧
      (∀ L : List String,
        (∀ p s, ReachedFrom env root.Import p → sourceAt env p = some s → p ∈ L) →
        (∀ p, ReachedFrom env root.Import p → ¬ Reaches env p p) →
        ∃ r, r ≠ .outOfFuel ∧ ∀ fuel, L.length < fuel → ProcessSchema env fuel root = r) := by
  refine ⟨ProcessSchema_outOfFuel_iff env root, ?_, ?_⟩
  · intro p hp hpp
    have hnot := ProcessSchema_cyclic_not_ok env root p hp hpp
    refine ⟨hnot, ?_⟩
    rcases ProcessSchema_dichotomy env root with h | ⟨r, N, hr, hN⟩
    · exact Or.inl h
    · right
      cases r with
      | outOfFuel => exact absurd rfl hr
      | ok u => exact absurd (hN N (Nat.le_refl N)) (hnot N)
      | err e => exact ⟨e, N, hN⟩
  · intro L hfin hacyc
    have hne := ProcessSchema_acyclic_ne_outOfFuel env root L hfin hacyc (L.length + 1)
      (Nat.lt_succ_self _)
    exact ⟨ProcessSchema env (L.length + 1) root, hne, fun fuel hfuel =>
      ProcessSchema_more_fuel env (L.length + 1) fuel hfuel root _ hne rfl⟩

/-- C21, amended, at a schema that imports its own path, and in the directory
of `xyz.yaml` and the self-importing `self.yaml`: the root that imports
`xyz.yaml` and then `self.yaml` runs out of every fuel and never succeeds, while
the root that imports `xyz.yaml` only resolves for every fuel above one. In the
acyclic directory of `left.yaml`, `right.yaml` and `base.yaml` the schema of
`left.yaml` resolves and the diamond root ends with the duplicate-class error. -/
theorem C21_import_cycles_and_termination_witness :
    (∀ fuel, ProcessSchema envSelf fuel rootImportsSelf = .outOfFuel) ∧
      (∀ fuel, ProcessSchema envXyzSelf fuel rootXyzSelf = .outOfFuel) ∧
      (∀ fuel, ProcessSchema envXyzSelf fuel rootXyzSelf ≠ .ok ()) ∧
      (∀ fuel, 1 < fuel → ProcessSchema envXyzSelf fuel importedFieldType = .ok ()) ∧
      (∀ fuel, 3 < fuel → ProcessSchema envDiamond fuel leftYaml.schema = .ok ()) ∧
      (∀ fuel, 3 < fuel → ProcessSchema envDiamond fuel rootDiamond =
        .err (.duplicateClass "Id" "com.base")) := by
  have hself : Reaches envXyzSelf "self.yaml" "self.yaml" :=
    .step ⟨selfYaml.schema, by decide, by decide⟩
  refine ⟨?_, ?_, ?_, ?_, ?_, ?_⟩
  · exact (C21_import_cycles_and_termination envSelf rootImportsSelf).1.2
      ⟨fun p => p = "self.yaml",
        fun p hp => ⟨selfYaml.schema, by rw [hp]; decide, [], "self.yaml", [], rfl, rfl,
          neverFails_nil envSelf⟩,
        [], "self.yaml", [], rfl, rfl, neverFails_nil envSelf⟩
  · refine (C21_import_cycles_and_termination envXyzSelf rootXyzSelf).1.2
      ⟨fun p => p = "self.yaml", ?_, ?_⟩
    · intro p hp
      exact ⟨selfYaml.schema, by rw [hp]; decide, [], "self.yaml", [], rfl, rfl,
        neverFails_nil envXyzSelf⟩
    · exact ⟨["xyz.yaml"], "self.yaml", [], rfl, rfl,
        neverFails_of_ok envXyzSelf ["xyz.yaml"] 1
          [("com.xyz.Work", { Name := "Work", Fields := [], Namespace := "com.xyz" })]
          (by decide)⟩
  · exact ((C21_import_cycles_and_termination envXyzSelf rootXyzSelf).2.1 "self.yaml"
      (Or.inl (by decide)) hself).1
  · obtain ⟨r, _, hr⟩ := (C21_import_cycles_and_termination envXyzSelf importedFieldType).2.2
      ["xyz.yaml"]
      (fun p s hp _ => by
        rcases hp with hp | ⟨q, hq, hqp⟩
        · exact hp
        · have hq' : q = "xyz.yaml" := by simpa [importedFieldType] using hq
          subst hq'
          exact absurd hqp (not_reaches_xyz p))
      (fun p hp hpp => by
        rcases hp with hp | ⟨q, hq, hqp⟩
        · have hp' : p = "xyz.yaml" := by simpa [importedFieldType] using hp
          subst hp'
          exact not_reaches_xyz _ hpp
        · have hq' : q = "xyz.yaml" := by simpa [importedFieldType] using hq
          subst hq'
          exact not_reaches_xyz p hqp)
    intro fuel hfuel
    have h2 : ProcessSchema envXyzSelf 2 importedFieldType = .ok () := by decide
    rw [hr fuel hfuel, ← hr 2 (by decide), h2]
  · obtain ⟨r, _, hr⟩ := (C21_import_cycles_and_termination envDiamond leftYaml.schema).2.2
      ["base.yaml", "left.yaml", "right.yaml"]
      (fun p s _ hs => sourceAt_ofSources_mem [baseYaml, leftYaml, rightYaml] p s hs)
      (fun p _ => envDiamond_acyclic p)
    intro fuel hfuel
    have h4 : ProcessSchema envDiamond 4 leftYaml.schema = .ok () := by decide
    rw [hr fuel hfuel, ← hr 4 (by decide), h4]
  · obtain ⟨r, _, hr⟩ := (C21_import_cycles_and_termination envDiamond rootDiamond).2.2
      ["base.yaml", "left.yaml", "right.yaml"]
      (fun p s _ hs => sourceAt_ofSources_mem [baseYaml, leftYaml, rightYaml] p s hs)
      (fun p _ => envDiamond_acyclic p)
    intro fuel hfuel
    have h4 : ProcessSchema envDiamond 4 rootDiamond =
        .err (.duplicateClass "Id" "com.base") := by decide
    rw [hr fuel hfuel, ← hr 4 (by decide), h4]

end Compactc
